import Mathlib

/-! Shallow embedding of `cat`, `grep` and `xgetline`, and their properties.

The C sources `src/cat/cat.c`, `src/grep/grep.c` and `src/common/__xstdio.c`
are embedded as Lean functions.  Bytes are natural numbers (a well-formed
stream only holds values below 256), `EOF` is `none`, and a `FILE *` is a record
that holds the bytes still to be read (or the bytes written so far) together
with the end-of-file and error indicators of `<stdio.h>`.  `size_t` arithmetic
is taken modulo `2 ^ 64`.  A loop becomes a function that recurses on an
iteration budget; every loop reads one byte per iteration and its caller hands
over a budget larger than the number of unread bytes.

The definitions come first, the properties follow after them.
-/

namespace CatGrep

/-! ## Streams -/

/-- An input `FILE *`.  `data` are the bytes not read yet; `bad` tells whether
the read after the last byte fails (device error) rather than reporting
end-of-file; `eof` and `err` are the indicators tested by `feof`/`ferror`. -/
structure IStream where
  data : List Nat
  bad : Bool
  eof : Bool
  err : Bool
deriving DecidableEq, Repr

/-- An output `FILE *`.  `out` are the bytes written so far; `room` bounds the
number of further bytes the device accepts (`none`: no bound); `err` is the
indicator tested by `ferror`. -/
structure OStream where
  out : List Nat
  room : Option Nat
  err : Bool
deriving DecidableEq, Repr

/-- `fgetc(stream)`: the next byte, or `none` (EOF) with the end-of-file or the
error indicator set. -/
def fgetc (s : IStream) : Option Nat × IStream :=
  match s.data with
  | b :: rest => (some b, { s with data := rest })
  | [] => if s.bad then (none, { s with err := true }) else (none, { s with eof := true })

/-- `fputc(c, stream)`: `c` is converted to `unsigned char` and appended, unless
the device is full, in which case the error indicator is set. -/
def fputc (c : Nat) (s : OStream) : OStream :=
  match s.room with
  | none => { s with out := s.out ++ [c % 256] }
  | some 0 => { s with err := true }
  | some (n + 1) => { s with out := s.out ++ [c % 256], room := some n }

/-- Writing a byte string: one `fputc` per byte. -/
def fputs (bytes : List Nat) (s : OStream) : OStream :=
  bytes.foldl (fun acc c => fputc c acc) s

/-- A fresh readable stream over the bytes `X` whose end is a regular end-of-file. -/
def IStream.ofBytes (X : List Nat) : IStream :=
  { data := X, bad := false, eof := false, err := false }

/-- A fresh writable stream that accepts every byte. -/
def OStream.fresh : OStream :=
  { out := [], room := none, err := false }

/-! ## printf conversions -/

/-- The decimal digits of `n` as ASCII bytes. -/
def decimal (n : Nat) : List Nat :=
  (Nat.toDigits 10 n).map Char.toNat

/-- The bytes `printf("%6lu\t", n)` produces: the decimal digits, padded on the
left with spaces up to the minimum field width 6, then a tab. -/
def fmt_6lu_tab (n : Nat) : List Nat :=
  List.replicate (6 - (decimal n).length) 32 ++ decimal n ++ [9]

/-! ## cat -/

/-- The display options of `cat.c` (the six `opt_*` globals). -/
structure Opts where
  opt_number : Bool
  opt_number_nonblank : Bool
  opt_show_nonprinting : Bool
  opt_show_tabs : Bool
  opt_show_ends : Bool
  opt_squeeze_blank : Bool
deriving DecidableEq, Repr

/-- The variables of `cat`: the loop variables `ch` and `eol`, the global
`cnt_line` (a `size_t`, 64 bits) and the two streams. -/
structure CatState where
  ch : Option Nat
  eol : Int
  cnt_line : Nat
  istream : IStream
  ostream : OStream
deriving DecidableEq, Repr

/-- `ch = fgetc(istream);` -/
def next_ch (s : CatState) : CatState :=
  { s with ch := (fgetc s.istream).1, istream := (fgetc s.istream).2 }

/-- `(void) fprintf(ostream, "%6lu\t", ++cnt_line);` -/
def print_number (s : CatState) : CatState :=
  { s with cnt_line := (s.cnt_line + 1) % 2 ^ 64,
           ostream := fputs (fmt_6lu_tab ((s.cnt_line + 1) % 2 ^ 64)) s.ostream }

/-- Lines 191-193: `if (opt_number && !opt_number_nonblank) fprintf(...)`. -/
def number_blank (o : Opts) (s : CatState) : CatState :=
  if o.opt_number && !o.opt_number_nonblank then print_number s else s

/-- Lines 196-200: `if (opt_show_ends) fputc('$', ostream); fputc('\n', ostream);`. -/
def end_line (o : Opts) (s : CatState) : CatState :=
  let os := if o.opt_show_ends then fputc 36 s.ostream else s.ostream
  { s with ostream := fputc 10 os }

/-- The `while (ch == '\n')` loop, lines 175-202. -/
def blank_loop (o : Opts) : Nat → CatState → CatState
  | 0, s => s
  | fuel + 1, s =>
    if s.ch = some 10 then
      let s1 := { s with eol := s.eol + 1 }
      if s1.eol > 0 then
        if s1.eol ≥ 2 then
          let s2 := { s1 with eol := 2 }
          if o.opt_squeeze_blank then
            blank_loop o fuel (next_ch s2)
          else
            blank_loop o fuel (next_ch (end_line o (number_blank o s2)))
        else
          blank_loop o fuel (next_ch (end_line o (number_blank o s1)))
      else
        blank_loop o fuel (next_ch (end_line o s1))
    else s

/-- The bytes written for one non-newline byte `ch` when `opt_show_nonprinting`
is set: the body of the loop of lines 215-246, one `fputc` per list element. -/
def quote_byte (o : Opts) (ch : Nat) : List Nat :=
  if ch < 32 then
    if ch = 9 && !o.opt_show_tabs then [9]
    else [94, ch + 64]
  else if ch < 127 then [ch]
  else if ch = 127 then [94, 63]
  else
    [77, 45] ++
      (if ch < 128 + 32 then [94, ch - 128 + 64]
       else if ch < 128 + 127 then [ch - 128]
       else [94, 63])

/-- The bytes written for one non-newline byte `ch` when `opt_show_nonprinting`
is clear: the body of the loop of lines 250-259. -/
def plain_byte (o : Opts) (ch : Nat) : List Nat :=
  if ch = 9 && o.opt_show_tabs then [94, ch + 64]
  else [ch]

/-- The per-byte visualisation of `cat`: the branch of line 213. -/
def show_byte (o : Opts) (ch : Nat) : List Nat :=
  if o.opt_show_nonprinting then quote_byte o ch else plain_byte o ch

/-- The `while (ch != '\n' && ch != EOF)` loop of lines 215-246. -/
def quote_loop (o : Opts) : Nat → CatState → CatState
  | 0, s => s
  | fuel + 1, s =>
    match s.ch with
    | none => s
    | some ch =>
      if ch ≠ 10 then
        quote_loop o fuel (next_ch { s with ostream := fputs (quote_byte o ch) s.ostream })
      else s

/-- The `while (ch != '\n' && ch != EOF)` loop of lines 250-259. -/
def plain_loop (o : Opts) : Nat → CatState → CatState
  | 0, s => s
  | fuel + 1, s =>
    match s.ch with
    | none => s
    | some ch =>
      if ch ≠ 10 then
        plain_loop o fuel (next_ch { s with ostream := fputs (plain_byte o ch) s.ostream })
      else s

/-- One pass through the body of the `for` loop, lines 175-263.  The inner loops
read one byte per iteration, so `data.length + 2` iterations suffice for each. -/
def cat_body (o : Opts) (s : CatState) : CatState :=
  let s1 := blank_loop o (s.istream.data.length + 2) s
  let s2 := if o.opt_number && s1.ch.isSome then print_number s1 else s1
  let s3 :=
    if o.opt_show_nonprinting then quote_loop o (s2.istream.data.length + 2) s2
    else plain_loop o (s2.istream.data.length + 2) s2
  { s3 with eol := -1 }

/-- The `for` loop of lines 172-264, after its initialisation. -/
def cat_loop (o : Opts) : Nat → CatState → CatState
  | 0, s => s
  | fuel + 1, s =>
    if s.ch.isSome && !s.istream.err && !s.ostream.err then
      cat_loop o fuel (cat_body o s)
    else s

/-- What `cat` leaves behind: its return value, the global counter and the streams. -/
structure CatResult where
  rval : Int
  cnt_line : Nat
  istream : IStream
  ostream : OStream
deriving DecidableEq, Repr

/-- The function `cat` (lines 168-280); `cnt_line` is the value of the global
counter on entry.  The diagnostics of lines 267 and 270 go to `stdout` by
`printf` and are not part of what is written through `ostream`. -/
def cat (o : Opts) (cnt_line : Nat) (istream : IStream) (ostream : OStream) : CatResult :=
  let s0 : CatState :=
    { ch := (fgetc istream).1, eol := 0, cnt_line := cnt_line,
      istream := (fgetc istream).2, ostream := ostream }
  let s := cat_loop o (istream.data.length + 2) s0
  let rval : Int := 0
  let rval := if s.istream.err then -1 else rval
  let rval := if s.ostream.err then -1 else rval
  let rval := if !s.istream.eof then -1 else rval
  { rval := rval, cnt_line := s.cnt_line, istream := s.istream, ostream := s.ostream }

/-- No display option set. -/
def Opts.none : Opts :=
  { opt_number := false, opt_number_nonblank := false, opt_show_nonprinting := false,
    opt_show_tabs := false, opt_show_ends := false, opt_squeeze_blank := false }

/-! ## A one-pass description of `cat` on error-free streams

`flat` reads the pending input once, carrying only the position inside the
`for` body (`inBody`: inside a line body, otherwise at the head of the
newline loop), the blank-run counter `eol` and the line counter.  It returns
the bytes handed to `fputc` and the final counter.  It is the tool with which
the properties of `cat` are proved; `cat_eq_flat` connects the two. -/

/-- The bytes and the counter update of `number_blank`. -/
def number_blank_bytes (o : Opts) (cnt : Nat) : List Nat × Nat :=
  if o.opt_number && !o.opt_number_nonblank then
    (fmt_6lu_tab ((cnt + 1) % 2 ^ 64), (cnt + 1) % 2 ^ 64)
  else ([], cnt)

/-- The bytes and the counter update of line 206-207. -/
def number_line_bytes (o : Opts) (cnt : Nat) : List Nat × Nat :=
  if o.opt_number then (fmt_6lu_tab ((cnt + 1) % 2 ^ 64), (cnt + 1) % 2 ^ 64)
  else ([], cnt)

/-- The bytes of `end_line`. -/
def end_line_bytes (o : Opts) : List Nat :=
  (if o.opt_show_ends then [36] else []) ++ [10]

/-- One pass over the pending input. -/
def flat (o : Opts) : Bool → Int → Nat → List Nat → List Nat × Nat
  | _, _, cnt, [] => ([], cnt)
  | true, eol, cnt, b :: rest =>
    if b = 10 then
      (end_line_bytes o ++ (flat o false 0 cnt rest).1, (flat o false 0 cnt rest).2)
    else
      (show_byte o b ++ (flat o true eol cnt rest).1, (flat o true eol cnt rest).2)
  | false, eol, cnt, b :: rest =>
    if b = 10 then
      if eol + 1 > 0 then
        if eol + 1 ≥ 2 then
          if o.opt_squeeze_blank then flat o false 2 cnt rest
          else
            ((number_blank_bytes o cnt).1 ++ end_line_bytes o ++
                (flat o false 2 (number_blank_bytes o cnt).2 rest).1,
              (flat o false 2 (number_blank_bytes o cnt).2 rest).2)
        else
          ((number_blank_bytes o cnt).1 ++ end_line_bytes o ++
              (flat o false (eol + 1) (number_blank_bytes o cnt).2 rest).1,
            (flat o false (eol + 1) (number_blank_bytes o cnt).2 rest).2)
      else
        (end_line_bytes o ++ (flat o false (eol + 1) cnt rest).1,
          (flat o false (eol + 1) cnt rest).2)
    else
      ((number_line_bytes o cnt).1 ++ show_byte o b ++
          (flat o true eol (number_line_bytes o cnt).2 rest).1,
        (flat o true eol (number_line_bytes o cnt).2 rest).2)

/-- The input a state still has to process: the byte in `ch` and the unread bytes. -/
def pending (s : CatState) : List Nat :=
  match s.ch with
  | some b => b :: s.istream.data
  | none => []

/-- Both streams are free of errors and will stay so. -/
def StreamsOk (s : CatState) : Prop :=
  s.istream.bad = false ∧ s.istream.err = false ∧
    s.ostream.room = none ∧ s.ostream.err = false

instance (s : CatState) : Decidable (StreamsOk s) := by
  unfold StreamsOk
  infer_instance

/-- An `EOF` in `ch` stems from a read at the end of the data. -/
def ChOk (s : CatState) : Prop :=
  s.ch = none → s.istream.data = [] ∧ s.istream.eof = true

instance (s : CatState) : Decidable (ChOk s) := by
  unfold ChOk
  infer_instance

/-- The final output and counter `flat` predicts for a state. -/
def predict (o : Opts) (inBody : Bool) (s : CatState) : List Nat × Nat :=
  (s.ostream.out ++ ((flat o inBody s.eol s.cnt_line (pending s)).1).map (· % 256),
    (flat o inBody s.eol s.cnt_line (pending s)).2)

/-- Only `opt_show_ends` set (`cat -E`). -/
def Opts.show_ends_only : Opts :=
  { Opts.none with opt_show_ends := true }

/-- Only `opt_squeeze_blank` set (`cat -s`). -/
def Opts.squeeze_only : Opts :=
  { Opts.none with opt_squeeze_blank := true }

/-- The options with `opt_show_tabs` forced on. -/
def Opts.with_tabs (o : Opts) : Opts :=
  { o with opt_show_tabs := true }

/-- Only `opt_show_nonprinting` set (`cat -v`). -/
def Opts.show_nonprinting_only : Opts :=
  { Opts.none with opt_show_nonprinting := true }

/-! ## Lines -/

/-- The lines of a byte sequence.  A line keeps its terminating newline; only the
last line can lack it. -/
def split_lines : List Nat → List (List Nat)
  | [] => []
  | b :: rest =>
    if b = 10 then [10] :: split_lines rest
    else
      match split_lines rest with
      | [] => [[b]]
      | l :: ls => (b :: l) :: ls

/-- Squeezing as the specification words it: a blank line (`"\n"`) together with
the blank lines that directly follow it, a maximal run of `N ≥ 1` blank lines, is
replaced by one blank line; every other line is kept, in order. -/
def squeeze_blank_runs : List (List Nat) → List (List Nat)
  | [] => []
  | l :: ls =>
    if l = [10] then [10] :: squeeze_blank_runs (ls.dropWhile (· = [10]))
    else l :: squeeze_blank_runs ls
termination_by ls => ls.length
decreasing_by
  · simp only [List.length_cons]
    have := (List.dropWhile_sublist (l := ls) (· = [10])).length_le
    omega
  · simp

/-- What `cat` writes for one emitted line after the line number: the visualised
bytes of the body, and the end-of-line bytes for the newline. -/
def render_line (o : Opts) (l : List Nat) : List Nat :=
  l.flatMap (fun b => if b = 10 then end_line_bytes o else show_byte o b)

/-- Lines numbered `k + 1, k + 2, ...`: each line is preceded by its number in the
format `%6lu\t`. -/
def number_lines (o : Opts) : Nat → List (List Nat) → List Nat
  | _, [] => []
  | k, l :: ls => fmt_6lu_tab (k + 1) ++ render_line o l ++ number_lines o (k + 1) ls

/-- The one-pass description of `cat`, line by line: `eol` is the blank-run
counter at the start of the line. -/
def cat_lines (o : Opts) : Int → Nat → List (List Nat) → List Nat × Nat
  | _, cnt, [] => ([], cnt)
  | eol, cnt, l :: ls =>
    if l = [10] then
      if eol + 1 > 0 then
        if eol + 1 ≥ 2 then
          if o.opt_squeeze_blank then cat_lines o 2 cnt ls
          else
            ((number_blank_bytes o cnt).1 ++ end_line_bytes o ++
                (cat_lines o 2 (number_blank_bytes o cnt).2 ls).1,
              (cat_lines o 2 (number_blank_bytes o cnt).2 ls).2)
        else
          ((number_blank_bytes o cnt).1 ++ end_line_bytes o ++
              (cat_lines o (eol + 1) (number_blank_bytes o cnt).2 ls).1,
            (cat_lines o (eol + 1) (number_blank_bytes o cnt).2 ls).2)
      else
        (end_line_bytes o ++ (cat_lines o (eol + 1) cnt ls).1,
          (cat_lines o (eol + 1) cnt ls).2)
    else
      ((number_line_bytes o cnt).1 ++ render_line o l ++
          (cat_lines o 0 (number_line_bytes o cnt).2 ls).1,
        (cat_lines o 0 (number_line_bytes o cnt).2 ls).2)

/-- The lines `cat` emits: all lines of the input, or the squeezed ones under
`opt_squeeze_blank`. -/
def emitted_lines (o : Opts) (X : List Nat) : List (List Nat) :=
  if o.opt_squeeze_blank then squeeze_blank_runs (split_lines X) else split_lines X

/-- The options `opt_number` and `opt_show_ends` (`cat -n -E`). -/
def Opts.number_show_ends : Opts :=
  { Opts.none with opt_number := true, opt_show_ends := true }

/-! ## xgetline (`src/common/__xstdio.c`) -/

/-- The macro `XLINESIZE`. -/
def XLINESIZE : Nat := 512

/-- The caller's buffer handle: `bufp` is `*bufp` (`none` for `NULL`, otherwise
the bytes of the heap block, whose length is the allocated size) and `bufsz` is
`*bufsz`. -/
structure LineBuf where
  bufp : Option (List Nat)
  bufsz : Nat
deriving DecidableEq, Repr

/-- `malloc(n)`: a block of `n` bytes of unspecified content `fill`. -/
def malloc (fill n : Nat) : List Nat :=
  List.replicate n fill

/-- `realloc(p, n)`: the old content, cut or extended by unspecified bytes to
`n` bytes. -/
def realloc (fill : Nat) (mem : List Nat) (n : Nat) : List Nat :=
  (mem ++ List.replicate (n - mem.length) fill).take n

/-- The variables of `xgetline` once the block exists.  `oob` records that a
store went outside the block (undefined behaviour in C). -/
structure XState where
  mem : List Nat
  bufsz : Nat
  pos : Nat
  ch : Option Nat
  stream : IStream
  oob : Bool
deriving DecidableEq, Repr

/-- The store `(*bufp)[i] = v`. -/
def store (s : XState) (i v : Nat) : XState :=
  if i < s.mem.length then { s with mem := s.mem.set i (v % 256) }
  else { s with oob := true }

/-- The store `(*bufp)[pos++] = v` (`pos` is a `size_t`). -/
def store_incr (s : XState) (v : Nat) : XState :=
  { store s s.pos v with pos := (s.pos + 1) % 2 ^ 64 }

/-- Lines 23-31: double the block when `pos + 1 >= *bufsz`. -/
def expand (fill : Nat) (s : XState) : XState :=
  if (s.pos + 1) % 2 ^ 64 ≥ s.bufsz then
    { s with mem := realloc fill s.mem (s.bufsz * 2 % 2 ^ 64),
             bufsz := s.bufsz * 2 % 2 ^ 64 }
  else s

/-- The `while` loop of lines 21-34. -/
def xgetline_loop (fill : Nat) : Nat → XState → XState
  | 0, s => s
  | fuel + 1, s =>
    if s.stream.err then s
    else
      let s1 := { s with ch := (fgetc s.stream).1, stream := (fgetc s.stream).2 }
      match s1.ch with
      | none => s1
      | some ch =>
        if ch = 10 then s1
        else xgetline_loop fill fuel (store_incr (expand fill s1) ch)

/-- What `xgetline` leaves behind: the return value, the handle, the stream, and
whether a store went outside the block. -/
structure XResult where
  rval : Int
  buf : LineBuf
  stream : IStream
  oob : Bool
deriving DecidableEq, Repr

/-- Lines 11-40 of `xgetline`, for non-null arguments. -/
def xgetline_body (fill : Nat) (buf : LineBuf) (stream : IStream) : XResult :=
  let fresh : Bool := buf.bufsz = 0 || buf.bufp.isNone
  let bufsz := if fresh then XLINESIZE else buf.bufsz
  let mem := if fresh then malloc fill XLINESIZE else buf.bufp.getD []
  let s0 : XState :=
    { mem := mem, bufsz := bufsz, pos := 0, ch := some 0, stream := stream, oob := false }
  let s1 := xgetline_loop fill (stream.data.length + 1) s0
  let s2 := if s1.ch = some 10 then store_incr s1 10 else s1
  let s3 := store s2 s2.pos 0
  { rval := if s3.stream.err then -1 else (s3.pos : Int),
    buf := { bufp := some s3.mem, bufsz := s3.bufsz },
    stream := s3.stream, oob := s3.oob }

/-- The function `xgetline`: `none` stands for a `NULL` argument, for which
lines 8-9 return -1 and touch nothing. -/
def xgetline (fill : Nat) (buf : Option LineBuf) (stream : Option IStream) :
    Int × Option XResult :=
  match buf, stream with
  | some b, some s => ((xgetline_body fill b s).rval, some (xgetline_body fill b s))
  | _, _ => (-1, none)

/-- The empty handle `line = NULL, size = 0` of `grep.c`. -/
def LineBuf.null : LineBuf :=
  { bufp := none, bufsz := 0 }

/-- A line of 511 bytes `a` and its newline. -/
def line_511 : List Nat :=
  List.replicate 511 97 ++ [10]

/-- The value of `*bufsz` after `n` more bytes of a line body have been stored,
the next one at index `pos`: the block doubles whenever `pos + 1 >= *bufsz`. -/
def grow : Nat → Nat → Nat → Nat
  | bufsz, _, 0 => bufsz
  | bufsz, pos, n + 1 => grow (if pos + 1 ≥ bufsz then bufsz * 2 else bufsz) (pos + 1) n

/-- The first line of a byte sequence as the specification words it: the
shortest beginning that ends with the first newline, or everything if there is
no newline. -/
def first_line : List Nat → List Nat
  | [] => []
  | b :: rest => if b = 10 then [10] else b :: first_line rest

/-! ## strstr_ignore_case (`src/grep/grep.c`) -/

/-- `tolower` in the "C" locale (the program never calls `setlocale`). -/
def tolower (c : Nat) : Nat :=
  if 65 ≤ c ∧ c ≤ 90 then c + 32 else c

/-- `*p` for a pointer `p` into a NUL-terminated string, given as the bytes
from `p` up to the terminator. -/
def deref (p : List Nat) : Nat :=
  p.headD 0

/-- The inner `while` loop of lines 276-280, started with `strpos` and `subpos`:
the value of `subpos` when the loop ends. -/
def match_loop : List Nat → List Nat → List Nat
  | _, [] => []
  | strpos, c :: subpos =>
    if c ≠ 0 ∧ tolower (deref strpos) = tolower c then match_loop strpos.tail subpos
    else c :: subpos

/-- The `for` loop of lines 272-286 with `str` advanced by `off` bytes: the
offset of the pointer finally stored in `pos`, `none` for `NULL`. -/
def strstr_ignore_case_from (substr : List Nat) : List Nat → Nat → Option Nat
  | [], _ => none
  | c :: rest, off =>
    if c = 0 then none
    else if deref (match_loop (c :: rest) substr) = 0 then some off
    else strstr_ignore_case_from substr rest (off + 1)

/-- The function `strstr_ignore_case`: the offset of the returned pointer in
`str`, `none` for `NULL`. -/
def strstr_ignore_case (str substr : List Nat) : Option Nat :=
  strstr_ignore_case_from substr str 0

/-! ## grep (`src/grep/grep.c`) -/

/-- The option globals of `grep.c`. -/
structure GrepOpts where
  opt_ignore_case : Bool
  opt_invert : Bool
  opt_count_only : Bool
  opt_files_only : Bool
  opt_number : Bool
  opt_anonymous : Bool
  opt_silent : Bool
  opt_matching_part : Bool
deriving DecidableEq, Repr

/-- Modelled from the C standard (`<string.h>`, not part of the repository): the
loop behind `strstr(hay, needle)` with `hay` advanced by `off` bytes. -/
def strstr_from (needle : List Nat) : List Nat → Nat → Option Nat
  | [], off => if needle = [] then some off else none
  | c :: rest, off =>
    if needle.isPrefixOf (c :: rest) then some off
    else strstr_from needle rest (off + 1)

/-- Modelled from the C standard (`<string.h>`, not part of the repository):
`strstr(hay, needle)` is the offset of the first occurrence of `needle` in `hay`,
`none` for `NULL`. -/
def strstr (hay needle : List Nat) : Option Nat :=
  strstr_from needle hay 0

/-- The C string that starts at the beginning of a block: the bytes before the
first NUL.  For a block without NUL these are all its bytes, which is the
string a reader finds when the NUL was stored right behind the block. -/
def cstr (mem : List Nat) : List Nat :=
  mem.takeWhile (· ≠ 0)

/-- The values of the pointer `where` in `grep`: `NULL`, the pattern (the
initial value under `opt_invert`), or the line buffer advanced by `off`. -/
inductive Where where
  | null : Where
  | needle : Where
  | line (off : Nat) : Where
deriving DecidableEq, Repr

/-- The variables of `grep`: `pos` is `where`; `oob` collects the `oob` flags of
the `xgetline` calls. -/
structure GrepState where
  pos : Where
  buf : LineBuf
  stream : IStream
  cnt_line : Nat
  oob : Bool
deriving DecidableEq, Repr

/-- Lines 153-154: the search for `needle` in the line just read. -/
def search (g : GrepOpts) (hay needle : List Nat) : Option Nat :=
  if g.opt_ignore_case then strstr_ignore_case hay needle else strstr hay needle

/-- The `while` loop of `grep`, lines 148-155. -/
def grep_loop (fill : Nat) (g : GrepOpts) (needle : List Nat) : Nat → GrepState → GrepState
  | 0, s => s
  | fuel + 1, s =>
    if (!g.opt_invert && s.pos = Where.null) || (g.opt_invert && s.pos ≠ Where.null) then
      let r := xgetline_body fill s.buf s.stream
      if r.rval > 0 then
        grep_loop fill g needle fuel
          { pos := match search g (cstr (r.buf.bufp.getD [])) needle with
              | some off => Where.line off
              | none => Where.null,
            buf := r.buf, stream := r.stream,
            cnt_line := (s.cnt_line + 1) % 2 ^ 64,
            oob := s.oob || r.oob }
      else { s with buf := r.buf, stream := r.stream, oob := s.oob || r.oob }
    else s

/-- What a call of `grep` leaves behind: `ret` is the returned pointer as an
offset into the line buffer (`none` for `NULL`). -/
structure GrepResult where
  ret : Option Nat
  buf : LineBuf
  stream : IStream
  cnt_line : Nat
  oob : Bool
deriving DecidableEq, Repr

/-- The function `grep` (lines 140-186) for non-null arguments; `cnt_line` is
the value of the global counter on entry.  (Lines 141-142 return `NULL` for a
`NULL` argument; `main` passes the pattern, `&line`, `&size` and an open
stream.) -/
def grep (fill : Nat) (g : GrepOpts) (needle : List Nat) (buf : LineBuf) (stream : IStream)
    (cnt_line : Nat) : GrepResult :=
  let s0 : GrepState :=
    { pos := if !g.opt_invert then Where.null else Where.needle,
      buf := buf, stream := stream, cnt_line := cnt_line, oob := false }
  let s := grep_loop fill g needle (stream.data.length + 1) s0
  { ret :=
      if !g.opt_invert then
        (match s.pos with
          | Where.line off => some off
          | _ => none)
      else (if s.pos ≠ Where.null then none else some 0),
    buf := s.buf, stream := s.stream, cnt_line := s.cnt_line, oob := s.oob }

/-- The cast `(int) n` of a `size_t` (two's complement, 32 bits). -/
def int_of_size (n : Nat) : Int :=
  if n % 2 ^ 32 < 2 ^ 31 then ((n % 2 ^ 32 : Nat) : Int) else ((n % 2 ^ 32 : Nat) : Int) - 2 ^ 32

/-- The bytes `printf("%.*s", prec, s)` produces: at most `prec` bytes of the
string; a negative precision counts as omitted. -/
def fmt_prec_s (prec : Int) (s : List Nat) : List Nat :=
  if prec < 0 then s else s.take prec.toNat

/-- The variables of the per-file part of `main` (lines 92-123): the local
`cnt_matches`, the line buffer `line`/`size`, the stream, the global `cnt_line`
and `stdout`. -/
structure FileState where
  cnt_matches : Nat
  buf : LineBuf
  stream : IStream
  cnt_line : Nat
  out : OStream
  oob : Bool
deriving DecidableEq, Repr

/-- Lines 107-116: the output for one qualifying line; `off` is the offset of
`where` in the line buffer. -/
def print_line (g : GrepOpts) (pattern name : List Nat) (off : Nat) (s : FileState) :
    FileState :=
  let o1 := if !g.opt_anonymous then fputs (name ++ [58]) s.out else s.out
  let o2 := if g.opt_number then fputs (decimal s.cnt_line ++ [58]) o1 else o1
  let o3 :=
    if !g.opt_matching_part then fputs (cstr (s.buf.bufp.getD [])) o2
    else
      fputs (fmt_prec_s (int_of_size pattern.length) ((cstr (s.buf.bufp.getD [])).drop off)
        ++ [10]) o2
  { s with out := o3 }

/-- The `while` loop of `main`, lines 94-118; `name` is `*argp`. -/
def grep_file_loop (fill : Nat) (g : GrepOpts) (pattern name : List Nat) :
    Nat → FileState → FileState
  | 0, s => s
  | fuel + 1, s =>
    if !s.stream.eof && !s.stream.err then
      let r := grep fill g pattern s.buf s.stream s.cnt_line
      let s1 : FileState :=
        { s with buf := r.buf, stream := r.stream, cnt_line := r.cnt_line,
                 oob := s.oob || r.oob }
      match r.ret with
      | none => s1
      | some off =>
        if g.opt_count_only || (g.opt_invert && g.opt_matching_part) then
          grep_file_loop fill g pattern name fuel
            { s1 with cnt_matches := (s1.cnt_matches + 1) % 2 ^ 64 }
        else if g.opt_files_only then
          { s1 with out := fputs (name ++ [10]) s1.out }
        else
          grep_file_loop fill g pattern name fuel (print_line g pattern name off s1)
    else s

/-- Lines 92-123 of `main` for one opened stream: the loop and the count line. -/
def grep_file (fill : Nat) (g : GrepOpts) (pattern name : List Nat) (buf : LineBuf)
    (stream : IStream) (cnt_line : Nat) (out : OStream) : FileState :=
  let s := grep_file_loop fill g pattern name (stream.data.length + 1)
    { cnt_matches := 0, buf := buf, stream := stream, cnt_line := cnt_line, out := out,
      oob := false }
  if g.opt_count_only then
    let o1 := if !g.opt_anonymous then fputs (name ++ [58]) s.out else s.out
    { s with out := fputs (decimal s.cnt_matches ++ [10]) o1 }
  else s

/-- An ASCII string as bytes. -/
def bytes_of (s : String) : List Nat :=
  s.toList.map Char.toNat

/-- One file argument of `grep`: the argument string, and what `fopen` returns
for it (`none` for `NULL`). -/
structure FileArg where
  arg : List Nat
  opened : Option IStream
deriving DecidableEq, Repr

/-- The variables that live across the files in `main`: the line buffer, `stdin`,
the global `cnt_line`, `stdout`. -/
structure MainState where
  buf : LineBuf
  stdin : IStream
  cnt_line : Nat
  out : OStream
  oob : Bool
deriving DecidableEq, Repr

/-- One pass through the body of the `for` loop of `main`, lines 79-130, followed
by its increment `cnt_line = 0` (which a `continue` reaches as well). -/
def grep_arg (fill : Nat) (g : GrepOpts) (pattern : List Nat) (f : FileArg) (m : MainState) :
    MainState :=
  let is_stdin : Bool := f.arg = [45]
  let name := if is_stdin then bytes_of "(standard input)" else f.arg
  let istream := if is_stdin then some m.stdin else f.opened
  match istream with
  | none =>
    let out :=
      if !g.opt_silent then
        fputs (bytes_of "[ERROR] grep: cannot open file '" ++ name ++ bytes_of "'\n") m.out
      else m.out
    { m with out := out, cnt_line := 0 }
  | some stream =>
    let s := grep_file fill g pattern name m.buf stream m.cnt_line m.out
    { buf := s.buf,
      stdin := if is_stdin then { s.stream with eof := false, err := false } else m.stdin,
      cnt_line := 0, out := s.out, oob := m.oob || s.oob }

/-- The `for` loop of `main`, lines 75-132, over the file arguments. -/
def grep_args (fill : Nat) (g : GrepOpts) (pattern : List Nat) :
    List FileArg → MainState → MainState
  | [], m => m
  | f :: fs, m => grep_args fill g pattern fs (grep_arg fill g pattern f m)

/-- Lines 63-134 of `main`: `opt_anonymous` is set for a single file argument,
then the files are processed with `line = NULL`, `size = 0`, `cnt_line = 0`. -/
def grep_main (fill : Nat) (g : GrepOpts) (pattern : List Nat) (files : List FileArg)
    (stdin : IStream) (out : OStream) : MainState :=
  let g1 := if files.length = 1 then { g with opt_anonymous := true } else g
  grep_args fill g1 pattern files
    { buf := LineBuf.null, stdin := stdin, cnt_line := 0, out := out, oob := false }

/-! ## grep, line by line -/

/-- A readable stream without read error, now or later, whose end-of-file
indicator is only set when all bytes are read. -/
def StreamGood (st : IStream) : Prop :=
  st.bad = false ∧ st.err = false ∧ (st.eof = true → st.data = [])

/-- A valid buffer handle: empty, or a block of exactly `bufsz` bytes. -/
def BufOk (buf : LineBuf) : Prop :=
  buf.bufsz = 0 ∨ buf.bufp = none ∨ ∃ mem, buf.bufp = some mem ∧ mem.length = buf.bufsz

/-- What `grep` makes of one line: `some off` when the line qualifies (`off` is
the offset of the first match, or 0 under `opt_invert`), `none` when the line
is skipped. -/
def qualify (g : GrepOpts) (pattern line : List Nat) : Option Nat :=
  match search g line pattern with
  | some off => if g.opt_invert then none else some off
  | none => if g.opt_invert then some 0 else none

/-- One call of `grep` on a stream with the given lines: the qualifying line it
stops at with its offset (or `none` at the end of the stream), the line counter
afterwards, and the lines left in the stream. -/
def grep_lines (g : GrepOpts) (pattern : List Nat) :
    Nat → List (List Nat) → Option (Nat × List Nat) × Nat × List (List Nat)
  | cnt, [] => (none, cnt, [])
  | cnt, l :: ls =>
    match qualify g pattern l with
    | some off => (some (off, l), cnt + 1, ls)
    | none => grep_lines g pattern (cnt + 1) ls

/-- The bytes `main` prints for the qualifying line `line`, which is line number
`idx` of its stream and was returned with offset `off` (lines 107-116). -/
def line_out (g : GrepOpts) (pattern name : List Nat) (idx : Nat) (line : List Nat)
    (off : Nat) : List Nat :=
  (if g.opt_anonymous then [] else name ++ [58]) ++
    (if g.opt_number then decimal idx ++ [58] else []) ++
    (if g.opt_matching_part then
      fmt_prec_s (int_of_size pattern.length) (line.drop off) ++ [10]
    else line)

/-- The bytes the loop of lines 94-118 prints for a stream with the given lines,
and the final `cnt_matches`; `cnt` lines are already consumed and `m` is the
current `cnt_matches`. -/
def file_lines_out (g : GrepOpts) (pattern name : List Nat) :
    Nat → Nat → List (List Nat) → List Nat × Nat
  | _, m, [] => ([], m)
  | cnt, m, l :: ls =>
    match qualify g pattern l with
    | none => file_lines_out g pattern name (cnt + 1) m ls
    | some off =>
      if g.opt_count_only || (g.opt_invert && g.opt_matching_part) then
        file_lines_out g pattern name (cnt + 1) (m + 1) ls
      else if g.opt_files_only then (name ++ [10], m)
      else
        (line_out g pattern name (cnt + 1) l off ++
            (file_lines_out g pattern name (cnt + 1) m ls).1,
          (file_lines_out g pattern name (cnt + 1) m ls).2)

/-- The bytes lines 92-123 print for a stream with the given lines: the output
of the loop and the count line. -/
def file_out (g : GrepOpts) (pattern name : List Nat) (cnt : Nat) (lines : List (List Nat)) :
    List Nat :=
  (file_lines_out g pattern name cnt 0 lines).1 ++
    (if g.opt_count_only then
      (if g.opt_anonymous then [] else name ++ [58]) ++
        decimal (file_lines_out g pattern name cnt 0 lines).2 ++ [10]
    else [])

instance (st : IStream) : Decidable (StreamGood st) := by
  unfold StreamGood
  infer_instance

/-- The message of line 87. -/
def open_error (name : List Nat) : List Nat :=
  bytes_of "[ERROR] grep: cannot open file '" ++ name ++ bytes_of "'\n"

/-- The bytes `main` prints for one file argument (other than `-`), as a
function of the lines of the file: the message of line 87 if the file cannot be
opened and `opt_silent` is clear, otherwise the output for the stream with the
line counter starting at 0. -/
def arg_out (g : GrepOpts) (pattern : List Nat) (f : FileArg) : List Nat :=
  match f.opened with
  | none => if g.opt_silent then [] else open_error f.arg
  | some st => file_out g pattern f.arg 0 (split_lines st.data)

/-- A file argument other than `-` whose name consists of bytes and whose stream,
if it can be opened, is NUL-free text of less than `2 ^ 63` bytes without read
error. -/
def FileArgOk (f : FileArg) : Prop :=
  f.arg ≠ [45] ∧ (∀ b ∈ f.arg, b < 256) ∧
    match f.opened with
    | none => True
    | some st =>
      StreamGood st ∧ (∀ b ∈ st.data, b < 256) ∧ (∀ b ∈ st.data, b ≠ 0) ∧
        st.data.length + 1 < 2 ^ 63

instance (f : FileArg) : Decidable (FileArgOk f) := by
  unfold FileArgOk
  cases f.opened <;> infer_instance

/-- With `opt_ignore_case` the line contains the pattern up to letter case,
otherwise it contains the pattern itself. -/
def contains_pattern (g : GrepOpts) (pattern line : List Nat) : Prop :=
  if g.opt_ignore_case then pattern.map tolower <:+: line.map tolower
  else pattern <:+: line

instance (g : GrepOpts) (pattern line : List Nat) : Decidable (contains_pattern g pattern line) := by
  unfold contains_pattern
  infer_instance

/-- No option of `grep` set. -/
def GrepOpts.none : GrepOpts :=
  { opt_ignore_case := false, opt_invert := false, opt_count_only := false,
    opt_files_only := false, opt_number := false, opt_anonymous := false,
    opt_silent := false, opt_matching_part := false }

/-- Only `opt_invert` set (`grep -v`). -/
def GrepOpts.invert_only : GrepOpts :=
  { GrepOpts.none with opt_invert := true }

/-- Only `opt_number` set (`grep -n`). -/
def GrepOpts.number_only : GrepOpts :=
  { GrepOpts.none with opt_number := true }

/-- The options `opt_ignore_case` and `opt_matching_part` (`grep -i -o`). -/
def GrepOpts.ignore_case_part : GrepOpts :=
  { GrepOpts.none with opt_ignore_case := true, opt_matching_part := true }

/-- The options `opt_invert`, `opt_matching_part` and `opt_count_only`
(`grep -v -o -c`). -/
def GrepOpts.invert_part_count : GrepOpts :=
  { GrepOpts.none with opt_invert := true, opt_matching_part := true, opt_count_only := true }

/-- The bytes of "Hello\nWorld\n". -/
def hello_world : List Nat :=
  [72, 101, 108, 108, 111, 10, 87, 111, 114, 108, 100, 10]


/-! ## `main` of `cat.c` -/

/-- One pass through the `switch` of lines 61-116 for the value `opt` that
`getopt_long` returned: the option globals and `rval`.  (What `usage` and
`usage_brief` print is left out.) -/
def cook_opt (opt : Nat) (s : Opts × Int) : Opts × Int :=
  if opt = 98 then ({ s.1 with opt_number := true, opt_number_nonblank := true }, s.2)
  else if opt = 101 then ({ s.1 with opt_show_ends := true, opt_show_nonprinting := true }, s.2)
  else if opt = 110 then ({ s.1 with opt_number := true }, s.2)
  else if opt = 115 then ({ s.1 with opt_squeeze_blank := true }, s.2)
  else if opt = 116 then ({ s.1 with opt_show_tabs := true, opt_show_nonprinting := true }, s.2)
  else if opt = 117 then s
  else if opt = 118 then ({ s.1 with opt_show_nonprinting := true }, s.2)
  else if opt = 65 then
    ({ s.1 with opt_show_nonprinting := true, opt_show_ends := true, opt_show_tabs := true }, s.2)
  else if opt = 69 then ({ s.1 with opt_show_ends := true }, s.2)
  else if opt = 84 then ({ s.1 with opt_show_tabs := true }, s.2)
  else if opt = 104 then (s.1, 1)
  else (s.1, -1)

/-- The option loop of lines 56-117 over the values `getopt_long` returns one
after the other; it runs while `rval == 0`. -/
def cook_opts : List Nat → Opts × Int → Opts × Int
  | [], s => s
  | opt :: rest, s => if s.2 = 0 then cook_opts rest (cook_opt opt s) else s

/-- The variables of the main loop of `cat.c`: `rval`, the global `cnt_line`,
`stdin` and `stdout`. -/
structure CatMain where
  rval : Int
  cnt_line : Nat
  stdin : IStream
  out : OStream
deriving DecidableEq, Repr

/-- Lines 266-270: the diagnostics of `cat`, which `printf` writes to `stdout`. -/
def cat_diag (r : CatResult) (stdout : OStream) : OStream :=
  let o1 :=
    if r.istream.err then
      fputs (bytes_of "[ERROR] cat: error occured while reading input stream\n") stdout
    else stdout
  if r.ostream.err then
    fputs (bytes_of "[ERROR] cat: error occured while writing in output stream\n") o1
  else o1

/-- One pass through the body of the main loop, lines 144-161, with
`ostream = stdout`; `flag_stdin` is set when there is no file argument.  The
counter `cnt_line` is handed to `cat` as the last call left it. -/
def cat_arg (o : Opts) (flag_stdin : Bool) (f : FileArg) (m : CatMain) : CatMain :=
  let is_stdin : Bool := flag_stdin || decide (f.arg = [45])
  let istream := if is_stdin then some m.stdin else f.opened
  match istream with
  | none =>
    { m with rval := -1,
             out := fputs (bytes_of "[ERROR] cat: cannot open file: " ++ f.arg ++ [10]) m.out }
  | some st =>
    let r := cat o m.cnt_line st m.out
    { rval := r.rval, cnt_line := r.cnt_line,
      stdin := if is_stdin then { r.istream with eof := false, err := false } else m.stdin,
      out := cat_diag r r.ostream }

/-- The main loop, lines 139-162, over the file arguments: it runs while
`rval == 0` (the `break` of line 151 leaves with `rval = -1`). -/
def cat_args (o : Opts) (flag_stdin : Bool) : List FileArg → CatMain → CatMain
  | [], m => m
  | f :: fs, m => if m.rval = 0 then cat_args o flag_stdin fs (cat_arg o flag_stdin f m) else m

/-- Lines 128-162 of `main` for cooked options `o` and the `rval` of the option
loop: without file argument the loop runs once on `stdin`; `cnt_line` starts at
its initial value 0. -/
def cat_files (o : Opts) (rval : Int) (files : List FileArg) (stdin : IStream)
    (out : OStream) : CatMain :=
  let flag_stdin : Bool := files.isEmpty
  let args := if flag_stdin then [{ arg := [], opened := none }] else files
  cat_args o flag_stdin args { rval := rval, cnt_line := 0, stdin := stdin, out := out }

/-- The bytes of the file behind an argument (none if it cannot be opened). -/
def FileArg.bytes (f : FileArg) : List Nat :=
  match f.opened with
  | some st => st.data
  | none => []

/-- A file argument of `cat` other than `-` that opens as a stream of bytes
without read error. -/
def CatArgOk (f : FileArg) : Prop :=
  f.arg ≠ [45] ∧
    match f.opened with
    | none => False
    | some st => st.bad = false ∧ st.err = false ∧ ∀ b ∈ st.data, b < 256

instance (f : FileArg) : Decidable (CatArgOk f) := by
  unfold CatArgOk
  cases f.opened <;> infer_instance

/-- Only `opt_number` set (`cat -n`). -/
def Opts.number_only : Opts :=
  { Opts.none with opt_number := true }

/-- Numbering as the specification words it for number-nonblank: a blank line is
written without number and leaves the counter alone, the non-blank lines are
numbered `k + 1, k + 2, ...` in the format `%6lu\t`. -/
def number_nonblank_lines (o : Opts) : Nat → List (List Nat) → List Nat
  | _, [] => []
  | k, l :: ls =>
    if l = [10] then render_line o l ++ number_nonblank_lines o k ls
    else fmt_6lu_tab (k + 1) ++ render_line o l ++ number_nonblank_lines o (k + 1) ls

/-- A complete line: bytes other than newline, then one newline. -/
def is_line (l : List Nat) : Prop :=
  ∃ body, l = body ++ [10] ∧ 10 ∉ body

/-- A list of lines as `split_lines` produces them: complete lines, except that
the last one may lack its newline (and is not empty). -/
def LinesOk : List (List Nat) → Prop
  | [] => True
  | l :: ls => (is_line l ∨ (ls = [] ∧ l ≠ [] ∧ 10 ∉ l)) ∧ LinesOk ls

/-- A property of the state of `cat` that no step of the loops destroys: it
survives a read, a write, and the updates of `eol` and `cnt_line`. -/
def Stable (P : CatState → Prop) : Prop :=
  (∀ s, P s → P (next_ch s)) ∧
    (∀ s c, P s → P { s with ostream := fputc c s.ostream }) ∧
    (∀ s e, P s → P { s with eol := e }) ∧
    (∀ s n, P s → P { s with cnt_line := n })

/-- An `EOF` in `ch` stems from a read at the end of the data, which set the
error indicator on a failing device and the end-of-file indicator otherwise. -/
def ChEnd (s : CatState) : Prop :=
  s.ch = none →
    s.istream.data = [] ∧ (s.istream.bad = true → s.istream.err = true) ∧
      (s.istream.bad = false → s.istream.eof = true)

end CatGrep

/-! # Properties -/

namespace CatGrep

/-! ## Error-free streams -/

theorem fputc_room_none (c : Nat) (os : OStream) (h : os.room = none) :
    fputc c os = { os with out := os.out ++ [c % 256] } := by
  simp [fputc, h]

theorem fputs_room_none (bytes : List Nat) (os : OStream) (h : os.room = none) :
    fputs bytes os = { os with out := os.out ++ bytes.map (· % 256) } := by
  induction bytes generalizing os with
  | nil => simp [fputs]
  | cons c cs ih =>
    have := ih (fputc c os) (by simp [fputc, h])
    simp only [fputs, List.foldl_cons] at this ⊢
    rw [this]
    simp [fputc, h]

theorem pending_next_ch (s : CatState) (h : s.istream.bad = false) :
    pending (next_ch s) = s.istream.data := by
  unfold next_ch fgetc pending
  cases hd : s.istream.data <;> simp [h]

theorem next_ch_ok (s : CatState) (h : StreamsOk s) :
    StreamsOk (next_ch s) ∧ ChOk (next_ch s) ∧
      (next_ch s).istream.data.length ≤ s.istream.data.length ∧
      (next_ch s).eol = s.eol ∧ (next_ch s).cnt_line = s.cnt_line ∧
      (next_ch s).ostream = s.ostream := by
  obtain ⟨h1, h2, h3, h4⟩ := h
  unfold next_ch fgetc StreamsOk ChOk
  cases hd : s.istream.data <;> simp [h1, h2, h3, h4, hd]

theorem print_number_ok (s : CatState) (h : StreamsOk s) :
    StreamsOk (print_number s) ∧
      (print_number s).ostream.out =
        s.ostream.out ++ (fmt_6lu_tab ((s.cnt_line + 1) % 2 ^ 64)).map (· % 256) ∧
      (print_number s).cnt_line = (s.cnt_line + 1) % 2 ^ 64 ∧
      (print_number s).ch = s.ch ∧ (print_number s).istream = s.istream ∧
      (print_number s).eol = s.eol := by
  obtain ⟨h1, h2, h3, h4⟩ := h
  simp [print_number, StreamsOk, fputs_room_none _ _ h3, h1, h2, h3, h4]

theorem number_blank_ok (o : Opts) (s : CatState) (h : StreamsOk s) :
    StreamsOk (number_blank o s) ∧
      (number_blank o s).ostream.out =
        s.ostream.out ++ ((number_blank_bytes o s.cnt_line).1).map (· % 256) ∧
      (number_blank o s).cnt_line = (number_blank_bytes o s.cnt_line).2 ∧
      (number_blank o s).ch = s.ch ∧ (number_blank o s).istream = s.istream ∧
      (number_blank o s).eol = s.eol := by
  unfold number_blank number_blank_bytes
  split
  · simpa using print_number_ok s h
  · simp [h]

theorem end_line_ok (o : Opts) (s : CatState) (h : StreamsOk s) :
    StreamsOk (end_line o s) ∧
      (end_line o s).ostream.out = s.ostream.out ++ (end_line_bytes o).map (· % 256) ∧
      (end_line o s).cnt_line = s.cnt_line ∧
      (end_line o s).ch = s.ch ∧ (end_line o s).istream = s.istream ∧
      (end_line o s).eol = s.eol := by
  obtain ⟨h1, h2, h3, h4⟩ := h
  unfold end_line end_line_bytes StreamsOk
  cases o.opt_show_ends <;> simp [fputc, h1, h2, h3, h4]

theorem predict_next_ch (o : Opts) (m : Bool) (t : CatState) (h : StreamsOk t) :
    predict o m (next_ch t) =
      (t.ostream.out ++ ((flat o m t.eol t.cnt_line t.istream.data).1).map (· % 256),
        (flat o m t.eol t.cnt_line t.istream.data).2) := by
  obtain ⟨_, _, _, h4, h5, h6⟩ := next_ch_ok t h
  unfold predict
  rw [pending_next_ch t h.1, h4, h5, h6]

theorem pending_length_next_ch (t : CatState) (h : StreamsOk t) :
    (pending (next_ch t)).length = t.istream.data.length := by
  rw [pending_next_ch t h.1]

theorem blank_loop_predict (o : Opts) (fuel : Nat) (s : CatState)
    (h : StreamsOk s) (hc : ChOk s) (hf : (pending s).length + 1 ≤ fuel) :
    StreamsOk (blank_loop o fuel s) ∧ ChOk (blank_loop o fuel s) ∧
      (blank_loop o fuel s).ch ≠ some 10 ∧
      (s.ch = some 10 → (pending (blank_loop o fuel s)).length < (pending s).length) ∧
      (s.ch ≠ some 10 → blank_loop o fuel s = s) ∧
      predict o false (blank_loop o fuel s) = predict o false s := by
  induction fuel generalizing s with
  | zero => omega
  | succ fuel ih =>
    unfold blank_loop
    by_cases hch : s.ch = some 10
    · have hp : pending s = 10 :: s.istream.data := by simp [pending, hch]
      have hlen : s.istream.data.length + 1 ≤ fuel := by
        rw [hp] at hf; simpa using hf
      rw [if_pos hch]
      dsimp only
      -- the three shapes of the successor state share the same bookkeeping
      have key : ∀ t : CatState, StreamsOk t → t.istream = s.istream →
          predict o false (next_ch t) = predict o false s →
          StreamsOk (blank_loop o fuel (next_ch t)) ∧ ChOk (blank_loop o fuel (next_ch t)) ∧
            (blank_loop o fuel (next_ch t)).ch ≠ some 10 ∧
            (s.ch = some 10 →
              (pending (blank_loop o fuel (next_ch t))).length < (pending s).length) ∧
            (s.ch ≠ some 10 → blank_loop o fuel (next_ch t) = s) ∧
            predict o false (blank_loop o fuel (next_ch t)) = predict o false s := by
        intro t ht hi hpred
        obtain ⟨a1, a2, _, _, _, _⟩ := next_ch_ok t ht
        have hl : (pending (next_ch t)).length = s.istream.data.length := by
          rw [pending_length_next_ch t ht, hi]
        obtain ⟨b1, b2, b3, b4, b5, b6⟩ := ih (next_ch t) a1 a2 (by omega)
        refine ⟨b1, b2, b3, ?_, ?_, ?_⟩
        · intro _
          by_cases hn : (next_ch t).ch = some 10
          · have := b4 hn
            rw [hp]; simp only [List.length_cons]; omega
          · rw [b5 hn, hp]; simp only [List.length_cons]; omega
        · intro hF; exact absurd hch hF
        · rw [b6, hpred]
      have hflat : predict o false s =
          (s.ostream.out ++ ((flat o false s.eol s.cnt_line (10 :: s.istream.data)).1).map (· % 256),
            (flat o false s.eol s.cnt_line (10 :: s.istream.data)).2) := by
        unfold predict; rw [hp]
      by_cases h0 : s.eol + 1 > 0
      · by_cases h2 : s.eol + 1 ≥ 2
        · cases hsq : o.opt_squeeze_blank
          · -- not squeezed: number, end the line, read on
            have hs2 : StreamsOk ({ s with eol := 2 } : CatState) := h
            obtain ⟨n1, n2, n3, _, n5, n6⟩ := number_blank_ok o { s with eol := 2 } hs2
            obtain ⟨e1, e2, e3, _, e5, e6⟩ := end_line_ok o _ n1
            simp only [h0, h2, if_true, Bool.false_eq_true, if_false]
            apply key _ e1 (by rw [e5, n5])
            rw [predict_next_ch o false _ e1, e6, n6, e3, n3, e5, n5, e2, n2, hflat]
            simp [flat, h0, h2, hsq, List.map_append, List.append_assoc]
          · simp only [h0, h2, if_true]
            have hs2 : StreamsOk ({ s with eol := 2 } : CatState) := h
            apply key _ hs2 rfl
            rw [predict_next_ch o false _ hs2, hflat]
            simp [flat, h0, h2, hsq]
        · have hs1 : StreamsOk ({ s with eol := s.eol + 1 } : CatState) := h
          obtain ⟨n1, n2, n3, _, n5, n6⟩ := number_blank_ok o { s with eol := s.eol + 1 } hs1
          obtain ⟨e1, e2, e3, _, e5, e6⟩ := end_line_ok o _ n1
          simp only [h0, h2, if_true, if_false]
          apply key _ e1 (by rw [e5, n5])
          rw [predict_next_ch o false _ e1, e6, n6, e3, n3, e5, n5, e2, n2, hflat]
          simp [flat, h0, h2, List.map_append, List.append_assoc]
      · have hs1 : StreamsOk ({ s with eol := s.eol + 1 } : CatState) := h
        obtain ⟨e1, e2, e3, _, e5, e6⟩ := end_line_ok o { s with eol := s.eol + 1 } hs1
        simp only [h0, if_false]
        apply key _ e1 (by rw [e5])
        rw [predict_next_ch o false _ e1, e6, e3, e5, e2, hflat]
        simp [flat, h0, List.map_append, List.append_assoc]
    · rw [if_neg hch]
      exact ⟨h, hc, hch, fun h' => absurd h' hch, fun _ => rfl, rfl⟩

theorem quote_loop_predict (o : Opts) (hv : o.opt_show_nonprinting = true) (fuel : Nat)
    (s : CatState) (h : StreamsOk s) (hc : ChOk s) (hf : (pending s).length + 1 ≤ fuel) :
    StreamsOk (quote_loop o fuel s) ∧ ChOk (quote_loop o fuel s) ∧
      ((quote_loop o fuel s).ch = none ∨ (quote_loop o fuel s).ch = some 10) ∧
      (∀ b, s.ch = some b → b ≠ 10 →
        (pending (quote_loop o fuel s)).length < (pending s).length) ∧
      (pending (quote_loop o fuel s)).length ≤ (pending s).length ∧
      predict o true (quote_loop o fuel s) = predict o true s := by
  induction fuel generalizing s with
  | zero => omega
  | succ fuel ih =>
    unfold quote_loop
    split
    · rename_i hch
      refine ⟨h, hc, Or.inl hch, ?_, le_refl _, rfl⟩
      intro b hb
      rw [hch] at hb
      cases hb
    · rename_i ch hch
      have hp : pending s = ch :: s.istream.data := by simp [pending, hch]
      by_cases h10 : ch = 10
      · rw [if_neg (by simpa using h10)]
        refine ⟨h, hc, Or.inr (by rw [hch, h10]), fun b hb hne => ?_, le_refl _, rfl⟩
        rw [hch] at hb; cases hb; exact absurd h10 hne
      · rw [if_pos h10]
        have ht : StreamsOk ({ s with ostream := fputs (quote_byte o ch) s.ostream } : CatState) := by
          obtain ⟨h1, h2, h3, h4⟩ := h
          simp [StreamsOk, fputs_room_none _ _ h3, h1, h2, h3, h4]
        obtain ⟨a1, a2, _, _, _, _⟩ := next_ch_ok _ ht
        have hl := pending_length_next_ch _ ht
        dsimp only at hl
        have hlen : s.istream.data.length + 1 ≤ fuel := by
          rw [hp] at hf; simpa using hf
        obtain ⟨b1, b2, b3, _, b5, b6⟩ := ih _ a1 a2 (by rw [hl]; exact hlen)
        rw [hl] at b5
        refine ⟨b1, b2, b3, fun _ _ _ => ?_, ?_, ?_⟩
        · rw [hp]; simp only [List.length_cons]; omega
        · rw [hp]; simp only [List.length_cons]; omega
        · rw [b6, predict_next_ch o true _ ht]
          unfold predict
          rw [hp]
          simp [flat, h10, show_byte, hv, fputs_room_none _ _ h.2.2.1, List.map_append,
            List.append_assoc]

theorem plain_loop_predict (o : Opts) (hv : o.opt_show_nonprinting = false) (fuel : Nat)
    (s : CatState) (h : StreamsOk s) (hc : ChOk s) (hf : (pending s).length + 1 ≤ fuel) :
    StreamsOk (plain_loop o fuel s) ∧ ChOk (plain_loop o fuel s) ∧
      ((plain_loop o fuel s).ch = none ∨ (plain_loop o fuel s).ch = some 10) ∧
      (∀ b, s.ch = some b → b ≠ 10 →
        (pending (plain_loop o fuel s)).length < (pending s).length) ∧
      (pending (plain_loop o fuel s)).length ≤ (pending s).length ∧
      predict o true (plain_loop o fuel s) = predict o true s := by
  induction fuel generalizing s with
  | zero => omega
  | succ fuel ih =>
    unfold plain_loop
    split
    · rename_i hch
      refine ⟨h, hc, Or.inl hch, ?_, le_refl _, rfl⟩
      intro b hb
      rw [hch] at hb
      cases hb
    · rename_i ch hch
      have hp : pending s = ch :: s.istream.data := by simp [pending, hch]
      by_cases h10 : ch = 10
      · rw [if_neg (by simpa using h10)]
        refine ⟨h, hc, Or.inr (by rw [hch, h10]), fun b hb hne => ?_, le_refl _, rfl⟩
        rw [hch] at hb; cases hb; exact absurd h10 hne
      · rw [if_pos h10]
        have ht : StreamsOk ({ s with ostream := fputs (plain_byte o ch) s.ostream } : CatState) := by
          obtain ⟨h1, h2, h3, h4⟩ := h
          simp [StreamsOk, fputs_room_none _ _ h3, h1, h2, h3, h4]
        obtain ⟨a1, a2, _, _, _, _⟩ := next_ch_ok _ ht
        have hl := pending_length_next_ch _ ht
        dsimp only at hl
        have hlen : s.istream.data.length + 1 ≤ fuel := by
          rw [hp] at hf; simpa using hf
        obtain ⟨b1, b2, b3, _, b5, b6⟩ := ih _ a1 a2 (by rw [hl]; exact hlen)
        rw [hl] at b5
        refine ⟨b1, b2, b3, fun _ _ _ => ?_, ?_, ?_⟩
        · rw [hp]; simp only [List.length_cons]; omega
        · rw [hp]; simp only [List.length_cons]; omega
        · rw [b6, predict_next_ch o true _ ht]
          unfold predict
          rw [hp]
          simp [flat, h10, show_byte, hv, fputs_room_none _ _ h.2.2.1, List.map_append,
            List.append_assoc]

theorem pending_length_le (s : CatState) : (pending s).length ≤ s.istream.data.length + 1 := by
  unfold pending
  cases s.ch <;> simp

theorem cat_body_predict (o : Opts) (s : CatState) (h : StreamsOk s) (hc : ChOk s)
    (hsome : s.ch.isSome = true) :
    StreamsOk (cat_body o s) ∧ ChOk (cat_body o s) ∧
      (pending (cat_body o s)).length < (pending s).length ∧
      predict o false (cat_body o s) = predict o false s := by
  obtain ⟨a1, a2, a3, a4, a5, a6⟩ :=
    blank_loop_predict o (s.istream.data.length + 2) s h hc
      (by have := pending_length_le s; omega)
  -- the state after the newline loop and the numbering of line 206
  have hnum : ∀ s1 : CatState, StreamsOk s1 → ChOk s1 → s1.ch ≠ some 10 →
      let s2 := if o.opt_number && s1.ch.isSome then print_number s1 else s1
      StreamsOk s2 ∧ ChOk s2 ∧ pending s2 = pending s1 ∧ s2.ch = s1.ch ∧
        predict o true s2 = predict o false s1 := by
    intro s1 h1 c1 n1
    cases hch : s1.ch with
    | none =>
      have hp : pending s1 = [] := by simp [pending, hch]
      simp only [Option.isSome_none, Bool.and_false, Bool.false_eq_true, if_false]
      refine ⟨h1, c1, trivial, hch, ?_⟩
      unfold predict
      rw [hp]
      simp [flat]
    | some b =>
      have hb : b ≠ 10 := fun hb => n1 (by rw [hch, hb])
      have hp : pending s1 = b :: s1.istream.data := by simp [pending, hch]
      obtain ⟨p1, p2, p3, p4, p5, p6⟩ := print_number_ok s1 h1
      cases hn : o.opt_number
      · simp only [Bool.false_and, Bool.false_eq_true, if_false]
        refine ⟨h1, c1, trivial, hch, ?_⟩
        unfold predict
        rw [hp]
        simp [flat, hb, number_line_bytes, hn]
      · simp only [Option.isSome_some, Bool.and_true, if_true]
        have hp2 : pending (print_number s1) = b :: s1.istream.data := by
          simp [pending, p4, p5, hch]
        refine ⟨p1, ?_, by rw [hp2, hp], by rw [p4, hch], ?_⟩
        · intro hnone; rw [p4, hch] at hnone; cases hnone
        · unfold predict
          rw [hp2, hp, p2, p3, p6]
          simp [flat, hb, number_line_bytes, hn, List.map_append, List.append_assoc]
  obtain ⟨n1, n2, n3, n5, n4⟩ := hnum _ a1 a2 a3
  -- the line body
  have hbody : ∀ s2 : CatState, StreamsOk s2 → ChOk s2 →
      let s3 := if o.opt_show_nonprinting then quote_loop o (s2.istream.data.length + 2) s2
        else plain_loop o (s2.istream.data.length + 2) s2
      StreamsOk s3 ∧ ChOk s3 ∧ (s3.ch = none ∨ s3.ch = some 10) ∧
        (∀ b, s2.ch = some b → b ≠ 10 → (pending s3).length < (pending s2).length) ∧
        (pending s3).length ≤ (pending s2).length ∧
        predict o true s3 = predict o true s2 := by
    intro s2 h2 c2
    cases hv : o.opt_show_nonprinting
    · simp only [Bool.false_eq_true, if_false]
      exact plain_loop_predict o hv _ s2 h2 c2 (by have := pending_length_le s2; omega)
    · simp only [if_true]
      exact quote_loop_predict o hv _ s2 h2 c2 (by have := pending_length_le s2; omega)
  obtain ⟨b1, b2, b3, b4, b5, b6⟩ := hbody _ n1 n2
  -- resetting `eol` and returning to the head of the `for` loop
  have hreset : ∀ s3 : CatState, (s3.ch = none ∨ s3.ch = some 10) →
      predict o false { s3 with eol := -1 } = predict o true s3 := by
    intro s3 h3
    unfold predict pending
    rcases h3 with h3 | h3
    · simp [h3, flat]
    · simp [h3, flat]
  refine ⟨b1, ?_, ?_, ?_⟩
  · exact b2
  · have e : ∀ t : CatState, pending ({ t with eol := -1 } : CatState) = pending t := fun _ => rfl
    unfold cat_body
    dsimp only
    rw [e]
    rw [n3] at b5 b4
    by_cases hs : s.ch = some 10
    · have := a4 hs
      omega
    · rw [a5 hs] at b4 b5 ⊢
      obtain ⟨b, hb⟩ := Option.isSome_iff_exists.mp hsome
      rw [a5 hs] at n5
      exact b4 b (by rw [n5, hb]) (fun h10 => hs (by rw [hb, h10]))
  · unfold cat_body
    rw [hreset _ b3, b6, n4, a6]

theorem cat_loop_predict (o : Opts) (fuel : Nat) (s : CatState) (h : StreamsOk s)
    (hc : ChOk s) (hf : (pending s).length + 1 ≤ fuel) :
    StreamsOk (cat_loop o fuel s) ∧ (cat_loop o fuel s).ch = none ∧
      (cat_loop o fuel s).istream.data = [] ∧ (cat_loop o fuel s).istream.eof = true ∧
      ((cat_loop o fuel s).ostream.out, (cat_loop o fuel s).cnt_line) = predict o false s := by
  induction fuel generalizing s with
  | zero => omega
  | succ fuel ih =>
    unfold cat_loop
    cases hch : s.ch.isSome
    · have hn : s.ch = none := by simpa using hch
      simp only [Bool.false_and, Bool.false_eq_true, if_false]
      refine ⟨h, hn, (hc hn).1, (hc hn).2, ?_⟩
      simp [predict, pending, hn, flat]
    · obtain ⟨b1, b2, b3, b4⟩ := cat_body_predict o s h hc hch
      have he : s.istream.err = false := h.2.1
      have ho : s.ostream.err = false := h.2.2.2
      simp only [he, ho, Bool.not_false, Bool.and_true, if_true]
      obtain ⟨c1, c2, c3, c4, c5⟩ := ih (cat_body o s) b1 b2 (by omega)
      exact ⟨c1, c2, c3, c4, by rw [c5, b4]⟩

/-- On error-free streams `cat` writes what `flat` computes from the unread bytes,
leaves the counter `flat` computes, consumes the whole input and returns 0. -/
theorem cat_eq_flat (o : Opts) (cnt : Nat) (istream : IStream) (ostream : OStream)
    (hi : istream.bad = false) (hie : istream.err = false)
    (ho : ostream.room = none) (hoe : ostream.err = false) :
    (cat o cnt istream ostream).ostream.out =
        ostream.out ++ ((flat o false 0 cnt istream.data).1).map (· % 256) ∧
      (cat o cnt istream ostream).cnt_line = (flat o false 0 cnt istream.data).2 ∧
      (cat o cnt istream ostream).rval = 0 ∧
      (cat o cnt istream ostream).istream.data = [] := by
  let s0 : CatState :=
    { ch := (fgetc istream).1, eol := 0, cnt_line := cnt,
      istream := (fgetc istream).2, ostream := ostream }
  have hs0 : StreamsOk s0 ∧ ChOk s0 ∧ pending s0 = istream.data ∧
      s0.istream.data.length ≤ istream.data.length := by
    simp only [s0, StreamsOk, ChOk, pending, fgetc]
    cases hd : istream.data <;> simp [hi, hie, ho, hoe]
  obtain ⟨g1, g2, g3, g4⟩ := hs0
  obtain ⟨c1, c2, c3, c4, c5⟩ :=
    cat_loop_predict o (istream.data.length + 2) s0 g1 g2 (by rw [g3]; omega)
  have c5a := congrArg Prod.fst c5
  have c5b := congrArg Prod.snd c5
  simp only [predict, g3] at c5a c5b
  have e1 : (cat o cnt istream ostream).ostream =
      (cat_loop o (istream.data.length + 2) s0).ostream := rfl
  have e2 : (cat o cnt istream ostream).cnt_line =
      (cat_loop o (istream.data.length + 2) s0).cnt_line := rfl
  have e3 : (cat o cnt istream ostream).istream =
      (cat_loop o (istream.data.length + 2) s0).istream := rfl
  refine ⟨by rw [e1, c5a], by rw [e2, c5b], ?_, by rw [e3, c3]⟩
  have : (cat o cnt istream ostream).rval =
      (if !(cat_loop o (istream.data.length + 2) s0).istream.eof then (-1 : Int) else
        if (cat_loop o (istream.data.length + 2) s0).ostream.err then -1 else
        if (cat_loop o (istream.data.length + 2) s0).istream.err then -1 else 0) := rfl
  rw [this, c4, c1.2.1, c1.2.2.2]
  rfl

/-! ## Bytes stay bytes -/

theorem map_mod_eq_self (l : List Nat) (h : ∀ c ∈ l, c < 256) : l.map (· % 256) = l := by
  induction l with
  | nil => rfl
  | cons c cs ih =>
    have hc : c < 256 := h c (List.mem_cons_self _ _)
    have := ih (fun d hd => h d (List.mem_cons_of_mem _ hd))
    simp [this, Nat.mod_eq_of_lt hc]

theorem show_byte_lt (o : Opts) (b : Nat) (hb : b < 256) : ∀ c ∈ show_byte o b, c < 256 := by
  intro c hc
  unfold show_byte quote_byte plain_byte at hc
  split_ifs at hc <;> simp only [Bool.and_eq_true, decide_eq_true_eq] at * <;>
    simp at hc <;> omega

theorem end_line_bytes_lt (o : Opts) : ∀ c ∈ end_line_bytes o, c < 256 := by
  intro c hc
  unfold end_line_bytes at hc
  split_ifs at hc <;> simp at hc <;> omega

/-! ## C1: no option set -/

theorem flat_none (o : Opts) (h1 : o.opt_number = false) (h3 : o.opt_show_nonprinting = false)
    (h4 : o.opt_show_tabs = false) (h5 : o.opt_show_ends = false)
    (h6 : o.opt_squeeze_blank = false) (m : Bool) (eol : Int) (cnt : Nat) (X : List Nat) :
    flat o m eol cnt X = (X, cnt) := by
  induction X generalizing m eol cnt with
  | nil => cases m <;> simp [flat]
  | cons b rest ih =>
    cases m
    · by_cases hb : b = 10
      · by_cases h0 : eol + 1 > 0
        · by_cases h2 : eol + 1 ≥ 2
          · simp [flat, hb, h0, h2, ih, h1, h5, h6, number_blank_bytes, end_line_bytes]
          · simp [flat, hb, h0, h2, ih, h1, h5, h6, number_blank_bytes, end_line_bytes]
        · simp [flat, hb, h0, ih, h5, end_line_bytes]
      · simp [flat, hb, ih, h1, h3, h4, number_line_bytes, show_byte, plain_byte]
    · by_cases hb : b = 10
      · simp [flat, hb, ih, h5, end_line_bytes]
      · simp [flat, hb, ih, h3, h4, show_byte, plain_byte]

/-- C1: with all six display options off, `cat` writes exactly the bytes of its
input, whatever the value of the line counter, and returns 0. -/
theorem C1_cat_copies_input (cnt : Nat) (X : List Nat) (hX : ∀ b ∈ X, b < 256) :
    (cat Opts.none cnt (IStream.ofBytes X) OStream.fresh).ostream.out = X ∧
      (cat Opts.none cnt (IStream.ofBytes X) OStream.fresh).rval = 0 := by
  obtain ⟨h1, _, h3, _⟩ :=
    cat_eq_flat Opts.none cnt (IStream.ofBytes X) OStream.fresh rfl rfl rfl rfl
  refine ⟨?_, h3⟩
  rw [h1, flat_none Opts.none rfl rfl rfl rfl rfl]
  simpa [OStream.fresh, IStream.ofBytes] using map_mod_eq_self X hX

/-- C1 at the input "Hi\n". -/
theorem C1_cat_copies_input_witness :
    (∀ b ∈ [72, 105, 10], b < 256) ∧
      (cat Opts.none 0 (IStream.ofBytes [72, 105, 10]) OStream.fresh).ostream.out
          = [72, 105, 10] ∧
      (cat Opts.none 0 (IStream.ofBytes [72, 105, 10]) OStream.fresh).rval = 0 :=
  ⟨by decide, C1_cat_copies_input 0 [72, 105, 10] (by decide)⟩

/-! ## C4: show-ends -/

theorem flat_show_ends (o : Opts) (h1 : o.opt_number = false)
    (h3 : o.opt_show_nonprinting = false) (h4 : o.opt_show_tabs = false)
    (h5 : o.opt_show_ends = true) (h6 : o.opt_squeeze_blank = false)
    (m : Bool) (eol : Int) (cnt : Nat) (X : List Nat) :
    flat o m eol cnt X = (X.flatMap (fun b => if b = 10 then [36, 10] else [b]), cnt) := by
  induction X generalizing m eol cnt with
  | nil => cases m <;> simp [flat]
  | cons b rest ih =>
    cases m
    · by_cases hb : b = 10
      · by_cases h0 : eol + 1 > 0
        · by_cases h2 : eol + 1 ≥ 2
          · simp [flat, hb, h0, h2, ih, h1, h5, h6, number_blank_bytes, end_line_bytes]
          · simp [flat, hb, h0, h2, ih, h1, h5, h6, number_blank_bytes, end_line_bytes]
        · simp [flat, hb, h0, ih, h5, end_line_bytes]
      · simp [flat, hb, ih, h1, h3, h4, number_line_bytes, show_byte, plain_byte]
    · by_cases hb : b = 10
      · simp [flat, hb, ih, h5, end_line_bytes]
      · simp [flat, hb, ih, h3, h4, show_byte, plain_byte]

/-- C4: with show-ends as the only option, `cat` writes its input with every
newline byte replaced by the two bytes `$` `\n`; every other byte is copied. -/
theorem C4_show_ends (cnt : Nat) (X : List Nat) (hX : ∀ b ∈ X, b < 256) :
    (cat Opts.show_ends_only cnt (IStream.ofBytes X) OStream.fresh).ostream.out =
      X.flatMap (fun b => if b = 10 then [36, 10] else [b]) := by
  obtain ⟨h1, _, _, _⟩ :=
    cat_eq_flat Opts.show_ends_only cnt (IStream.ofBytes X) OStream.fresh rfl rfl rfl rfl
  rw [h1, flat_show_ends Opts.show_ends_only rfl rfl rfl rfl rfl]
  simp only [OStream.fresh, IStream.ofBytes, List.nil_append]
  apply map_mod_eq_self
  intro c hc
  obtain ⟨b, hb, hcb⟩ := List.mem_flatMap.mp hc
  have := hX b hb
  split_ifs at hcb <;> simp at hcb <;> omega

/-- C4 at the inputs "a\n\nb" (last line unterminated). -/
theorem C4_show_ends_witness :
    (∀ b ∈ [97, 10, 10, 98], b < 256) ∧
      (cat Opts.show_ends_only 0 (IStream.ofBytes [97, 10, 10, 98]) OStream.fresh).ostream.out =
        [97, 10, 10, 98].flatMap (fun b => if b = 10 then [36, 10] else [b]) :=
  ⟨by decide, C4_show_ends 0 [97, 10, 10, 98] (by decide)⟩

/-! ## C5, C6, C7: the per-byte visualisation -/

theorem flat_single (o : Opts) (hn : o.opt_number = false) (cnt : Nat) (b : Nat)
    (hnl : b ≠ 10) : flat o false 0 cnt [b] = (show_byte o b, cnt) := by
  simp [flat, hnl, number_line_bytes, hn]

/-- What `cat` writes for an input that consists of the single byte `b`. -/
theorem cat_single_byte (o : Opts) (hn : o.opt_number = false) (cnt : Nat) (b : Nat)
    (hb : b < 256) (hnl : b ≠ 10) :
    (cat o cnt (IStream.ofBytes [b]) OStream.fresh).ostream.out = show_byte o b := by
  obtain ⟨h1, _, _, _⟩ := cat_eq_flat o cnt (IStream.ofBytes [b]) OStream.fresh rfl rfl rfl rfl
  rw [h1]
  simp only [OStream.fresh, IStream.ofBytes, List.nil_append, flat_single o hn cnt b hnl]
  exact map_mod_eq_self _ (show_byte_lt o b hb)

/-- C5: the visualisation of a non-newline byte `b`, which is what `cat` without
numbering writes for the one-byte input `b`, follows the table: without
show-nonprinting the byte itself, except `^I` for a tab under show-tabs; with
show-nonprinting and `b ≤ 0x7F` a tab is literal or `^I` according to show-tabs,
any other control byte is `^` and `b + 64`, `0x20`-`0x7E` are literal and `0x7F`
is `^?`. -/
theorem C5_byte_table (o : Opts) (cnt : Nat) (b : Nat) (hb : b < 256) (hnl : b ≠ 10)
    (hn : o.opt_number = false) :
    (cat o cnt (IStream.ofBytes [b]) OStream.fresh).ostream.out = show_byte o b ∧
      (o.opt_show_nonprinting = false →
        show_byte o b = if b = 9 ∧ o.opt_show_tabs = true then [94, 73] else [b]) ∧
      (o.opt_show_nonprinting = true → b ≤ 127 →
        show_byte o b =
          if b = 9 then (if o.opt_show_tabs = true then [94, 73] else [9])
          else if b < 32 then [94, b + 64]
          else if b < 127 then [b]
          else [94, 63]) := by
  refine ⟨cat_single_byte o hn cnt b hb hnl, ?_, ?_⟩
  · intro hv
    unfold show_byte plain_byte
    rw [hv]
    by_cases h9 : b = 9 <;> cases o.opt_show_tabs <;> simp [h9]
  · intro hv h127
    unfold show_byte quote_byte
    rw [hv]
    by_cases h9 : b = 9
    · cases o.opt_show_tabs <;> simp [h9]
    · by_cases h32 : b < 32
      · simp [h9, h32]
      · by_cases h7 : b < 127
        · simp [h9, h32, h7]
        · have : b = 127 := by omega
          simp [this]

/-- C5 at the byte `0x01` under `cat -v`, which is written as `^A`. -/
theorem C5_byte_table_witness :
    (1 < 256 ∧ 1 ≠ 10 ∧ Opts.show_nonprinting_only.opt_number = false) ∧
      ((cat Opts.show_nonprinting_only 0 (IStream.ofBytes [1]) OStream.fresh).ostream.out =
          show_byte Opts.show_nonprinting_only 1 ∧
        (Opts.show_nonprinting_only.opt_show_nonprinting = false →
          show_byte Opts.show_nonprinting_only 1 =
            if 1 = 9 ∧ Opts.show_nonprinting_only.opt_show_tabs = true then [94, 73] else [1]) ∧
        (Opts.show_nonprinting_only.opt_show_nonprinting = true → 1 ≤ 127 →
          show_byte Opts.show_nonprinting_only 1 =
            if 1 = 9 then
              (if Opts.show_nonprinting_only.opt_show_tabs = true then [94, 73] else [9])
            else if 1 < 32 then [94, 1 + 64]
            else if 1 < 127 then [1]
            else [94, 63])) ∧
      (cat Opts.show_nonprinting_only 0 (IStream.ofBytes [1]) OStream.fresh).ostream.out =
        [94, 65] :=
  ⟨by decide, C5_byte_table Opts.show_nonprinting_only 0 1 (by decide) (by decide) rfl,
    by decide⟩

/-- C6 as stated fails: under show-nonprinting without show-tabs the byte `0x89`
is written as `M-^I`, whereas the visualisation of `0x89 - 128 = 0x09` (a tab)
under the same flags is the literal tab. -/
theorem C6_meta_tab_counterexample :
    Opts.show_nonprinting_only.opt_show_nonprinting = true ∧
      Opts.show_nonprinting_only.opt_show_tabs = false ∧
      show_byte Opts.show_nonprinting_only 137 = [77, 45, 94, 73] ∧
      show_byte Opts.show_nonprinting_only (137 - 128) = [9] ∧
      show_byte Opts.show_nonprinting_only 137 ≠
        [77, 45] ++ show_byte Opts.show_nonprinting_only (137 - 128) := by
  decide

/-- C6, amended: under show-nonprinting an extended byte `b` in `0x80`-`0xFF` is
written as `M-` followed by the visualisation of `b - 128` with show-tabs taken
as set, that is `^` and `b - 128 + 64` for `b - 128` below `0x20` (tab included),
`b - 128` itself in `0x20`-`0x7E`, and `^?` for `0x7F`; this is the visualisation
of `b - 128` under the same flags unless `b = 0x89` and show-tabs is off. -/
theorem C6_meta_bytes (o : Opts) (b : Nat) (hv : o.opt_show_nonprinting = true)
    (hlo : 128 ≤ b) (hhi : b < 256) :
    show_byte o b = [77, 45] ++ show_byte (Opts.with_tabs o) (b - 128) ∧
      show_byte o b = [77, 45] ++
        (if b - 128 < 32 then [94, b - 128 + 64]
         else if b - 128 < 127 then [b - 128]
         else [94, 63]) ∧
      ((b ≠ 137 ∨ o.opt_show_tabs = true) →
        show_byte o b = [77, 45] ++ show_byte o (b - 128)) := by
  have hv2 : (Opts.with_tabs o).opt_show_nonprinting = true := hv
  have ht2 : (Opts.with_tabs o).opt_show_tabs = true := rfl
  have e1 : show_byte o b = [77, 45] ++
        (if b - 128 < 32 then [94, b - 128 + 64]
         else if b - 128 < 127 then [b - 128]
         else [94, 63]) := by
    unfold show_byte quote_byte
    rw [hv]
    have a1 : ¬ b < 32 := by omega
    have a2 : ¬ b < 127 := by omega
    have a3 : ¬ b = 127 := by omega
    simp only [a1, a2, a3, if_true, if_false]
    by_cases c1 : b < 128 + 32
    · have : b - 128 < 32 := by omega
      simp [c1, this]
    · by_cases c2 : b < 128 + 127
      · have d1 : ¬ b - 128 < 32 := by omega
        have d2 : b - 128 < 127 := by omega
        simp [c1, c2, d1, d2]
      · have d1 : ¬ b - 128 < 32 := by omega
        have d2 : ¬ b - 128 < 127 := by omega
        simp [c1, c2, d1, d2]
  have e2 : ∀ o2 : Opts, o2.opt_show_nonprinting = true →
      (b - 128 ≠ 9 ∨ o2.opt_show_tabs = true) →
      show_byte o2 (b - 128) =
        (if b - 128 < 32 then [94, b - 128 + 64]
         else if b - 128 < 127 then [b - 128]
         else [94, 63]) := by
    intro o2 h2 ht
    unfold show_byte quote_byte
    rw [h2]
    by_cases c1 : b - 128 < 32
    · rcases ht with ht | ht
      · simp [c1, ht]
      · simp [c1, ht]
    · by_cases c2 : b - 128 < 127
      · simp [c1, c2]
      · have : b - 128 = 127 := by omega
        simp [this]
  refine ⟨?_, e1, ?_⟩
  · rw [e1, e2 _ hv2 (Or.inr ht2)]
  · intro h
    rw [e1, e2 o hv ?_]
    rcases h with h | h
    · exact Or.inl (by omega)
    · exact Or.inr h

/-- C6 (amended) at the byte `0x89` under `cat -v`. -/
theorem C6_meta_bytes_witness :
    (Opts.show_nonprinting_only.opt_show_nonprinting = true ∧ 128 ≤ 137 ∧ 137 < 256) ∧
      show_byte Opts.show_nonprinting_only 137 =
        [77, 45] ++ show_byte (Opts.with_tabs Opts.show_nonprinting_only) (137 - 128) :=
  ⟨by decide, (C6_meta_bytes Opts.show_nonprinting_only 137 rfl (by decide) (by decide)).1⟩

/-- C7 as stated fails: under show-nonprinting the byte `0x80` is written as the
four bytes `M-^@`. -/
theorem C7_four_bytes_counterexample :
    show_byte Opts.show_nonprinting_only 128 = [77, 45, 94, 64] ∧
      ¬ (show_byte Opts.show_nonprinting_only 128).length ≤ 3 ∧
      (cat Opts.show_nonprinting_only 0 (IStream.ofBytes [128]) OStream.fresh).ostream.out =
        [77, 45, 94, 64] := by
  decide

/-- C7, amended: the visualisation of a byte has at least 1 and at most 4 bytes;
it has 4 bytes exactly when show-nonprinting is set and the byte is in
`0x80`-`0x9F` or is `0xFF`, and at most 3 bytes otherwise. -/
theorem C7_byte_length (o : Opts) (b : Nat) (hb : b < 256) :
    1 ≤ (show_byte o b).length ∧ (show_byte o b).length ≤ 4 ∧
      ((show_byte o b).length = 4 ↔
        (o.opt_show_nonprinting = true ∧ ((128 ≤ b ∧ b < 160) ∨ b = 255))) := by
  unfold show_byte quote_byte plain_byte
  cases hv : o.opt_show_nonprinting
  · simp only [Bool.false_eq_true, if_false]
    split_ifs <;> simp
  · simp only [if_true]
    split_ifs <;> simp <;> omega

/-- C7 (amended) at the byte `0xFF` under `cat -v`. -/
theorem C7_byte_length_witness :
    255 < 256 ∧
      1 ≤ (show_byte Opts.show_nonprinting_only 255).length ∧
      (show_byte Opts.show_nonprinting_only 255).length ≤ 4 ∧
      ((show_byte Opts.show_nonprinting_only 255).length = 4 ↔
        (Opts.show_nonprinting_only.opt_show_nonprinting = true ∧
          ((128 ≤ 255 ∧ 255 < 160) ∨ 255 = 255))) :=
  ⟨by decide, C7_byte_length Opts.show_nonprinting_only 255 (by decide)⟩

/-! ## The line view of `cat` -/

theorem render_line_cons (o : Opts) (b : Nat) (l : List Nat) (hb : b ≠ 10) :
    render_line o (b :: l) = show_byte o b ++ render_line o l := by
  simp [render_line, hb]

theorem render_line_blank (o : Opts) : render_line o [10] = end_line_bytes o := by
  simp [render_line]

theorem split_lines_cons_ne (b : Nat) (rest : List Nat) (hb : b ≠ 10) :
    ∃ l ls, split_lines (b :: rest) = (b :: l) :: ls ∧
      (split_lines rest = [] ∧ l = [] ∧ ls = [] ∨ split_lines rest = l :: ls) := by
  cases hs : split_lines rest with
  | nil => exact ⟨[], [], by simp [split_lines, hb, hs], Or.inl ⟨rfl, rfl, rfl⟩⟩
  | cons l ls => exact ⟨l, ls, by simp [split_lines, hb, hs], Or.inr rfl⟩

theorem flat_eq_cat_lines (o : Opts) (X : List Nat) :
    (∀ eol cnt, flat o false eol cnt X = cat_lines o eol cnt (split_lines X)) ∧
      (∀ eol cnt, flat o true eol cnt X =
        match split_lines X with
        | [] => ([], cnt)
        | l :: ls => (render_line o l ++ (cat_lines o 0 cnt ls).1, (cat_lines o 0 cnt ls).2)) := by
  induction X with
  | nil => constructor <;> intros <;> simp [flat, split_lines, cat_lines]
  | cons b rest ih =>
    obtain ⟨ihA, ihB⟩ := ih
    by_cases hb : b = 10
    · subst hb
      constructor
      · intro eol cnt
        simp only [flat, split_lines, cat_lines, if_true, ihA]
      · intro eol cnt
        simp only [flat, split_lines, if_true, ihA, render_line_blank]
    · obtain ⟨l, ls, hs, hrest⟩ := split_lines_cons_ne b rest hb
      have hne : ¬ (b :: l = [10]) := by
        intro h; exact hb (List.cons.inj h).1
      constructor
      · intro eol cnt
        rw [hs]
        simp only [flat, cat_lines, if_neg hb, if_neg hne, ihB, render_line_cons o b l hb]
        rcases hrest with ⟨h1, h2, h3⟩ | h1
        · subst h2; subst h3
          simp [h1, cat_lines, render_line]
        · simp [h1, List.append_assoc]
      · intro eol cnt
        rw [hs]
        simp only [flat, if_neg hb, ihB, render_line_cons o b l hb]
        rcases hrest with ⟨h1, h2, h3⟩ | h1
        · subst h2; subst h3
          simp [h1, cat_lines, render_line]
        · simp [h1, List.append_assoc]

theorem split_lines_length_le (X : List Nat) : (split_lines X).length ≤ X.length := by
  induction X with
  | nil => simp [split_lines]
  | cons b rest ih =>
    by_cases hb : b = 10
    · simp [split_lines, hb]; exact ih
    · obtain ⟨l, ls, hs, hrest⟩ := split_lines_cons_ne b rest hb
      rw [hs]
      rcases hrest with ⟨_, _, h3⟩ | h1
      · subst h3; simp
      · rw [h1] at ih; simp at ih ⊢; omega

theorem digitChar_lt : ∀ d < 10, (Nat.digitChar d).toNat < 256 := by
  decide

theorem toDigitsCore_lt (fuel n : Nat) (ds : List Char) (h : ∀ c ∈ ds, c.toNat < 256) :
    ∀ c ∈ Nat.toDigitsCore 10 fuel n ds, c.toNat < 256 := by
  induction fuel generalizing n ds with
  | zero => simpa [Nat.toDigitsCore] using h
  | succ fuel ih =>
    have hd : ∀ c ∈ Nat.digitChar (n % 10) :: ds, c.toNat < 256 := by
      intro c hc
      rcases List.mem_cons.mp hc with hc | hc
      · rw [hc]; exact digitChar_lt _ (Nat.mod_lt _ (by decide))
      · exact h c hc
    unfold Nat.toDigitsCore
    dsimp only
    split_ifs
    · exact hd
    · exact ih _ _ hd

theorem fmt_6lu_tab_lt (n : Nat) : ∀ c ∈ fmt_6lu_tab n, c < 256 := by
  intro c hc
  unfold fmt_6lu_tab decimal at hc
  simp only [List.mem_append, List.mem_replicate, List.mem_map, List.mem_singleton] at hc
  rcases hc with (⟨_, hc⟩ | ⟨d, hd, hc⟩) | hc
  · omega
  · rw [← hc]
    exact toDigitsCore_lt _ _ [] (by simp) d hd
  · omega

theorem flat_lt (o : Opts) (X : List Nat) (hX : ∀ b ∈ X, b < 256) :
    ∀ m eol cnt, ∀ c ∈ (flat o m eol cnt X).1, c < 256 := by
  induction X with
  | nil => intro m eol cnt c hc; cases m <;> simp [flat] at hc
  | cons b rest ih =>
    have ih := ih (fun d hd => hX d (List.mem_cons_of_mem _ hd))
    have hb := show_byte_lt o b (hX b (List.mem_cons_self _ _))
    have he := end_line_bytes_lt o
    have hnb : ∀ cnt, ∀ c ∈ (number_blank_bytes o cnt).1, c < 256 := by
      intro cnt c hc
      unfold number_blank_bytes at hc
      split_ifs at hc
      · exact fmt_6lu_tab_lt _ c hc
      · simp at hc
    have hnl : ∀ cnt, ∀ c ∈ (number_line_bytes o cnt).1, c < 256 := by
      intro cnt c hc
      unfold number_line_bytes at hc
      split_ifs at hc
      · exact fmt_6lu_tab_lt _ c hc
      · simp at hc
    intro m eol cnt c hc
    cases m
    · unfold flat at hc
      split_ifs at hc
      · exact ih _ _ _ c hc
      · simp only [List.mem_append] at hc
        rcases hc with (hc | hc) | hc
        · exact hnb _ c hc
        · exact he c hc
        · exact ih _ _ _ c hc
      · simp only [List.mem_append] at hc
        rcases hc with (hc | hc) | hc
        · exact hnb _ c hc
        · exact he c hc
        · exact ih _ _ _ c hc
      · simp only [List.mem_append] at hc
        rcases hc with hc | hc
        · exact he c hc
        · exact ih _ _ _ c hc
      · simp only [List.mem_append] at hc
        rcases hc with (hc | hc) | hc
        · exact hnl _ c hc
        · exact hb c hc
        · exact ih _ _ _ c hc
    · unfold flat at hc
      split_ifs at hc
      · simp only [List.mem_append] at hc
        rcases hc with hc | hc
        · exact he c hc
        · exact ih _ _ _ c hc
      · simp only [List.mem_append] at hc
        rcases hc with hc | hc
        · exact hb c hc
        · exact ih _ _ _ c hc

/-- On an error-free run over bytes, `cat` writes the bytes `cat_lines` computes
from the lines of the input and returns 0. -/
theorem cat_eq_cat_lines (o : Opts) (cnt : Nat) (X : List Nat) (hX : ∀ b ∈ X, b < 256) :
    (cat o cnt (IStream.ofBytes X) OStream.fresh).ostream.out =
        (cat_lines o 0 cnt (split_lines X)).1 ∧
      (cat o cnt (IStream.ofBytes X) OStream.fresh).cnt_line =
        (cat_lines o 0 cnt (split_lines X)).2 ∧
      (cat o cnt (IStream.ofBytes X) OStream.fresh).rval = 0 := by
  obtain ⟨h1, h2, h3, _⟩ := cat_eq_flat o cnt (IStream.ofBytes X) OStream.fresh rfl rfl rfl rfl
  have hl := map_mod_eq_self _ (flat_lt o X hX false 0 cnt)
  simp only [OStream.fresh, IStream.ofBytes, List.nil_append] at h1 h2 h3 hl ⊢
  rw [h1, hl, h2, (flat_eq_cat_lines o X).1]
  exact ⟨rfl, rfl, h3⟩

/-! ## C2: squeeze-blank -/

theorem squeeze_blank_runs_cons_blank (ls : List (List Nat)) :
    squeeze_blank_runs ([10] :: ls) = [10] :: squeeze_blank_runs (ls.dropWhile (· = [10])) := by
  rw [squeeze_blank_runs]
  simp

theorem squeeze_blank_runs_cons_other (l : List Nat) (ls : List (List Nat)) (hl : l ≠ [10]) :
    squeeze_blank_runs (l :: ls) = l :: squeeze_blank_runs ls := by
  rw [squeeze_blank_runs]
  simp [hl]

theorem flatten_split_lines (X : List Nat) : (split_lines X).flatten = X := by
  induction X with
  | nil => simp [split_lines]
  | cons b rest ih =>
    by_cases hb : b = 10
    · simp [split_lines, hb, ih]
    · obtain ⟨l, ls, hs, hrest⟩ := split_lines_cons_ne b rest hb
      rw [hs]
      rcases hrest with ⟨h1, h2, h3⟩ | h1
      · subst h2; subst h3
        rw [h1] at ih
        simp at ih ⊢
        exact ih
      · rw [h1] at ih
        simp at ih ⊢
        exact ih

theorem render_line_plain (o : Opts) (h3 : o.opt_show_nonprinting = false)
    (h4 : o.opt_show_tabs = false) (h5 : o.opt_show_ends = false) (l : List Nat) :
    render_line o l = l := by
  induction l with
  | nil => simp [render_line]
  | cons b l ih =>
    unfold render_line at ih ⊢
    rw [List.flatMap_cons, ih]
    by_cases hb : b = 10
    · simp [hb, end_line_bytes, h5]
    · simp [hb, show_byte, plain_byte, h3, h4]

theorem cat_lines_squeeze (o : Opts) (h1 : o.opt_number = false)
    (h3 : o.opt_show_nonprinting = false) (h4 : o.opt_show_tabs = false)
    (h5 : o.opt_show_ends = false) (h6 : o.opt_squeeze_blank = true)
    (ls : List (List Nat)) :
    ∀ (eol : Int) (cnt : Nat), 0 ≤ eol →
      cat_lines o eol cnt ls =
        ((if 1 ≤ eol then squeeze_blank_runs (ls.dropWhile (· = [10]))
          else squeeze_blank_runs ls).flatten, cnt) := by
  induction ls with
  | nil => intro eol cnt _; simp [cat_lines, squeeze_blank_runs]
  | cons l ls ih =>
    intro eol cnt heol
    by_cases hl : l = [10]
    · subst hl
      by_cases h1e : 1 ≤ eol
      · have a1 : eol + 1 > 0 := by omega
        have a2 : eol + 1 ≥ 2 := by omega
        simp only [cat_lines, if_true, a1, a2, h6, h1e]
        rw [ih 2 cnt (by omega)]
        simp
      · have a1 : eol + 1 > 0 := by omega
        have a2 : ¬ eol + 1 ≥ 2 := by omega
        simp only [cat_lines, if_true, if_false, a1, a2, h1e]
        rw [ih (eol + 1) _ (by omega), squeeze_blank_runs_cons_blank]
        have a3 : 1 ≤ eol + 1 := by omega
        simp [a3, number_blank_bytes, h1, end_line_bytes, h5]
    · simp only [cat_lines, if_neg hl]
      rw [ih 0 _ (le_refl _), render_line_plain o h3 h4 h5]
      have hd : (l :: ls).dropWhile (· = [10]) = l :: ls := by simp [List.dropWhile, hl]
      rw [hd, squeeze_blank_runs_cons_other l ls hl]
      simp [number_line_bytes, h1]

/-- C2: with squeeze-blank as the only option, `cat` writes the lines of its input
in which every maximal run of blank lines is replaced by one blank line (a run
of one blank line, and every other line, is written unchanged and in order). -/
theorem C2_squeeze_blank (cnt : Nat) (X : List Nat) (hX : ∀ b ∈ X, b < 256) :
    (cat Opts.squeeze_only cnt (IStream.ofBytes X) OStream.fresh).ostream.out =
      (squeeze_blank_runs (split_lines X)).flatten := by
  rw [(cat_eq_cat_lines Opts.squeeze_only cnt X hX).1,
    cat_lines_squeeze Opts.squeeze_only rfl rfl rfl rfl rfl _ 0 cnt (le_refl _)]
  simp

/-- C2 at the input "a\n\n\nb\n", which gives "a\n\nb\n". -/
theorem C2_squeeze_blank_witness :
    (∀ b ∈ [97, 10, 10, 10, 98, 10], b < 256) ∧
      (cat Opts.squeeze_only 0 (IStream.ofBytes [97, 10, 10, 10, 98, 10])
          OStream.fresh).ostream.out =
        (squeeze_blank_runs (split_lines [97, 10, 10, 10, 98, 10])).flatten ∧
      (cat Opts.squeeze_only 0 (IStream.ofBytes [97, 10, 10, 10, 98, 10])
          OStream.fresh).ostream.out = [97, 10, 10, 98, 10] :=
  ⟨by decide, C2_squeeze_blank 0 [97, 10, 10, 10, 98, 10] (by decide), by decide⟩

/-! ## C3: numbering all lines -/

theorem squeeze_blank_runs_length_le (ls : List (List Nat)) :
    ∀ n, ls.length ≤ n → (squeeze_blank_runs ls).length ≤ ls.length := by
  intro n
  induction n generalizing ls with
  | zero =>
    intro h
    have : ls = [] := List.length_eq_zero.mp (by omega)
    subst this
    simp [squeeze_blank_runs]
  | succ n ih =>
    intro h
    cases ls with
    | nil => simp [squeeze_blank_runs]
    | cons l ls =>
      have hd := (List.dropWhile_sublist (l := ls) (· = [10])).length_le
      simp only [List.length_cons] at h ⊢
      by_cases hl : l = [10]
      · subst hl
        rw [squeeze_blank_runs_cons_blank]
        have := ih (ls.dropWhile (· = [10])) (by omega)
        simp only [List.length_cons]
        omega
      · rw [squeeze_blank_runs_cons_other l ls hl]
        have := ih ls (by omega)
        simp only [List.length_cons]
        omega

theorem cat_lines_number (o : Opts) (hn : o.opt_number = true)
    (hb : o.opt_number_nonblank = false) (hs : o.opt_squeeze_blank = false)
    (ls : List (List Nat)) :
    ∀ (eol : Int) (cnt : Nat), 0 ≤ eol → cnt + ls.length < 2 ^ 64 →
      cat_lines o eol cnt ls = (number_lines o cnt ls, cnt + ls.length) := by
  induction ls with
  | nil => intro eol cnt _ _; simp [cat_lines, number_lines]
  | cons l ls ih =>
    intro eol cnt heol hcnt
    simp only [List.length_cons] at hcnt
    have hmod : (cnt + 1) % 2 ^ 64 = cnt + 1 := Nat.mod_eq_of_lt (by omega)
    have hnb : number_blank_bytes o cnt = (fmt_6lu_tab (cnt + 1), cnt + 1) := by
      unfold number_blank_bytes
      rw [hmod, hn, hb]
      rfl
    have hnl : number_line_bytes o cnt = (fmt_6lu_tab (cnt + 1), cnt + 1) := by
      unfold number_line_bytes
      rw [hmod, hn]
      rfl
    by_cases hl : l = [10]
    · subst hl
      have a1 : eol + 1 > 0 := by omega
      by_cases a2 : eol + 1 ≥ 2
      · simp only [cat_lines, if_true, a1, a2, hs, Bool.false_eq_true, if_false, hnb]
        rw [ih 2 (cnt + 1) (by omega) (by omega)]
        simp [number_lines, render_line_blank, List.append_assoc]
        omega
      · simp only [cat_lines, if_true, a1, a2, if_false, hnb]
        rw [ih (eol + 1) (cnt + 1) (by omega) (by omega)]
        simp [number_lines, render_line_blank, List.append_assoc]
        omega
    · simp only [cat_lines, if_neg hl, hnl]
      rw [ih 0 (cnt + 1) (le_refl _) (by omega)]
      simp [number_lines, List.append_assoc]
      omega

theorem cat_lines_number_squeeze (o : Opts) (hn : o.opt_number = true)
    (hb : o.opt_number_nonblank = false) (hs : o.opt_squeeze_blank = true)
    (ls : List (List Nat)) :
    ∀ (eol : Int) (cnt : Nat), 0 ≤ eol → cnt + ls.length < 2 ^ 64 →
      cat_lines o eol cnt ls =
        (number_lines o cnt
            (if 1 ≤ eol then squeeze_blank_runs (ls.dropWhile (· = [10]))
              else squeeze_blank_runs ls),
          cnt + (if 1 ≤ eol then squeeze_blank_runs (ls.dropWhile (· = [10]))
              else squeeze_blank_runs ls).length) := by
  induction ls with
  | nil => intro eol cnt _ _; simp [cat_lines, number_lines, squeeze_blank_runs]
  | cons l ls ih =>
    intro eol cnt heol hcnt
    simp only [List.length_cons] at hcnt
    have hmod : (cnt + 1) % 2 ^ 64 = cnt + 1 := Nat.mod_eq_of_lt (by omega)
    have hnb : number_blank_bytes o cnt = (fmt_6lu_tab (cnt + 1), cnt + 1) := by
      unfold number_blank_bytes
      rw [hmod, hn, hb]
      rfl
    have hnl : number_line_bytes o cnt = (fmt_6lu_tab (cnt + 1), cnt + 1) := by
      unfold number_line_bytes
      rw [hmod, hn]
      rfl
    by_cases hl : l = [10]
    · subst hl
      have a1 : eol + 1 > 0 := by omega
      by_cases h1e : 1 ≤ eol
      · have a2 : eol + 1 ≥ 2 := by omega
        simp only [cat_lines, if_true, a1, a2, hs, h1e]
        rw [ih 2 cnt (by omega) (by omega)]
        simp
      · have a2 : ¬ eol + 1 ≥ 2 := by omega
        have a3 : 1 ≤ eol + 1 := by omega
        simp only [cat_lines, if_true, a1, a2, if_false, hnb, h1e]
        rw [ih (eol + 1) (cnt + 1) (by omega) (by omega), squeeze_blank_runs_cons_blank]
        simp [a3, number_lines, render_line_blank, List.append_assoc]
        omega
    · have hd : (l :: ls).dropWhile (· = [10]) = l :: ls := by simp [List.dropWhile, hl]
      simp only [cat_lines, if_neg hl, hnl]
      rw [ih 0 (cnt + 1) (le_refl _) (by omega), hd, squeeze_blank_runs_cons_other l ls hl]
      simp [number_lines, List.append_assoc]
      omega

/-- C3: with number-all set, number-nonblank clear and the counter at 0, for any
setting of the other options `cat` writes every emitted line (every line of the
input, or every line left by squeezing; a final unterminated line included)
preceded by its number in the format `%6lu\t`, the numbers being 1, 2, 3, ... in
order; squeezed lines take no number, and the counter ends at the number of
emitted lines.  Inputs are shorter than `2 ^ 64` bytes (the counter is a 64-bit
`size_t`). -/
theorem C3_number_all (o : Opts) (X : List Nat) (hn : o.opt_number = true)
    (hb : o.opt_number_nonblank = false) (hX : ∀ b ∈ X, b < 256)
    (hlen : X.length < 2 ^ 64) :
    (cat o 0 (IStream.ofBytes X) OStream.fresh).ostream.out =
        number_lines o 0 (emitted_lines o X) ∧
      (cat o 0 (IStream.ofBytes X) OStream.fresh).cnt_line = (emitted_lines o X).length := by
  obtain ⟨h1, h2, _⟩ := cat_eq_cat_lines o 0 X hX
  have hl := split_lines_length_le X
  rw [h1, h2]
  unfold emitted_lines
  cases hs : o.opt_squeeze_blank
  · rw [cat_lines_number o hn hb hs _ 0 0 (le_refl _) (by omega)]
    simp
  · rw [cat_lines_number_squeeze o hn hb hs _ 0 0 (le_refl _) (by omega)]
    simp

/-- C3 at the input "Hello\n" under number and show-ends, which gives
"     1\tHello$\n". -/
theorem C3_number_all_witness :
    (Opts.number_show_ends.opt_number = true ∧
        Opts.number_show_ends.opt_number_nonblank = false ∧
        (∀ b ∈ [72, 101, 108, 108, 111, 10], b < 256) ∧
        [72, 101, 108, 108, 111, 10].length < 2 ^ 64) ∧
      ((cat Opts.number_show_ends 0 (IStream.ofBytes [72, 101, 108, 108, 111, 10])
            OStream.fresh).ostream.out =
          number_lines Opts.number_show_ends 0
            (emitted_lines Opts.number_show_ends [72, 101, 108, 108, 111, 10]) ∧
        (cat Opts.number_show_ends 0 (IStream.ofBytes [72, 101, 108, 108, 111, 10])
            OStream.fresh).cnt_line =
          (emitted_lines Opts.number_show_ends [72, 101, 108, 108, 111, 10]).length) ∧
      (cat Opts.number_show_ends 0 (IStream.ofBytes [72, 101, 108, 108, 111, 10])
          OStream.fresh).ostream.out =
        [32, 32, 32, 32, 32, 49, 9, 72, 101, 108, 108, 111, 36, 10] :=
  ⟨by decide,
    C3_number_all Opts.number_show_ends [72, 101, 108, 108, 111, 10] rfl rfl (by decide)
      (by decide),
    by decide⟩

/-! ## C8, C9: xgetline -/

theorem take_succ_set (l : List Nat) (n v : Nat) (h : n < l.length) :
    (l.set n v).take (n + 1) = l.take n ++ [v] := by
  rw [List.set_eq_take_append_cons_drop, if_pos h]
  rw [show List.take n l ++ v :: List.drop (n + 1) l =
    (List.take n l ++ [v]) ++ List.drop (n + 1) l by simp]
  exact List.take_left' (by simp; omega)

theorem take_set_self (l : List Nat) (n v : Nat) (h : n < l.length) :
    (l.set n v).take n = l.take n := by
  have h1 := congrArg (List.take n) (take_succ_set l n v h)
  rw [List.take_take, min_eq_left (by omega)] at h1
  rw [h1, List.take_append_of_le_length (by simp; omega), List.take_take, min_self]

theorem realloc_spec (fill : Nat) (mem : List Nat) (n : Nat) (h : mem.length ≤ n) :
    (realloc fill mem n).length = n ∧
      ∀ k, k ≤ mem.length → (realloc fill mem n).take k = mem.take k := by
  unfold realloc
  constructor
  · simp; omega
  · intro k hk
    rw [List.take_take, min_eq_left (by omega), List.take_append_of_le_length hk]

/-- One pass through the loop body, lines 23-33. -/
theorem store_incr_expand (fill : Nat) (s : XState) (b : Nat)
    (hlen : s.mem.length = s.bufsz) (hpos : s.pos + 1 ≤ s.bufsz) (hsz : s.pos + 1 < 2 ^ 63) :
    (store_incr (expand fill s) b).pos = s.pos + 1 ∧
      (store_incr (expand fill s) b).bufsz =
        (if s.pos + 1 ≥ s.bufsz then s.bufsz * 2 else s.bufsz) ∧
      (store_incr (expand fill s) b).mem.length = (store_incr (expand fill s) b).bufsz ∧
      (store_incr (expand fill s) b).pos + 1 ≤ (store_incr (expand fill s) b).bufsz ∧
      (store_incr (expand fill s) b).oob = s.oob ∧
      (store_incr (expand fill s) b).mem.take (s.pos + 1) = s.mem.take s.pos ++ [b % 256] ∧
      (store_incr (expand fill s) b).stream = s.stream ∧
      (store_incr (expand fill s) b).ch = s.ch := by
  have m1 : (s.pos + 1) % 2 ^ 64 = s.pos + 1 := Nat.mod_eq_of_lt (by omega)
  by_cases hge : s.pos + 1 ≥ s.bufsz
  · have m2 : s.bufsz * 2 % 2 ^ 64 = s.bufsz * 2 := Nat.mod_eq_of_lt (by omega)
    obtain ⟨r1, r2⟩ := realloc_spec fill s.mem (s.bufsz * 2) (by omega)
    have hin : s.pos < (realloc fill s.mem (s.bufsz * 2)).length := by rw [r1]; omega
    unfold store_incr expand store
    rw [m1, m2, if_pos hge]
    dsimp only
    rw [if_pos hin, if_pos hge, m1]
    dsimp only
    refine ⟨rfl, rfl, ?_, ?_, rfl, ?_, rfl, rfl⟩
    · rw [List.length_set, r1]
    · omega
    · rw [take_succ_set _ _ _ hin, r2 s.pos (by omega)]
  · have hin : s.pos < s.mem.length := by omega
    unfold store_incr expand store
    rw [m1, if_neg hge]
    rw [if_pos hin, if_neg hge]
    dsimp only
    rw [m1]
    refine ⟨rfl, rfl, ?_, ?_, rfl, ?_, rfl, rfl⟩
    · rw [List.length_set, hlen]
    · omega
    · rw [take_succ_set _ _ _ hin]

theorem xgetline_loop_spec (fill : Nat) (body rest : List Nat) (hbody : ∀ b ∈ body, b ≠ 10)
    (hrest : rest = [] ∨ ∃ t, rest = 10 :: t) :
    ∀ (fuel : Nat) (s : XState), s.stream.err = false → s.stream.bad = false →
      s.stream.data = body ++ rest → s.mem.length = s.bufsz → s.pos + 1 ≤ s.bufsz →
      s.pos + body.length + 1 < 2 ^ 63 → body.length + 1 ≤ fuel →
      (xgetline_loop fill fuel s).pos = s.pos + body.length ∧
        (xgetline_loop fill fuel s).bufsz = grow s.bufsz s.pos body.length ∧
        (xgetline_loop fill fuel s).mem.length = (xgetline_loop fill fuel s).bufsz ∧
        (xgetline_loop fill fuel s).pos + 1 ≤ (xgetline_loop fill fuel s).bufsz ∧
        (xgetline_loop fill fuel s).oob = s.oob ∧
        (xgetline_loop fill fuel s).mem.take (s.pos + body.length) =
          s.mem.take s.pos ++ body.map (· % 256) ∧
        (xgetline_loop fill fuel s).ch = rest.head? ∧
        (xgetline_loop fill fuel s).stream.data = rest.tail ∧
        (xgetline_loop fill fuel s).stream.err = false := by
  induction body with
  | nil =>
    intro fuel s herr hbad hdata hlen hpos hsz hfuel
    cases fuel with
    | zero => omega
    | succ f =>
      simp only [List.nil_append] at hdata
      unfold xgetline_loop
      rw [if_neg (by simp [herr])]
      rcases hrest with h | ⟨t, h⟩
      · subst h
        simp [fgetc, hdata, hbad, grow, hlen, hpos, herr]
      · subst h
        simp [fgetc, hdata, hbad, grow, hlen, hpos, herr]
  | cons b bs ih =>
    intro fuel s herr hbad hdata hlen hpos hsz hfuel
    have hb : b ≠ 10 := hbody b (List.mem_cons_self _ _)
    have ih := ih (fun c hc => hbody c (List.mem_cons_of_mem _ hc))
    simp only [List.length_cons] at hsz hfuel
    cases fuel with
    | zero => omega
    | succ f =>
      unfold xgetline_loop
      rw [if_neg (by simp [herr])]
      simp only [fgetc, hdata, List.cons_append, if_neg hb]
      obtain ⟨a1, a2, a3, a4, a5, a6, a7, a8⟩ :=
        store_incr_expand fill
          { s with ch := some b, stream := { s.stream with data := bs ++ rest } } b hlen hpos
          (by dsimp only; omega)
      dsimp only at a1 a2 a3 a4 a5 a6 a7 a8
      obtain ⟨c1, c2, c3, c4, c5, c6, c7, c8, c9⟩ := ih f _ (by rw [a7]; exact herr)
        (by rw [a7]; exact hbad) (by rw [a7]) a3 a4 (by rw [a1]; omega) (by omega)
      rw [a1] at c1 c6
      rw [a2, a1] at c2
      refine ⟨by rw [c1]; simp only [List.length_cons]; omega, ?_, c3, c4, by rw [c5, a5], ?_,
        c7, c8, c9⟩
      · rw [c2]; simp only [List.length_cons, grow]
      · have : s.pos + (b :: bs).length = s.pos + 1 + bs.length := by
          simp only [List.length_cons]; omega
        rw [this, c6]
        rw [a6]
        simp

theorem first_line_split (X : List Nat) :
    ∃ body rest, X = body ++ rest ∧ (∀ b ∈ body, b ≠ 10) ∧
      (rest = [] ∨ ∃ t, rest = 10 :: t) ∧ first_line X = body ++ rest.take 1 ∧
      X.drop (first_line X).length = rest.tail ∧ body = X.takeWhile (· ≠ 10) := by
  induction X with
  | nil => exact ⟨[], [], by simp [first_line]⟩
  | cons b X ih =>
    by_cases hb : b = 10
    · subst hb
      exact ⟨[], 10 :: X, by simp [first_line]⟩
    · obtain ⟨body, rest, h1, h2, h3, h4, h5, h6⟩ := ih
      refine ⟨b :: body, rest, by simp [h1], ?_, h3, by simp [first_line, hb, h4], ?_, ?_⟩
      · intro c hc
        rcases List.mem_cons.mp hc with hc | hc
        · rw [hc]; exact hb
        · exact h2 c hc
      · simp only [first_line, if_neg hb, List.length_cons, List.drop_succ_cons]
        exact h5
      · rw [List.takeWhile_cons, ← h6]
        simp [hb]

/-- What one call of `xgetline` does on a stream without read error, for a valid
handle and a line shorter than `2 ^ 63` bytes: it returns the length of the
first line, consumes it, leaves a block of `grow cap 0 n` bytes (`n` the length
of the line body) that starts with the line, and stores the terminating NUL
inside the block unless the line fills the block completely. -/
theorem xgetline_body_spec (fill : Nat) (buf : LineBuf) (X : List Nat)
    (hX : ∀ b ∈ X, b < 256)
    (hvalid : buf.bufsz = 0 ∨ buf.bufp = none ∨
      ∃ mem, buf.bufp = some mem ∧ mem.length = buf.bufsz)
    (hlen : X.length + 1 < 2 ^ 63) :
    (xgetline_body fill buf (IStream.ofBytes X)).rval = (first_line X).length ∧
      (xgetline_body fill buf (IStream.ofBytes X)).stream.data =
        X.drop (first_line X).length ∧
      (xgetline_body fill buf (IStream.ofBytes X)).buf.bufsz =
        grow (if buf.bufsz = 0 ∨ buf.bufp = none then XLINESIZE else buf.bufsz) 0
          (X.takeWhile (· ≠ 10)).length ∧
      (∃ mem, (xgetline_body fill buf (IStream.ofBytes X)).buf.bufp = some mem ∧
        mem.length = (xgetline_body fill buf (IStream.ofBytes X)).buf.bufsz ∧
        mem.take (first_line X).length = first_line X ∧
        ((xgetline_body fill buf (IStream.ofBytes X)).oob = false →
          mem.take ((first_line X).length + 1) = first_line X ++ [0])) ∧
      ((xgetline_body fill buf (IStream.ofBytes X)).oob = true ↔
        (first_line X).length = (xgetline_body fill buf (IStream.ofBytes X)).buf.bufsz) := by
  obtain ⟨body, rest, h1, h2, h3, h4, h5, h6⟩ := first_line_split X
  -- the block and its size on entry to the loop
  let fresh : Bool := buf.bufsz = 0 || buf.bufp.isNone
  let cap := if fresh then XLINESIZE else buf.bufsz
  let mem0 := if fresh then malloc fill XLINESIZE else buf.bufp.getD []
  have hX512 : 1 ≤ XLINESIZE := by decide
  have hfresh : fresh = true ↔ (buf.bufsz = 0 ∨ buf.bufp = none) := by
    simp only [fresh, Bool.or_eq_true, decide_eq_true_eq, Option.isNone_iff_eq_none]
  have hcap : cap = (if buf.bufsz = 0 ∨ buf.bufp = none then XLINESIZE else buf.bufsz) := by
    simp only [cap, hfresh]
  have hmem0 : mem0.length = cap ∧ 1 ≤ cap := by
    by_cases hf : fresh = true
    · simp only [cap, mem0, if_pos hf, malloc, List.length_replicate]
      exact ⟨trivial, hX512⟩
    · simp only [cap, mem0, if_neg hf]
      have hf2 := fun h => hf (hfresh.mpr h)
      rcases hvalid with hz | hn | ⟨mem, hm, hl⟩
      · exact absurd (Or.inl hz) hf2
      · exact absurd (Or.inr hn) hf2
      · rw [hm]
        simp only [Option.getD_some]
        refine ⟨hl, ?_⟩
        have : buf.bufsz ≠ 0 := fun hz => hf2 (Or.inl hz)
        omega
  let s0 : XState :=
    { mem := mem0, bufsz := cap, pos := 0, ch := some 0, stream := IStream.ofBytes X,
      oob := false }
  have hbl : body.length + rest.length = X.length := by rw [h1]; simp
  obtain ⟨c1, c2, c3, c4, c5, c6, c7, c8, c9⟩ :=
    xgetline_loop_spec fill body rest h2 h3 (X.length + 1) s0 rfl rfl h1 hmem0.1
      (by simp only [s0]; omega) (by simp only [s0]; omega) (by omega)
  simp only [s0, Nat.zero_add, List.take_zero, List.nil_append] at c1 c2 c5 c6
  have hbody : body.map (· % 256) = body :=
    map_mod_eq_self body (fun b hb => hX b (by rw [h1]; exact List.mem_append_left _ hb))
  rw [hbody] at c6
  generalize hs1 : xgetline_loop fill (X.length + 1) s0 = s1 at c1 c2 c3 c4 c5 c6 c7 c8 c9
  have hr : ∀ s2 s3 : XState, s2 = (if s1.ch = some 10 then store_incr s1 10 else s1) →
      s3 = store s2 s2.pos 0 →
      xgetline_body fill buf (IStream.ofBytes X) =
        ⟨if s3.stream.err then -1 else (s3.pos : Int), ⟨some s3.mem, s3.bufsz⟩, s3.stream,
          s3.oob⟩ := by
    intro s2 s3 e2 e3
    subst e2; subst e3
    rw [← hs1]; rfl
  specialize hr _ _ rfl rfl
  rw [← hcap, ← h6, h5]
  have hin : s1.pos < s1.mem.length := by omega
  have herr : ∀ n : Nat, (if s1.stream.err = true then (-1 : Int) else (n : Int)) = n := by
    intro n; rw [c9]; rfl
  rcases h3 with h3 | ⟨t, h3⟩
  · -- no newline: the NUL goes to index `pos`
    subst h3
    simp only [List.head?_nil, List.tail_nil, List.take_nil, List.append_nil] at c7 c8 h4
    have hne : ¬ s1.ch = some 10 := by rw [c7]; simp
    have e3 : store s1 s1.pos 0 = { s1 with mem := s1.mem.set s1.pos 0 } := by
      unfold store; rw [if_pos hin]
    rw [if_neg hne, e3] at hr
    rw [hr]
    dsimp only
    rw [herr, h4]
    refine ⟨by rw [c1], c8, c2, ⟨_, rfl, ?_, ?_, fun _ => ?_⟩, ?_⟩
    · rw [List.length_set, c3]
    · rw [← c1, take_set_self _ _ _ hin, c1, c6]
    · rw [← c1, take_succ_set _ _ _ hin, c1, c6]
    · rw [c5]
      constructor
      · intro h; cases h
      · intro h; omega
  · -- a newline: it goes to index `pos`, the NUL to index `pos + 1`
    subst h3
    simp only [List.head?_cons, List.tail_cons, List.take_succ_cons, List.take_zero] at c7 c8 h4
    have m1 : (s1.pos + 1) % 2 ^ 64 = s1.pos + 1 := Nat.mod_eq_of_lt (by omega)
    have hlen4 : (first_line X).length = s1.pos + 1 := by rw [h4, c1]; simp
    have e2 : store_incr s1 10 = { s1 with mem := s1.mem.set s1.pos 10, pos := s1.pos + 1 } := by
      unfold store_incr store; rw [if_pos hin, m1]
    rw [if_pos c7, e2] at hr
    by_cases hfull : s1.pos + 1 < s1.mem.length
    · have e3 : store { s1 with mem := s1.mem.set s1.pos 10, pos := s1.pos + 1 } (s1.pos + 1) 0 =
          { s1 with mem := (s1.mem.set s1.pos 10).set (s1.pos + 1) 0, pos := s1.pos + 1 } := by
        unfold store
        rw [if_pos (by rw [List.length_set]; exact hfull)]
      rw [e3] at hr
      rw [hr]
      dsimp only
      rw [herr, hlen4]
      refine ⟨rfl, c8, c2, ⟨_, rfl, ?_, ?_, fun _ => ?_⟩, ?_⟩
      · rw [List.length_set, List.length_set, c3]
      · rw [take_set_self _ _ _ (by rw [List.length_set]; exact hfull),
          take_succ_set _ _ _ hin, c1, c6, h4]
      · rw [take_succ_set _ _ _ (by rw [List.length_set]; exact hfull),
          take_succ_set _ _ _ hin, c1, c6, h4]
      · rw [c5]
        constructor
        · intro h; cases h
        · intro h; omega
    · have e3 : store { s1 with mem := s1.mem.set s1.pos 10, pos := s1.pos + 1 } (s1.pos + 1) 0 =
          { s1 with mem := s1.mem.set s1.pos 10, pos := s1.pos + 1, oob := true } := by
        unfold store
        rw [if_neg (by rw [List.length_set]; exact hfull)]
      rw [e3] at hr
      rw [hr]
      dsimp only
      rw [herr, hlen4]
      refine ⟨rfl, c8, c2, ⟨_, rfl, ?_, ?_, fun h => ?_⟩, ?_⟩
      · rw [List.length_set, c3]
      · rw [take_succ_set _ _ _ hin, c1, c6, h4]
      · cases h
      · constructor
        · intro _; omega
        · intro _; trivial

theorem grow_eq_self (c pos n : Nat) (h : pos + n < c) : grow c pos n = c := by
  induction n generalizing pos with
  | zero => rfl
  | succ n ih =>
    unfold grow
    rw [if_neg (by omega)]
    exact ih (pos + 1) (by omega)

theorem first_line_replicate (n : Nat) (rest : List Nat) :
    first_line (List.replicate n 97 ++ 10 :: rest) = List.replicate n 97 ++ [10] ∧
      List.takeWhile (· ≠ 10) (List.replicate n 97 ++ 10 :: rest) = List.replicate n 97 := by
  induction n with
  | zero => simp [first_line]
  | succ n ih => simp [List.replicate_succ, first_line, ih.1, ih.2]

theorem line_511_facts :
    first_line line_511 = line_511 ∧ (List.takeWhile (· ≠ 10) line_511).length = 511 ∧
      line_511.length = 512 ∧ ∀ b ∈ line_511, b < 256 := by
  obtain ⟨h1, h2⟩ := first_line_replicate 511 []
  refine ⟨h1, ?_, ?_, ?_⟩
  · unfold line_511; rw [h2, List.length_replicate]
  · unfold line_511; rw [List.length_append, List.length_replicate]; rfl
  · intro b hb
    simp only [line_511, List.mem_append, List.mem_replicate, List.mem_singleton] at hb
    omega

/-- What `xgetline` does with an empty handle on the line of 511 bytes and a newline. -/
theorem xgetline_line_511 (fill : Nat) :
    (xgetline_body fill LineBuf.null (IStream.ofBytes line_511)).rval = 512 ∧
      (xgetline_body fill LineBuf.null (IStream.ofBytes line_511)).buf.bufsz = 512 ∧
      (xgetline_body fill LineBuf.null (IStream.ofBytes line_511)).buf.bufp = some line_511 ∧
      (xgetline_body fill LineBuf.null (IStream.ofBytes line_511)).oob = true := by
  obtain ⟨f1, f2, f3, f4⟩ := line_511_facts
  obtain ⟨h1, _, h3, ⟨mem, h4, h5, h6, _⟩, h7⟩ :=
    xgetline_body_spec fill LineBuf.null line_511 f4 (Or.inl rfl) (by rw [f3]; decide)
  rw [f1, f3] at h1 h6 h7
  rw [f2] at h3
  have hsz : (xgetline_body fill LineBuf.null (IStream.ofBytes line_511)).buf.bufsz = 512 := by
    rw [h3]
    exact grow_eq_self 512 0 511 (by decide)
  refine ⟨h1, hsz, ?_, h7.mpr hsz.symm⟩
  rw [h4, ← h6, List.take_of_length_le (by rw [h5, hsz])]

theorem first_line_eq_nil (X : List Nat) : (first_line X).length = 0 ↔ X = [] := by
  cases X with
  | nil => simp [first_line]
  | cons b X => by_cases hb : b = 10 <;> simp [first_line, hb]

theorem xgetline_some (fill : Nat) (b : LineBuf) (s : IStream) :
    xgetline fill (some b) (some s) =
      ((xgetline_body fill b s).rval, some (xgetline_body fill b s)) := rfl

/-- C8 fails on a line that fills the block: called with the empty handle on a
stream that starts with 511 bytes `a` and a newline, `xgetline` returns 512 and
leaves a block of 512 bytes that holds the line and no terminating NUL; the
store of the NUL went to index 512, outside the block. -/
theorem C8_xgetline_nul_outside (fill : Nat) :
    (xgetline fill (some LineBuf.null) (some (IStream.ofBytes line_511))).1 = 512 ∧
      (xgetline_body fill LineBuf.null (IStream.ofBytes line_511)).buf.bufp = some line_511 ∧
      line_511.length = 512 ∧
      (xgetline_body fill LineBuf.null (IStream.ofBytes line_511)).oob = true := by
  obtain ⟨h1, _, h3, h4⟩ := xgetline_line_511 fill
  refine ⟨?_, h3, line_511_facts.2.2.1, h4⟩
  rw [xgetline_some, h1]

/-- C9 fails on a line that fills the block: called with the empty handle on a
stream that starts with 511 bytes `a` and a newline, `xgetline` returns the
length 512 while `*bufsz` is 512, so the capacity is not at least the returned
length plus 1, and a store went outside the block. -/
theorem C9_capacity_not_above_length (fill : Nat) :
    (xgetline_body fill LineBuf.null (IStream.ofBytes line_511)).rval = 512 ∧
      (xgetline_body fill LineBuf.null (IStream.ofBytes line_511)).buf.bufsz = 512 ∧
      ¬ ((xgetline_body fill LineBuf.null (IStream.ofBytes line_511)).rval + 1 ≤
        ((xgetline_body fill LineBuf.null (IStream.ofBytes line_511)).buf.bufsz : Int)) ∧
      (xgetline_body fill LineBuf.null (IStream.ofBytes line_511)).oob = true := by
  obtain ⟨h1, h2, _, h4⟩ := xgetline_line_511 fill
  refine ⟨h1, h2, ?_, h4⟩
  rw [h1, h2]
  decide

/-! ## C10: case-insensitive search -/

theorem tolower_ne_zero (c : Nat) (h : c ≠ 0) : tolower c ≠ 0 := by
  unfold tolower
  split_ifs <;> omega

/-- The inner loop runs to the end of the pattern exactly when the lowercased
pattern is a beginning of the lowercased rest of the line. -/
theorem match_loop_iff (sub : List Nat) (hsub : ∀ c ∈ sub, c ≠ 0) :
    ∀ s : List Nat, deref (match_loop s sub) = 0 ↔ sub.map tolower <+: s.map tolower := by
  induction sub with
  | nil => intro s; simp [match_loop, deref]
  | cons c sub ih =>
    intro s
    have hc : c ≠ 0 := hsub c (List.mem_cons_self _ _)
    have ih := ih (fun d hd => hsub d (List.mem_cons_of_mem _ hd))
    unfold match_loop
    cases s with
    | nil =>
      have : ¬ (c ≠ 0 ∧ tolower (deref []) = tolower c) := by
        intro h
        have h0 : tolower (deref []) = 0 := by simp [deref, tolower]
        exact tolower_ne_zero c hc (by rw [← h.2, h0])
      rw [if_neg this]
      simp [deref, hc]
    | cons a s =>
      by_cases h : tolower a = tolower c
      · have : c ≠ 0 ∧ tolower (deref (a :: s)) = tolower c := ⟨hc, by simpa [deref] using h⟩
        rw [if_pos this, List.tail_cons, ih s]
        simp only [List.map_cons, h]
        constructor
        · intro hp
          exact (List.prefix_cons_inj _).mpr hp
        · intro hp
          exact (List.prefix_cons_inj _).mp hp
      · have : ¬ (c ≠ 0 ∧ tolower (deref (a :: s)) = tolower c) := by
          intro h'; exact h (by simpa [deref] using h'.2)
        rw [if_neg this]
        simp only [List.map_cons, deref, List.headD_cons]
        constructor
        · intro h0; exact absurd h0 hc
        · intro hp
          have := List.cons_prefix_cons.mp hp
          exact absurd this.1.symm h

theorem strstr_ignore_case_from_iff (P : List Nat) (hne : P ≠ []) (hP : ∀ c ∈ P, c ≠ 0) :
    ∀ (L : List Nat) (off : Nat), (∀ c ∈ L, c ≠ 0) →
      ((strstr_ignore_case_from P L off).isSome = true ↔ P.map tolower <:+: L.map tolower) := by
  intro L
  induction L with
  | nil =>
    intro off _
    simp [strstr_ignore_case_from, hne]
  | cons a L ih =>
    intro off hL
    have ha : a ≠ 0 := hL a (List.mem_cons_self _ _)
    have ih := ih (off + 1) (fun d hd => hL d (List.mem_cons_of_mem _ hd))
    unfold strstr_ignore_case_from
    rw [if_neg ha, List.map_cons, List.infix_cons_iff, ← List.map_cons]
    by_cases hm : deref (match_loop (a :: L) P) = 0
    · rw [if_pos hm]
      simp only [Option.isSome_some, true_iff]
      exact Or.inl ((match_loop_iff P hP (a :: L)).mp hm)
    · rw [if_neg hm, ih]
      constructor
      · intro h; exact Or.inr h
      · intro h
        rcases h with h | h
        · exact absurd ((match_loop_iff P hP (a :: L)).mpr h) hm
        · exact h

/-- C10: for a non-empty NUL-free pattern `P` and a NUL-free line `L`,
`strstr_ignore_case(L, P)` is non-NULL exactly when the bytewise lowercased `P`
is a contiguous part of the bytewise lowercased `L`. -/
theorem C10_ignore_case_contains (L P : List Nat) (hne : P ≠ []) (hP : ∀ c ∈ P, c ≠ 0)
    (hL : ∀ c ∈ L, c ≠ 0) :
    (strstr_ignore_case L P).isSome = true ↔ P.map tolower <:+: L.map tolower :=
  strstr_ignore_case_from_iff P hne hP L 0 hL

/-- C10 at the pattern "HELLO" and the line "Hello\n": the pattern is found, at
offset 0. -/
theorem C10_ignore_case_contains_witness :
    ([72, 69, 76, 76, 79] ≠ [] ∧ (∀ c ∈ [72, 69, 76, 76, 79], c ≠ 0) ∧
        (∀ c ∈ [72, 101, 108, 108, 111, 10], c ≠ 0)) ∧
      ((strstr_ignore_case [72, 101, 108, 108, 111, 10] [72, 69, 76, 76, 79]).isSome = true ↔
        [72, 69, 76, 76, 79].map tolower <:+: [72, 101, 108, 108, 111, 10].map tolower) ∧
      strstr_ignore_case [72, 101, 108, 108, 111, 10] [72, 69, 76, 76, 79] = some 0 :=
  ⟨by decide,
    C10_ignore_case_contains [72, 101, 108, 108, 111, 10] [72, 69, 76, 76, 79] (by decide)
      (by decide) (by decide),
    by decide⟩

/-! ## C17: the first case-insensitive match -/

/-- The lowercased pattern starts the lowercased `S` exactly when the first
`|P|` bytes of `S` equal `P` after lowercasing both. -/
theorem lower_prefix_iff_take (P S : List Nat) :
    P.map tolower <+: S.map tolower ↔ (S.take P.length).map tolower = P.map tolower := by
  rw [List.prefix_iff_eq_take, List.length_map, ← List.map_take]
  exact eq_comm

theorem strstr_ignore_case_from_first (P : List Nat) (hP : ∀ c ∈ P, c ≠ 0) :
    ∀ (L : List Nat) (off k : Nat), (∀ c ∈ L, c ≠ 0) →
      strstr_ignore_case_from P L off = some k →
      ∃ i, k = off + i ∧ i < L.length ∧ P.map tolower <+: (L.drop i).map tolower ∧
        ∀ j, j < i → ¬ P.map tolower <+: (L.drop j).map tolower := by
  intro L
  induction L with
  | nil => intro off k _ h; simp [strstr_ignore_case_from] at h
  | cons a L ih =>
    intro off k hL h
    have ha : a ≠ 0 := hL a (List.mem_cons_self _ _)
    unfold strstr_ignore_case_from at h
    rw [if_neg ha] at h
    by_cases hm : deref (match_loop (a :: L) P) = 0
    · rw [if_pos hm] at h
      cases h
      refine ⟨0, rfl, by simp, ?_, fun j hj => absurd hj (Nat.not_lt_zero j)⟩
      exact (match_loop_iff P hP (a :: L)).mp hm
    · rw [if_neg hm] at h
      obtain ⟨i, h1, h2, h3, h4⟩ := ih (off + 1) k (fun d hd => hL d (List.mem_cons_of_mem _ hd)) h
      refine ⟨i + 1, by omega, by simp; omega, by simpa using h3, ?_⟩
      intro j hj
      cases j with
      | zero =>
        intro hp
        exact hm ((match_loop_iff P hP (a :: L)).mpr (by simpa using hp))
      | succ j =>
        have := h4 j (by omega)
        simpa using this

/-- C17: for a non-empty NUL-free pattern `P` and a NUL-free line `L` with some
case-insensitive occurrence of `P`, `strstr_ignore_case(L, P)` returns the least
offset `i` at which the `|P|` bytes of `L` equal `P` after lowercasing both; no
smaller offset is a match. -/
theorem C17_first_match (L P : List Nat) (hne : P ≠ []) (hP : ∀ c ∈ P, c ≠ 0)
    (hL : ∀ c ∈ L, c ≠ 0) (hex : P.map tolower <:+: L.map tolower) :
    ∃ i, strstr_ignore_case L P = some i ∧ i + P.length ≤ L.length ∧
      ((L.drop i).take P.length).map tolower = P.map tolower ∧
      ∀ j, j < i → ((L.drop j).take P.length).map tolower ≠ P.map tolower := by
  have hsome := (strstr_ignore_case_from_iff P hne hP L 0 hL).mpr hex
  obtain ⟨k, hk⟩ := Option.isSome_iff_exists.mp hsome
  obtain ⟨i, h1, _, h3, h4⟩ := strstr_ignore_case_from_first P hP L 0 k hL hk
  have hki : k = i := by omega
  subst hki
  refine ⟨k, hk, ?_, (lower_prefix_iff_take P _).mp h3, fun j hj => ?_⟩
  · have := h3.length_le
    simp only [List.length_map, List.length_drop] at this
    have hpos : 0 < P.length := List.length_pos.mpr hne
    omega
  · intro h
    exact h4 j hj ((lower_prefix_iff_take P _).mpr h)

/-- C17 at the pattern "LO" and the line "Hello lo\n": the first of the two
occurrences, at offset 3, is returned. -/
theorem C17_first_match_witness :
    ([76, 79] ≠ [] ∧ (∀ c ∈ [76, 79], c ≠ 0) ∧
        (∀ c ∈ [72, 101, 108, 108, 111, 32, 108, 111, 10], c ≠ 0) ∧
        [76, 79].map tolower <:+: [72, 101, 108, 108, 111, 32, 108, 111, 10].map tolower) ∧
      (∃ i, strstr_ignore_case [72, 101, 108, 108, 111, 32, 108, 111, 10] [76, 79] = some i ∧
        i + [76, 79].length ≤ [72, 101, 108, 108, 111, 32, 108, 111, 10].length ∧
        (([72, 101, 108, 108, 111, 32, 108, 111, 10].drop i).take [76, 79].length).map tolower =
          [76, 79].map tolower ∧
        ∀ j, j < i →
          (([72, 101, 108, 108, 111, 32, 108, 111, 10].drop j).take [76, 79].length).map tolower ≠
            [76, 79].map tolower) ∧
      strstr_ignore_case [72, 101, 108, 108, 111, 32, 108, 111, 10] [76, 79] = some 3 :=
  ⟨⟨by decide, by decide, by decide, ⟨[104, 101, 108], [32, 108, 111, 10], by decide⟩⟩,
    C17_first_match [72, 101, 108, 108, 111, 32, 108, 111, 10] [76, 79] (by decide) (by decide)
      (by decide) ⟨[104, 101, 108], [32, 108, 111, 10], by decide⟩,
    by decide⟩

/-! ## The library function strstr -/

theorem strstr_from_spec (P : List Nat) :
    ∀ (L : List Nat) (off : Nat),
      (∀ k, strstr_from P L off = some k →
        ∃ i, k = off + i ∧ i ≤ L.length ∧ P <+: L.drop i ∧ ∀ j, j < i → ¬ P <+: L.drop j) ∧
      (strstr_from P L off = none → ¬ P <:+: L) := by
  intro L
  induction L with
  | nil =>
    intro off
    by_cases hP : P = []
    · subst hP
      simp [strstr_from]
    · simp [strstr_from, hP]
  | cons a L ih =>
    intro off
    unfold strstr_from
    by_cases hp : P.isPrefixOf (a :: L) = true
    · rw [if_pos hp]
      have hp' : P <+: a :: L := List.isPrefixOf_iff_prefix.mp hp
      constructor
      · intro k hk
        cases hk
        exact ⟨0, rfl, by simp, hp', fun j hj => absurd hj (Nat.not_lt_zero j)⟩
      · intro h; cases h
    · rw [if_neg hp]
      have hp' : ¬ P <+: a :: L := fun h => hp (List.isPrefixOf_iff_prefix.mpr h)
      obtain ⟨ih1, ih2⟩ := ih (off + 1)
      constructor
      · intro k hk
        obtain ⟨i, h1, h2, h3, h4⟩ := ih1 k hk
        refine ⟨i + 1, by omega, by simp; omega, by simpa using h3, ?_⟩
        intro j hj
        cases j with
        | zero => simpa using hp'
        | succ j => simpa using h4 j (by omega)
      · intro hn hinf
        rcases List.infix_cons_iff.mp hinf with h | h
        · exact hp' h
        · exact ih2 hn h

/-- `strstr` finds the pattern exactly when it occurs. -/
theorem strstr_isSome_iff (L P : List Nat) : (strstr L P).isSome = true ↔ P <:+: L := by
  obtain ⟨h1, h2⟩ := strstr_from_spec P L 0
  constructor
  · intro h
    obtain ⟨k, hk⟩ := Option.isSome_iff_exists.mp h
    obtain ⟨i, _, _, h3, _⟩ := h1 k hk
    exact h3.isInfix.trans (List.drop_suffix i L).isInfix
  · intro h
    cases hs : strstr L P with
    | none => exact absurd h (h2 hs)
    | some k => rfl

/-- The pointer `strstr` returns is the first occurrence of the pattern. -/
theorem strstr_first (L P : List Nat) (k : Nat) (h : strstr L P = some k) :
    k + P.length ≤ L.length ∧ (L.drop k).take P.length = P ∧
      ∀ j, j < k → (L.drop j).take P.length ≠ P := by
  obtain ⟨i, h1, h2, h3, h4⟩ := (strstr_from_spec P L 0).1 k h
  have hki : k = i := by omega
  subst hki
  refine ⟨?_, (List.prefix_iff_eq_take.mp h3).symm, fun j hj hp => ?_⟩
  · have := h3.length_le
    simp only [List.length_drop] at this
    omega
  · exact h4 j hj (List.prefix_iff_eq_take.mpr hp.symm)

/-! ## grep: reading the lines -/

/-- The effect of one call of `xgetline` on any stream without pending or coming
read error (the statement of `xgetline_body_spec` for a stream with arbitrary
end-of-file indicator). -/
theorem xgetline_call_spec (fill : Nat) (buf : LineBuf) (st : IStream)
    (herr0 : st.err = false) (hbad0 : st.bad = false)
    (hX : ∀ b ∈ st.data, b < 256)
    (hvalid : buf.bufsz = 0 ∨ buf.bufp = none ∨
      ∃ mem, buf.bufp = some mem ∧ mem.length = buf.bufsz)
    (hlen : st.data.length + 1 < 2 ^ 63) :
    (xgetline_body fill buf st).stream.err = false ∧
      (xgetline_body fill buf st).rval = (first_line st.data).length ∧
      (xgetline_body fill buf st).stream.data = st.data.drop (first_line st.data).length ∧
      (xgetline_body fill buf st).buf.bufsz =
        grow (if buf.bufsz = 0 ∨ buf.bufp = none then XLINESIZE else buf.bufsz) 0
          (st.data.takeWhile (· ≠ 10)).length ∧
      (∃ mem, (xgetline_body fill buf st).buf.bufp = some mem ∧
        mem.length = (xgetline_body fill buf st).buf.bufsz ∧
        mem.take (first_line st.data).length = first_line st.data ∧
        ((xgetline_body fill buf st).oob = false →
          mem.take ((first_line st.data).length + 1) = first_line st.data ++ [0])) ∧
      ((xgetline_body fill buf st).oob = true ↔
        (first_line st.data).length = (xgetline_body fill buf st).buf.bufsz) := by
  obtain ⟨body, rest, h1, h2, h3, h4, h5, h6⟩ := first_line_split st.data
  -- the block and its size on entry to the loop
  let fresh : Bool := buf.bufsz = 0 || buf.bufp.isNone
  let cap := if fresh then XLINESIZE else buf.bufsz
  let mem0 := if fresh then malloc fill XLINESIZE else buf.bufp.getD []
  have hX512 : 1 ≤ XLINESIZE := by decide
  have hfresh : fresh = true ↔ (buf.bufsz = 0 ∨ buf.bufp = none) := by
    simp only [fresh, Bool.or_eq_true, decide_eq_true_eq, Option.isNone_iff_eq_none]
  have hcap : cap = (if buf.bufsz = 0 ∨ buf.bufp = none then XLINESIZE else buf.bufsz) := by
    simp only [cap, hfresh]
  have hmem0 : mem0.length = cap ∧ 1 ≤ cap := by
    by_cases hf : fresh = true
    · simp only [cap, mem0, if_pos hf, malloc, List.length_replicate]
      exact ⟨trivial, hX512⟩
    · simp only [cap, mem0, if_neg hf]
      have hf2 := fun h => hf (hfresh.mpr h)
      rcases hvalid with hz | hn | ⟨mem, hm, hl⟩
      · exact absurd (Or.inl hz) hf2
      · exact absurd (Or.inr hn) hf2
      · rw [hm]
        simp only [Option.getD_some]
        refine ⟨hl, ?_⟩
        have : buf.bufsz ≠ 0 := fun hz => hf2 (Or.inl hz)
        omega
  let s0 : XState :=
    { mem := mem0, bufsz := cap, pos := 0, ch := some 0, stream := st,
      oob := false }
  have hbl : body.length + rest.length = st.data.length := by rw [h1]; simp
  obtain ⟨c1, c2, c3, c4, c5, c6, c7, c8, c9⟩ :=
    xgetline_loop_spec fill body rest h2 h3 (st.data.length + 1) s0 herr0 hbad0 h1 hmem0.1
      (by simp only [s0]; omega) (by simp only [s0]; omega) (by omega)
  simp only [s0, Nat.zero_add, List.take_zero, List.nil_append] at c1 c2 c5 c6
  have hbody : body.map (· % 256) = body :=
    map_mod_eq_self body (fun b hb => hX b (by rw [h1]; exact List.mem_append_left _ hb))
  rw [hbody] at c6
  generalize hs1 : xgetline_loop fill (st.data.length + 1) s0 = s1 at c1 c2 c3 c4 c5 c6 c7 c8 c9
  have hr : ∀ s2 s3 : XState, s2 = (if s1.ch = some 10 then store_incr s1 10 else s1) →
      s3 = store s2 s2.pos 0 →
      xgetline_body fill buf (st) =
        ⟨if s3.stream.err then -1 else (s3.pos : Int), ⟨some s3.mem, s3.bufsz⟩, s3.stream,
          s3.oob⟩ := by
    intro s2 s3 e2 e3
    subst e2; subst e3
    rw [← hs1]; rfl
  specialize hr _ _ rfl rfl
  rw [← hcap, ← h6, h5]
  have hin : s1.pos < s1.mem.length := by omega
  have herr : ∀ n : Nat, (if s1.stream.err = true then (-1 : Int) else (n : Int)) = n := by
    intro n; rw [c9]; rfl
  rcases h3 with h3 | ⟨t, h3⟩
  · -- no newline: the NUL goes to index `pos`
    subst h3
    simp only [List.head?_nil, List.tail_nil, List.take_nil, List.append_nil] at c7 c8 h4
    have hne : ¬ s1.ch = some 10 := by rw [c7]; simp
    have e3 : store s1 s1.pos 0 = { s1 with mem := s1.mem.set s1.pos 0 } := by
      unfold store; rw [if_pos hin]
    rw [if_neg hne, e3] at hr
    rw [hr]
    dsimp only
    rw [herr, h4]
    refine ⟨c9, by rw [c1], c8, c2, ⟨_, rfl, ?_, ?_, fun _ => ?_⟩, ?_⟩
    · rw [List.length_set, c3]
    · rw [← c1, take_set_self _ _ _ hin, c1, c6]
    · rw [← c1, take_succ_set _ _ _ hin, c1, c6]
    · rw [c5]
      constructor
      · intro h; cases h
      · intro h; omega
  · -- a newline: it goes to index `pos`, the NUL to index `pos + 1`
    subst h3
    simp only [List.head?_cons, List.tail_cons, List.take_succ_cons, List.take_zero] at c7 c8 h4
    have m1 : (s1.pos + 1) % 2 ^ 64 = s1.pos + 1 := Nat.mod_eq_of_lt (by omega)
    have hlen4 : (first_line st.data).length = s1.pos + 1 := by rw [h4, c1]; simp
    have e2 : store_incr s1 10 = { s1 with mem := s1.mem.set s1.pos 10, pos := s1.pos + 1 } := by
      unfold store_incr store; rw [if_pos hin, m1]
    rw [if_pos c7, e2] at hr
    by_cases hfull : s1.pos + 1 < s1.mem.length
    · have e3 : store { s1 with mem := s1.mem.set s1.pos 10, pos := s1.pos + 1 } (s1.pos + 1) 0 =
          { s1 with mem := (s1.mem.set s1.pos 10).set (s1.pos + 1) 0, pos := s1.pos + 1 } := by
        unfold store
        rw [if_pos (by rw [List.length_set]; exact hfull)]
      rw [e3] at hr
      rw [hr]
      dsimp only
      rw [herr, hlen4]
      refine ⟨c9, rfl, c8, c2, ⟨_, rfl, ?_, ?_, fun _ => ?_⟩, ?_⟩
      · rw [List.length_set, List.length_set, c3]
      · rw [take_set_self _ _ _ (by rw [List.length_set]; exact hfull),
          take_succ_set _ _ _ hin, c1, c6, h4]
      · rw [take_succ_set _ _ _ (by rw [List.length_set]; exact hfull),
          take_succ_set _ _ _ hin, c1, c6, h4]
      · rw [c5]
        constructor
        · intro h; cases h
        · intro h; omega
    · have e3 : store { s1 with mem := s1.mem.set s1.pos 10, pos := s1.pos + 1 } (s1.pos + 1) 0 =
          { s1 with mem := s1.mem.set s1.pos 10, pos := s1.pos + 1, oob := true } := by
        unfold store
        rw [if_neg (by rw [List.length_set]; exact hfull)]
      rw [e3] at hr
      rw [hr]
      dsimp only
      rw [herr, hlen4]
      refine ⟨c9, rfl, c8, c2, ⟨_, rfl, ?_, ?_, fun h => ?_⟩, ?_⟩
      · rw [List.length_set, c3]
      · rw [take_succ_set _ _ _ hin, c1, c6, h4]
      · cases h
      · constructor
        · intro _; omega
        · intro _; trivial

theorem store_stream (s : XState) (i v : Nat) : (store s i v).stream = s.stream := by
  unfold store
  split_ifs <;> rfl

theorem store_incr_stream (s : XState) (v : Nat) : (store_incr s v).stream = s.stream := by
  unfold store_incr
  exact store_stream s s.pos v

theorem expand_stream (fill : Nat) (s : XState) : (expand fill s).stream = s.stream := by
  unfold expand
  split_ifs <;> rfl

/-- The loop of `xgetline` never sets the end-of-file indicator before the last
byte is read, and never turns a good device into a bad one. -/
theorem xgetline_loop_stream (fill : Nat) :
    ∀ (fuel : Nat) (s : XState), s.stream.bad = false →
      (s.stream.eof = true → s.stream.data = []) →
      (xgetline_loop fill fuel s).stream.bad = false ∧
        ((xgetline_loop fill fuel s).stream.eof = true →
          (xgetline_loop fill fuel s).stream.data = []) := by
  intro fuel
  induction fuel with
  | zero => intro s h1 h2; exact ⟨h1, h2⟩
  | succ f ih =>
    intro s h1 h2
    unfold xgetline_loop
    split_ifs with herr
    · exact ⟨h1, h2⟩
    · cases hd : s.stream.data with
      | nil => simp [fgetc, hd, h1]
      | cons b rest =>
        have he : s.stream.eof = false := by
          cases h : s.stream.eof
          · rfl
          · rw [h2 h] at hd; cases hd
        simp only [fgetc, hd]
        split_ifs with hb
        · simp [h1, he]
        · apply ih
          · rw [store_incr_stream, expand_stream]; exact h1
          · rw [store_incr_stream, expand_stream]
            intro h
            simp [he] at h

theorem xgetline_body_stream (fill : Nat) (buf : LineBuf) (st : IStream)
    (h1 : st.bad = false) (h2 : st.eof = true → st.data = []) :
    (xgetline_body fill buf st).stream.bad = false ∧
      ((xgetline_body fill buf st).stream.eof = true →
        (xgetline_body fill buf st).stream.data = []) := by
  unfold xgetline_body
  dsimp only
  rw [store_stream]
  split_ifs <;>
    first
    | exact xgetline_loop_stream fill _ _ h1 h2
    | (rw [store_incr_stream]; exact xgetline_loop_stream fill _ _ h1 h2)

theorem takeWhile_append_nul (l rest : List Nat) (hl : ∀ b ∈ l, b ≠ 0) :
    (l ++ 0 :: rest).takeWhile (· ≠ 0) = l := by
  induction l with
  | nil => simp
  | cons b l ih =>
    have hb : b ≠ 0 := hl b (List.mem_cons_self _ _)
    rw [List.cons_append, List.takeWhile_cons_of_pos (by simpa using hb),
      ih (fun c hc => hl c (List.mem_cons_of_mem _ hc))]

theorem takeWhile_all (l : List Nat) (hl : ∀ b ∈ l, b ≠ 0) : l.takeWhile (· ≠ 0) = l := by
  induction l with
  | nil => simp
  | cons b l ih =>
    have hb : b ≠ 0 := hl b (List.mem_cons_self _ _)
    rw [List.takeWhile_cons_of_pos (by simpa using hb),
      ih (fun c hc => hl c (List.mem_cons_of_mem _ hc))]

theorem first_line_mem (X : List Nat) : ∀ b ∈ first_line X, b ∈ X := by
  induction X with
  | nil => intro b hb; simp [first_line] at hb
  | cons a X ih =>
    intro b hb
    unfold first_line at hb
    split_ifs at hb with ha
    · simp at hb; subst hb; rw [ha]; exact List.mem_cons_self _ _
    · rcases List.mem_cons.mp hb with h | h
      · rw [h]; exact List.mem_cons_self _ _
      · exact List.mem_cons_of_mem _ (ih b h)

/-- One call of `xgetline` from `grep`: the line buffer then holds, as a C string,
the first line of the unread bytes, which are consumed. -/
theorem xgetline_read_line (fill : Nat) (buf : LineBuf) (st : IStream) (hst : StreamGood st)
    (hbuf : BufOk buf) (hX : ∀ b ∈ st.data, b < 256) (hnul : ∀ b ∈ st.data, b ≠ 0)
    (hlen : st.data.length + 1 < 2 ^ 63) :
    (xgetline_body fill buf st).rval = (first_line st.data).length ∧
      cstr ((xgetline_body fill buf st).buf.bufp.getD []) = first_line st.data ∧
      BufOk (xgetline_body fill buf st).buf ∧ StreamGood (xgetline_body fill buf st).stream ∧
      (xgetline_body fill buf st).stream.data = st.data.drop (first_line st.data).length := by
  obtain ⟨b1, b2, b3⟩ := hst
  obtain ⟨c0, c1, c2, _, ⟨mem, m1, m2, m3, m4⟩, c5⟩ :=
    xgetline_call_spec fill buf st b2 b1 hX hbuf hlen
  obtain ⟨d1, d2⟩ := xgetline_body_stream fill buf st b1 b3
  have hline : ∀ b ∈ first_line st.data, b ≠ 0 := fun b hb => hnul b (first_line_mem _ b hb)
  refine ⟨c1, ?_, Or.inr (Or.inr ⟨mem, m1, m2⟩), ⟨d1, c0, d2⟩, c2⟩
  rw [m1, Option.getD_some]
  unfold cstr
  cases ho : (xgetline_body fill buf st).oob
  · have h := m4 ho
    have hsplit := List.take_append_drop ((first_line st.data).length + 1) mem
    rw [h] at hsplit
    rw [← hsplit, List.append_assoc, List.singleton_append]
    exact takeWhile_append_nul _ _ hline
  · have hfull := c5.mp ho
    rw [← m2] at hfull
    have : mem = first_line st.data := by
      rw [← m3, List.take_of_length_le (by omega)]
    rw [this]
    exact takeWhile_all _ hline

theorem split_lines_eq (X : List Nat) (hX : X ≠ []) :
    split_lines X = first_line X :: split_lines (X.drop (first_line X).length) := by
  induction X with
  | nil => exact absurd rfl hX
  | cons b X ih =>
    by_cases hb : b = 10
    · simp [split_lines, first_line, hb]
    · have e2 : first_line (b :: X) = b :: first_line X := by rw [first_line, if_neg hb]
      obtain ⟨l, ls, hs, hrest⟩ := split_lines_cons_ne b X hb
      rw [hs, e2]
      simp only [List.length_cons, List.drop_succ_cons]
      rcases hrest with ⟨h1, h2, h3⟩ | h1
      · cases X with
        | nil => subst h2; subst h3; simp [first_line, split_lines]
        | cons c X =>
          have := ih (by simp)
          rw [h1] at this
          cases this
      · have hne : X ≠ [] := by
          intro h; subst h; simp [split_lines] at h1
        have := ih hne
        rw [h1] at this
        injection this with t1 t2
        rw [t1, t2]

theorem first_line_length_pos (X : List Nat) (hX : X ≠ []) : 0 < (first_line X).length := by
  rcases Nat.eq_zero_or_pos (first_line X).length with h | h
  · exact absurd ((first_line_eq_nil X).mp h) hX
  · exact h

theorem first_line_length_le (X : List Nat) : (first_line X).length ≤ X.length := by
  induction X with
  | nil => simp [first_line]
  | cons b X ih =>
    unfold first_line
    split_ifs
    · simp
    · simp only [List.length_cons]; omega

theorem grep_loop_done (fill : Nat) (g : GrepOpts) (P : List Nat) (fuel : Nat) (s : GrepState)
    (h : ¬ ((g.opt_invert = false ∧ s.pos = Where.null) ∨
      (g.opt_invert = true ∧ s.pos ≠ Where.null))) :
    grep_loop fill g P fuel s = s := by
  cases fuel with
  | zero => rfl
  | succ f =>
    unfold grep_loop
    rw [if_neg]
    intro hc
    apply h
    cases hi : g.opt_invert
    · simp [hi] at hc ⊢; exact hc
    · simp [hi] at hc ⊢; exact hc

/-- The loop of `grep` on a good stream: it stops at the first qualifying line,
or at the end of the stream. -/
theorem grep_loop_spec (fill : Nat) (g : GrepOpts) (P : List Nat) :
    ∀ (fuel : Nat) (s : GrepState), s.stream.data.length + 1 ≤ fuel →
      ((g.opt_invert = false ∧ s.pos = Where.null) ∨
        (g.opt_invert = true ∧ s.pos ≠ Where.null)) →
      StreamGood s.stream → BufOk s.buf → (∀ b ∈ s.stream.data, b < 256) →
      (∀ b ∈ s.stream.data, b ≠ 0) → s.cnt_line + s.stream.data.length + 1 < 2 ^ 63 →
      (grep_loop fill g P fuel s).cnt_line =
          (grep_lines g P s.cnt_line (split_lines s.stream.data)).2.1 ∧
        (grep_lines g P s.cnt_line (split_lines s.stream.data)).2.2 =
          split_lines (grep_loop fill g P fuel s).stream.data ∧
        StreamGood (grep_loop fill g P fuel s).stream ∧ BufOk (grep_loop fill g P fuel s).buf ∧
        (∃ k, (grep_loop fill g P fuel s).stream.data = s.stream.data.drop k) ∧
        (grep_loop fill g P fuel s).cnt_line + (grep_loop fill g P fuel s).stream.data.length ≤
          s.cnt_line + s.stream.data.length ∧
        (∀ off l, (grep_lines g P s.cnt_line (split_lines s.stream.data)).1 = some (off, l) →
          cstr ((grep_loop fill g P fuel s).buf.bufp.getD []) = l ∧
            qualify g P l = some off ∧ (∀ b ∈ l, b ∈ s.stream.data) ∧
            (grep_loop fill g P fuel s).pos =
              (if g.opt_invert then Where.null else Where.line off) ∧
            (grep_loop fill g P fuel s).stream.data.length < s.stream.data.length) ∧
        ((grep_lines g P s.cnt_line (split_lines s.stream.data)).1 = none →
          ((g.opt_invert = false ∧ (grep_loop fill g P fuel s).pos = Where.null) ∨
            (g.opt_invert = true ∧ (grep_loop fill g P fuel s).pos ≠ Where.null))) := by
  intro fuel
  induction fuel with
  | zero => intro s hf; omega
  | succ f ih =>
    intro s hf hsearch hst hbuf hX hnul hcnt
    obtain ⟨r1, r2, r3, r4, r5⟩ :=
      xgetline_read_line fill s.buf s.stream hst hbuf hX hnul (by omega)
    have hcond : ((!g.opt_invert && decide (s.pos = Where.null)) ||
        (g.opt_invert && decide (s.pos ≠ Where.null))) = true := by
      rcases hsearch with ⟨h1, h2⟩ | ⟨h1, h2⟩ <;> simp [h1, h2]
    unfold grep_loop
    rw [if_pos hcond]
    dsimp only
    by_cases hnil : s.stream.data = []
    · -- end of the stream: `xgetline` returns 0
      have hr0 : ¬ (xgetline_body fill s.buf s.stream).rval > 0 := by
        rw [r1, hnil]; simp [first_line]
      rw [if_neg hr0]
      dsimp only
      rw [hnil] at r5 ⊢
      simp only [split_lines, grep_lines, List.drop_nil] at r5 ⊢
      refine ⟨trivial, by rw [r5]; simp [split_lines], r4, r3, ⟨0, by rw [r5]⟩, by rw [r5],
        ?_, fun _ => hsearch⟩
      intro off l h
      cases h
    · -- a line is read
      have hpos := first_line_length_pos _ hnil
      have hle := first_line_length_le s.stream.data
      have hr0 : (xgetline_body fill s.buf s.stream).rval > 0 := by
        rw [r1]; exact_mod_cast hpos
      rw [if_pos hr0, r2]
      have hmod : (s.cnt_line + 1) % 2 ^ 64 = s.cnt_line + 1 := Nat.mod_eq_of_lt (by omega)
      rw [hmod, split_lines_eq _ hnil]
      have hYlen : (xgetline_body fill s.buf s.stream).stream.data.length + (first_line s.stream.data).length
          = s.stream.data.length := by
        rw [r5, List.length_drop]; omega
      have hYmem : ∀ b ∈ (xgetline_body fill s.buf s.stream).stream.data, b ∈ s.stream.data := by
        intro b hb; rw [r5] at hb; exact List.mem_of_mem_drop hb
      cases hq : qualify g P (first_line s.stream.data) with
      | some off =>
        -- the line qualifies: the loop ends
        have hdone : ¬ ((g.opt_invert = false ∧
            (match search g (first_line s.stream.data) P with
              | some off => Where.line off
              | none => Where.null) = Where.null) ∨
            (g.opt_invert = true ∧
            (match search g (first_line s.stream.data) P with
              | some off => Where.line off
              | none => Where.null) ≠ Where.null)) := by
          unfold qualify at hq
          cases hs : search g (first_line s.stream.data) P <;> cases hi : g.opt_invert <;>
            simp [hs, hi] at hq ⊢
        rw [grep_loop_done fill g P f _ hdone]
        simp only [grep_lines, hq]
        refine ⟨trivial, by rw [r5], r4, r3, ⟨_, r5⟩, by omega, ?_, fun h => by cases h⟩
        intro off' l h
        cases h
        refine ⟨r2, hq, first_line_mem _, ?_, by omega⟩
        unfold qualify at hq
        cases hs : search g (first_line s.stream.data) P <;> cases hi : g.opt_invert <;>
          simp [hs, hi] at hq ⊢
        exact hq
      | none =>
        -- the line is skipped: the loop goes on
        have hsearch' : (g.opt_invert = false ∧
            (match search g (first_line s.stream.data) P with
              | some off => Where.line off
              | none => Where.null) = Where.null) ∨
            (g.opt_invert = true ∧
            (match search g (first_line s.stream.data) P with
              | some off => Where.line off
              | none => Where.null) ≠ Where.null) := by
          unfold qualify at hq
          cases hs : search g (first_line s.stream.data) P <;> cases hi : g.opt_invert <;>
            simp [hs, hi] at hq ⊢
        obtain ⟨i1, i2, i3, i4, ⟨k, i5⟩, i8, i6, i7⟩ := ih
          { pos := match search g (first_line s.stream.data) P with
              | some off => Where.line off
              | none => Where.null,
            buf := (xgetline_body fill s.buf s.stream).buf,
            stream := (xgetline_body fill s.buf s.stream).stream,
            cnt_line := s.cnt_line + 1,
            oob := s.oob || (xgetline_body fill s.buf s.stream).oob }
          (by dsimp only; omega) hsearch' r4 r3 (fun b hb => hX b (hYmem b hb))
          (fun b hb => hnul b (hYmem b hb)) (by dsimp only; omega)
        dsimp only at i1 i2 i3 i4 i5 i6 i7 i8
        have hk := i5
        rw [r5, List.drop_drop] at hk
        simp only [grep_lines, hq]
        rw [← r5]
        refine ⟨i1, i2, i3, i4, ⟨_, hk⟩, Nat.le_trans i8 (by omega), ?_, i7⟩
        · intro off l h
          obtain ⟨j1, j2, j5, j3, j4⟩ := i6 off l h
          exact ⟨j1, j2, fun b hb => hYmem b (j5 b hb), j3, Nat.lt_of_lt_of_le j4 (by omega)⟩

/-- One call of `grep` on a good stream, in terms of the lines of the stream. -/
theorem grep_spec (fill : Nat) (g : GrepOpts) (P : List Nat) (buf : LineBuf) (st : IStream)
    (cnt : Nat) (hst : StreamGood st) (hbuf : BufOk buf) (hX : ∀ b ∈ st.data, b < 256)
    (hnul : ∀ b ∈ st.data, b ≠ 0) (hcnt : cnt + st.data.length + 1 < 2 ^ 63) :
    (grep fill g P buf st cnt).ret =
        (grep_lines g P cnt (split_lines st.data)).1.map Prod.fst ∧
      (grep fill g P buf st cnt).cnt_line = (grep_lines g P cnt (split_lines st.data)).2.1 ∧
      (grep_lines g P cnt (split_lines st.data)).2.2 =
        split_lines (grep fill g P buf st cnt).stream.data ∧
      StreamGood (grep fill g P buf st cnt).stream ∧ BufOk (grep fill g P buf st cnt).buf ∧
      (∃ k, (grep fill g P buf st cnt).stream.data = st.data.drop k) ∧
      (grep fill g P buf st cnt).cnt_line + (grep fill g P buf st cnt).stream.data.length ≤
        cnt + st.data.length ∧
      (∀ off l, (grep_lines g P cnt (split_lines st.data)).1 = some (off, l) →
        cstr ((grep fill g P buf st cnt).buf.bufp.getD []) = l ∧ qualify g P l = some off ∧
          (∀ b ∈ l, b ∈ st.data) ∧
          (grep fill g P buf st cnt).stream.data.length < st.data.length) := by
  have hsearch : (g.opt_invert = false ∧
        (if !g.opt_invert then Where.null else Where.needle) = Where.null) ∨
      (g.opt_invert = true ∧
        (if !g.opt_invert then Where.null else Where.needle) ≠ Where.null) := by
    cases g.opt_invert <;> simp
  obtain ⟨a1, a2, a3, a4, a5, a8, a6, a7⟩ := grep_loop_spec fill g P (st.data.length + 1)
    { pos := if !g.opt_invert then Where.null else Where.needle,
      buf := buf, stream := st, cnt_line := cnt, oob := false }
    (le_refl _) hsearch hst hbuf hX hnul hcnt
  dsimp only at a1 a2 a3 a4 a5 a6 a7 a8
  refine ⟨?_, a1, a2, a3, a4, a5, a8, ?_⟩
  · have hgen : ∀ S : GrepState,
        (∀ off l, (grep_lines g P cnt (split_lines st.data)).1 = some (off, l) →
          qualify g P l = some off ∧
            S.pos = (if g.opt_invert then Where.null else Where.line off)) →
        ((grep_lines g P cnt (split_lines st.data)).1 = none →
          ((g.opt_invert = false ∧ S.pos = Where.null) ∨
            (g.opt_invert = true ∧ S.pos ≠ Where.null))) →
        (if !g.opt_invert then
          (match S.pos with
            | Where.line off => some off
            | _ => none)
        else (if S.pos ≠ Where.null then none else some 0)) =
          (grep_lines g P cnt (split_lines st.data)).1.map Prod.fst := by
      intro S c6 c7
      cases hL : (grep_lines g P cnt (split_lines st.data)).1 with
      | none =>
        rcases c7 hL with ⟨h1, h2⟩ | ⟨h1, h2⟩
        · simp [h1, h2]
        · simp [h1, h2]
      | some p =>
        obtain ⟨off, l⟩ := p
        obtain ⟨b2, b3⟩ := c6 off l hL
        cases hi : g.opt_invert
        · simp [hi] at b3 ⊢
          rw [b3]
        · simp [hi] at b3 ⊢
          rw [b3]
          unfold qualify at b2
          cases hs : search g l P <;> simp [hs, hi] at b2
          simp [b2]
    exact hgen _ (fun off l h => ⟨(a6 off l h).2.1, (a6 off l h).2.2.2.1⟩) a7
  · intro off l hL
    obtain ⟨b1, b2, b5, _, b4⟩ := a6 off l hL
    exact ⟨b1, b2, b5, b4⟩

/-! ## grep: the output for one stream -/

theorem decimal_lt (n : Nat) : ∀ c ∈ decimal n, c < 256 := by
  intro c hc
  unfold decimal at hc
  obtain ⟨d, hd, rfl⟩ := List.mem_map.mp hc
  exact toDigitsCore_lt _ _ [] (by simp) d hd

theorem fmt_prec_s_mem (prec : Int) (s : List Nat) : ∀ b ∈ fmt_prec_s prec s, b ∈ s := by
  intro b hb
  unfold fmt_prec_s at hb
  split_ifs at hb
  · exact hb
  · exact List.mem_of_mem_take hb

theorem line_out_lt (g : GrepOpts) (P name : List Nat) (idx : Nat) (l : List Nat) (off : Nat)
    (hname : ∀ b ∈ name, b < 256) (hl : ∀ b ∈ l, b < 256) :
    ∀ b ∈ line_out g P name idx l off, b < 256 := by
  intro b hb
  unfold line_out at hb
  simp only [List.mem_append] at hb
  rcases hb with (hb | hb) | hb
  · split_ifs at hb
    · simp at hb
    · simp only [List.mem_append, List.mem_singleton] at hb
      rcases hb with hb | hb
      · exact hname b hb
      · omega
  · split_ifs at hb
    · simp only [List.mem_append, List.mem_singleton] at hb
      rcases hb with hb | hb
      · exact decimal_lt _ b hb
      · omega
    · simp at hb
  · split_ifs at hb
    · simp only [List.mem_append, List.mem_singleton] at hb
      rcases hb with hb | hb
      · exact hl b (List.mem_of_mem_drop (fmt_prec_s_mem _ _ b hb))
      · omega
    · exact hl b hb

theorem fputs_bytes (bytes : List Nat) (os : OStream) (h : os.room = none)
    (hb : ∀ b ∈ bytes, b < 256) : fputs bytes os = { os with out := os.out ++ bytes } := by
  rw [fputs_room_none bytes os h, map_mod_eq_self bytes hb]

theorem fputs_mk (bytes out : List Nat) (err : Bool) (hb : ∀ b ∈ bytes, b < 256) :
    fputs bytes { out := out, room := none, err := err } =
      { out := out ++ bytes, room := none, err := err } :=
  fputs_bytes bytes _ rfl hb

theorem print_line_spec (g : GrepOpts) (P name : List Nat) (off : Nat) (s : FileState)
    (hroom : s.out.room = none) (hname : ∀ b ∈ name, b < 256)
    (hl : ∀ b ∈ cstr (s.buf.bufp.getD []), b < 256) :
    print_line g P name off s =
      { s with out := { s.out with out :=
          (s.out.out ++ line_out g P name s.cnt_line (cstr (s.buf.bufp.getD [])) off) } } := by
  have h58 : ∀ b ∈ name ++ [58], b < 256 := by
    intro b hb
    rcases List.mem_append.mp hb with hb | hb
    · exact hname b hb
    · simp at hb; omega
  have hdec : ∀ b ∈ decimal s.cnt_line ++ [58], b < 256 := by
    intro b hb
    rcases List.mem_append.mp hb with hb | hb
    · exact decimal_lt _ b hb
    · simp at hb; omega
  have hpart : ∀ b ∈ fmt_prec_s (int_of_size P.length) ((cstr (s.buf.bufp.getD [])).drop off)
      ++ [10], b < 256 := by
    intro b hb
    rcases List.mem_append.mp hb with hb | hb
    · exact hl b (List.mem_of_mem_drop (fmt_prec_s_mem _ _ b hb))
    · simp at hb; omega
  have e : s.out = { out := s.out.out, room := none, err := s.out.err } := by
    rw [← hroom]
  unfold print_line line_out
  rw [e]
  cases ha : g.opt_anonymous <;> cases hn : g.opt_number <;> cases hm : g.opt_matching_part <;>
    simp [fputs_mk _ _ _ h58, fputs_mk _ _ _ hdec, fputs_mk _ _ _ hpart, fputs_mk _ _ _ hl,
      List.append_assoc]

theorem file_lines_out_grep_lines (g : GrepOpts) (P name : List Nat) (lines : List (List Nat)) :
    ∀ cnt m,
      ((grep_lines g P cnt lines).1 = none →
        file_lines_out g P name cnt m lines = ([], m)) ∧
      (∀ off l, (grep_lines g P cnt lines).1 = some (off, l) →
        file_lines_out g P name cnt m lines =
          if g.opt_count_only || (g.opt_invert && g.opt_matching_part) then
            file_lines_out g P name (grep_lines g P cnt lines).2.1 (m + 1)
              (grep_lines g P cnt lines).2.2
          else if g.opt_files_only then (name ++ [10], m)
          else
            (line_out g P name (grep_lines g P cnt lines).2.1 l off ++
                (file_lines_out g P name (grep_lines g P cnt lines).2.1 m
                  (grep_lines g P cnt lines).2.2).1,
              (file_lines_out g P name (grep_lines g P cnt lines).2.1 m
                (grep_lines g P cnt lines).2.2).2)) := by
  induction lines with
  | nil =>
    intro cnt m
    simp [grep_lines, file_lines_out]
  | cons x xs ih =>
    intro cnt m
    cases hq : qualify g P x with
    | none =>
      simp only [grep_lines, file_lines_out, hq]
      exact ih (cnt + 1) m
    | some off' =>
      simp only [grep_lines, file_lines_out, hq]
      constructor
      · intro h; cases h
      · intro off l h
        cases h
        rfl

theorem cstr_eq_self_of_ostream (os : OStream) (h : os.room = none) :
    os = { out := os.out, room := none, err := os.err } := by
  rw [← h]

/-- The loop of lines 94-118 on a good stream and an error-free `stdout`. -/
theorem grep_file_loop_spec (fill : Nat) (g : GrepOpts) (P name : List Nat)
    (hname : ∀ b ∈ name, b < 256) :
    ∀ (fuel : Nat) (s : FileState), s.stream.data.length + 1 ≤ fuel →
      StreamGood s.stream → BufOk s.buf → (∀ b ∈ s.stream.data, b < 256) →
      (∀ b ∈ s.stream.data, b ≠ 0) → s.out.room = none →
      s.cnt_line + s.stream.data.length + 1 < 2 ^ 63 →
      s.cnt_matches + s.stream.data.length + 1 < 2 ^ 63 →
      (grep_file_loop fill g P name fuel s).out =
          { s.out with out :=
            (s.out.out ++
              (file_lines_out g P name s.cnt_line s.cnt_matches (split_lines s.stream.data)).1) } ∧
        (grep_file_loop fill g P name fuel s).cnt_matches =
          (file_lines_out g P name s.cnt_line s.cnt_matches (split_lines s.stream.data)).2 ∧
        BufOk (grep_file_loop fill g P name fuel s).buf := by
  intro fuel
  induction fuel with
  | zero => intro s hf; omega
  | succ f ih =>
    intro s hf hst hbuf hX hnul hroom hcnt hm
    unfold grep_file_loop
    by_cases heof : s.stream.eof = true
    · -- the end-of-file indicator is set: nothing is left
      have hd : s.stream.data = [] := hst.2.2 heof
      rw [if_neg (by simp [heof])]
      rw [hd]
      simp [split_lines, file_lines_out, hbuf]
    · have hguard : (!s.stream.eof && !s.stream.err) = true := by
        simp [heof, hst.2.1]
      rw [if_pos hguard]
      obtain ⟨g1, g2, g3, g4, g5, ⟨k, g6⟩, g8, g7⟩ :=
        grep_spec fill g P s.buf s.stream s.cnt_line hst hbuf hX hnul hcnt
      obtain ⟨q1, q2⟩ := file_lines_out_grep_lines g P name (split_lines s.stream.data)
        s.cnt_line s.cnt_matches
      have hYmem : ∀ b ∈ (grep fill g P s.buf s.stream s.cnt_line).stream.data,
          b ∈ s.stream.data := by
        intro b hb; rw [g6] at hb; exact List.mem_of_mem_drop hb
      dsimp only
      cases hL : (grep_lines g P s.cnt_line (split_lines s.stream.data)).1 with
      | none =>
        rw [hL] at g1
        simp only [Option.map_none'] at g1
        rw [g1, q1 hL]
        simp [g5]
      | some p =>
        obtain ⟨off, l⟩ := p
        rw [hL] at g1
        simp only [Option.map_some'] at g1
        obtain ⟨h1, h2, h3, h4⟩ := g7 off l hL
        rw [g1, q2 off l hL, g3, ← g2]
        dsimp only
        by_cases hc : (g.opt_count_only || (g.opt_invert && g.opt_matching_part)) = true
        · rw [if_pos hc, if_pos hc]
          have hmod : (s.cnt_matches + 1) % 2 ^ 64 = s.cnt_matches + 1 :=
            Nat.mod_eq_of_lt (by omega)
          rw [hmod]
          exact ih
            { cnt_matches := s.cnt_matches + 1,
              buf := (grep fill g P s.buf s.stream s.cnt_line).buf,
              stream := (grep fill g P s.buf s.stream s.cnt_line).stream,
              cnt_line := (grep fill g P s.buf s.stream s.cnt_line).cnt_line,
              out := s.out,
              oob := s.oob || (grep fill g P s.buf s.stream s.cnt_line).oob }
            (by dsimp only; omega) g4 g5 (fun b hb => hX b (hYmem b hb))
            (fun b hb => hnul b (hYmem b hb)) hroom (by dsimp only; omega)
            (by dsimp only; omega)
        · rw [if_neg hc, if_neg hc]
          by_cases hfo : g.opt_files_only = true
          · rw [if_pos hfo, if_pos hfo]
            dsimp only
            have h10 : ∀ b ∈ name ++ [10], b < 256 := by
              intro b hb
              rcases List.mem_append.mp hb with hb | hb
              · exact hname b hb
              · simp at hb; omega
            rw [fputs_bytes _ _ hroom h10]
            exact ⟨rfl, rfl, g5⟩
          · rw [if_neg hfo, if_neg hfo]
            have hl256 : ∀ b ∈ cstr ((grep fill g P s.buf s.stream s.cnt_line).buf.bufp.getD []),
                b < 256 := by
              rw [h1]; exact fun b hb => hX b (h3 b hb)
            rw [print_line_spec g P name off
              { cnt_matches := s.cnt_matches,
                buf := (grep fill g P s.buf s.stream s.cnt_line).buf,
                stream := (grep fill g P s.buf s.stream s.cnt_line).stream,
                cnt_line := (grep fill g P s.buf s.stream s.cnt_line).cnt_line,
                out := s.out,
                oob := s.oob || (grep fill g P s.buf s.stream s.cnt_line).oob }
              hroom hname hl256]
            dsimp only
            rw [h1]
            obtain ⟨i1, i2, i3⟩ := ih
              { cnt_matches := s.cnt_matches,
                buf := (grep fill g P s.buf s.stream s.cnt_line).buf,
                stream := (grep fill g P s.buf s.stream s.cnt_line).stream,
                cnt_line := (grep fill g P s.buf s.stream s.cnt_line).cnt_line,
                out := { s.out with out :=
                  (s.out.out ++
                    line_out g P name (grep fill g P s.buf s.stream s.cnt_line).cnt_line l off) },
                oob := s.oob || (grep fill g P s.buf s.stream s.cnt_line).oob }
              (by dsimp only; omega) g4 g5 (fun b hb => hX b (hYmem b hb))
              (fun b hb => hnul b (hYmem b hb)) hroom (by dsimp only; omega)
              (by dsimp only; omega)
            dsimp only at i1 i2 i3
            refine ⟨?_, i2, i3⟩
            rw [i1, List.append_assoc]

/-! ## grep: the driver -/

/-- Lines 92-123 of `main` on a good stream and an error-free `stdout`. -/
theorem grep_file_spec (fill : Nat) (g : GrepOpts) (P name : List Nat) (buf : LineBuf)
    (st : IStream) (cnt : Nat) (out : OStream) (hname : ∀ b ∈ name, b < 256)
    (hst : StreamGood st) (hbuf : BufOk buf) (hX : ∀ b ∈ st.data, b < 256)
    (hnul : ∀ b ∈ st.data, b ≠ 0) (hroom : out.room = none)
    (hcnt : cnt + st.data.length + 1 < 2 ^ 63) :
    (grep_file fill g P name buf st cnt out).out =
        { out with out := (out.out ++ file_out g P name cnt (split_lines st.data)) } ∧
      BufOk (grep_file fill g P name buf st cnt out).buf := by
  obtain ⟨a1, a2, a3⟩ := grep_file_loop_spec fill g P name hname (st.data.length + 1)
    { cnt_matches := 0, buf := buf, stream := st, cnt_line := cnt, out := out, oob := false }
    (le_refl _) hst hbuf hX hnul hroom hcnt (by dsimp only; omega)
  dsimp only at a1 a2 a3
  have e : out = { out := out.out, room := none, err := out.err } := by rw [← hroom]
  unfold grep_file file_out
  dsimp only
  cases hc : g.opt_count_only
  · simp only [Bool.false_eq_true, if_false, List.append_nil]
    exact ⟨a1, a3⟩
  · simp only [if_true]
    refine ⟨?_, a3⟩
    rw [a1, a2]
    have h58 : ∀ b ∈ name ++ [58], b < 256 := by
      intro b hb
      rcases List.mem_append.mp hb with hb | hb
      · exact hname b hb
      · simp at hb; omega
    have hdec : ∀ n, ∀ b ∈ decimal n ++ [10], b < 256 := by
      intro n b hb
      rcases List.mem_append.mp hb with hb | hb
      · exact decimal_lt _ b hb
      · simp at hb; omega
    rw [e]
    cases ha : g.opt_anonymous <;>
      simp [fputs_mk _ _ _ h58, fputs_mk _ _ _ (hdec _), List.append_assoc]

theorem open_error_lt (name : List Nat) (hname : ∀ b ∈ name, b < 256) :
    ∀ b ∈ open_error name, b < 256 := by
  intro b hb
  unfold open_error at hb
  simp only [List.mem_append] at hb
  rcases hb with (hb | hb) | hb
  · revert b; decide
  · exact hname b hb
  · revert b; decide

/-- The `for` loop of `main` over file arguments other than `-`: every file is
searched with the line counter starting at 0. -/
theorem grep_args_spec (fill : Nat) (g : GrepOpts) (P : List Nat) :
    ∀ (files : List FileArg) (m : MainState), (∀ f ∈ files, FileArgOk f) →
      m.out.room = none → BufOk m.buf → m.cnt_line = 0 →
      (grep_args fill g P files m).out =
        { m.out with out := (m.out.out ++ files.flatMap (arg_out g P)) } := by
  intro files
  induction files with
  | nil => intro m _ _ _ _; simp [grep_args]
  | cons f fs ih =>
    intro m hfiles hroom hbuf hcnt
    obtain ⟨h1, h2, h3⟩ := hfiles f (List.mem_cons_self _ _)
    have hfs : ∀ f' ∈ fs, FileArgOk f' := fun f' hf' => hfiles f' (List.mem_cons_of_mem _ hf')
    unfold grep_args
    have hns : (decide (f.arg = [45])) = false := by simp [h1]
    cases ho : f.opened with
    | none =>
      cases hs : g.opt_silent
      · have hm : grep_arg fill g P f m =
            { m with out := { m.out with out := (m.out.out ++ open_error f.arg) },
                     cnt_line := 0 } := by
          unfold grep_arg
          simp only [hns, Bool.false_eq_true, if_false, ho, hs, Bool.not_false, if_true]
          rw [← fputs_bytes _ _ hroom (open_error_lt _ h2)]
          rfl
        rw [hm, ih { m with out := { m.out with out := (m.out.out ++ open_error f.arg) },
                            cnt_line := 0 } hfs hroom hbuf rfl]
        simp [arg_out, ho, hs, List.append_assoc]
      · have hm : grep_arg fill g P f m = { m with cnt_line := 0 } := by
          unfold grep_arg
          simp only [hns, Bool.false_eq_true, if_false, ho, hs, Bool.not_true]
        rw [hm, ih { m with cnt_line := 0 } hfs hroom hbuf rfl]
        simp [arg_out, ho, hs]
    | some st =>
      rw [ho] at h3
      obtain ⟨s1, s2, s3, s4⟩ := h3
      obtain ⟨a1, a2⟩ := grep_file_spec fill g P f.arg m.buf st m.cnt_line m.out h2 s1 hbuf s2 s3
        hroom (by rw [hcnt]; omega)
      have hm : grep_arg fill g P f m =
          { buf := (grep_file fill g P f.arg m.buf st m.cnt_line m.out).buf,
            stdin := m.stdin, cnt_line := 0,
            out := (grep_file fill g P f.arg m.buf st m.cnt_line m.out).out,
            oob := m.oob || (grep_file fill g P f.arg m.buf st m.cnt_line m.out).oob } := by
        unfold grep_arg
        simp only [hns, Bool.false_eq_true, if_false, ho]
      rw [hm, ih
          { buf := (grep_file fill g P f.arg m.buf st m.cnt_line m.out).buf,
            stdin := m.stdin, cnt_line := 0,
            out := (grep_file fill g P f.arg m.buf st m.cnt_line m.out).out,
            oob := m.oob || (grep_file fill g P f.arg m.buf st m.cnt_line m.out).oob }
          hfs (by dsimp only; rw [a1]; exact hroom) a2 rfl]
      dsimp only
      rw [a1, hcnt]
      simp [arg_out, ho, List.append_assoc]

/-- The driver on file arguments other than `-`: `stdout` receives, file by file,
the bytes `arg_out` describes (with `opt_anonymous` set when there is exactly
one file argument). -/
theorem grep_main_spec (fill : Nat) (g : GrepOpts) (P : List Nat) (files : List FileArg)
    (stdin : IStream) (out : OStream) (hfiles : ∀ f ∈ files, FileArgOk f)
    (hroom : out.room = none) :
    (grep_main fill g P files stdin out).out =
      { out with out := (out.out ++ files.flatMap
        (arg_out (if files.length = 1 then { g with opt_anonymous := true } else g) P)) } := by
  unfold grep_main
  exact grep_args_spec fill _ P files _ hfiles hroom (Or.inl rfl) rfl

/-! ## C11: the lines grep yields -/

theorem search_isSome_iff (g : GrepOpts) (P l : List Nat) (hne : P ≠ [])
    (hP : ∀ c ∈ P, c ≠ 0) (hl : ∀ c ∈ l, c ≠ 0) :
    (search g l P).isSome = true ↔ contains_pattern g P l := by
  unfold search contains_pattern
  cases g.opt_ignore_case
  · simp only [Bool.false_eq_true, if_false]
    exact strstr_isSome_iff l P
  · simp only [if_true]
    exact strstr_ignore_case_from_iff P hne hP l 0 hl

theorem qualify_isSome (g : GrepOpts) (P l : List Nat) :
    (qualify g P l).isSome = ((search g l P).isSome != g.opt_invert) := by
  unfold qualify
  cases search g l P <;> cases g.opt_invert <;> rfl

theorem split_lines_mem (X : List Nat) (l : List Nat) (hl : l ∈ split_lines X) :
    ∀ b ∈ l, b ∈ X := by
  intro b hb
  rw [← flatten_split_lines X]
  exact List.mem_flatten.mpr ⟨l, hl, hb⟩

/-- The lines that qualify are those that contain the pattern, or under
`opt_invert` those that do not. -/
theorem filter_qualify (g : GrepOpts) (P : List Nat) (X : List Nat) (hne : P ≠ [])
    (hP : ∀ c ∈ P, c ≠ 0) (hX : ∀ c ∈ X, c ≠ 0) :
    (split_lines X).filter (fun l => (qualify g P l).isSome) =
      (split_lines X).filter (fun l => decide (contains_pattern g P l) != g.opt_invert) := by
  apply List.filter_congr
  intro l hl
  have hl0 : ∀ c ∈ l, c ≠ 0 := fun c hc => hX c (split_lines_mem X l hl c hc)
  rw [qualify_isSome]
  have := search_isSome_iff g P l hne hP hl0
  by_cases hc : contains_pattern g P l
  · rw [this.mpr hc]; simp [hc]
  · have : (search g l P).isSome = false := by
      cases h : (search g l P).isSome
      · rfl
      · exact absurd (this.mp h) hc
    rw [this]; simp [hc]

/-- Without any reporting option and without file-name prefix the loop prints the
qualifying lines as they are. -/
theorem file_lines_out_plain (g : GrepOpts) (P name : List Nat) (h1 : g.opt_count_only = false)
    (h2 : g.opt_files_only = false) (h3 : g.opt_number = false)
    (h4 : g.opt_matching_part = false) (h5 : g.opt_anonymous = true)
    (lines : List (List Nat)) :
    ∀ cnt m, file_lines_out g P name cnt m lines =
      ((lines.filter (fun l => (qualify g P l).isSome)).flatten, m) := by
  induction lines with
  | nil => intro cnt m; simp [file_lines_out]
  | cons l ls ih =>
    intro cnt m
    unfold file_lines_out
    cases hq : qualify g P l with
    | none => simp [hq, ih]
    | some off => simp [hq, ih, h1, h2, h3, h4, h5, line_out]

/-- C11: for a non-empty NUL-free pattern and one NUL-free input file, the driver
without reporting options prints, in stream order, exactly the lines that
contain the pattern, and with invert-match exactly the lines that do not; the
two selections together are all lines of the stream, each line in exactly one
of them (the last line counts with or without its newline). -/
theorem C11_yielded_lines (fill : Nat) (g : GrepOpts) (P name : List Nat) (st stdin : IStream)
    (out : OStream) (hne : P ≠ []) (hP : ∀ c ∈ P, c ≠ 0)
    (hf : FileArgOk { arg := name, opened := some st })
    (h1 : g.opt_count_only = false) (h2 : g.opt_files_only = false)
    (h3 : g.opt_number = false) (h4 : g.opt_matching_part = false)
    (hroom : out.room = none) :
    (g.opt_invert = false →
        (grep_main fill g P [{ arg := name, opened := some st }] stdin out).out.out =
          out.out ++ ((split_lines st.data).filter
            (fun l => decide (contains_pattern g P l))).flatten) ∧
      (g.opt_invert = true →
        (grep_main fill g P [{ arg := name, opened := some st }] stdin out).out.out =
          out.out ++ ((split_lines st.data).filter
            (fun l => !decide (contains_pattern g P l))).flatten) ∧
      ((split_lines st.data).filter (fun l => decide (contains_pattern g P l)) ++
        (split_lines st.data).filter (fun l => !decide (contains_pattern g P l))).Perm
          (split_lines st.data) := by
  have hX : ∀ c ∈ st.data, c ≠ 0 := hf.2.2.2.2.1
  have hmain := grep_main_spec fill g P [{ arg := name, opened := some st }] stdin out
    (fun f hf' => by rw [List.mem_singleton.mp hf']; exact hf) hroom
  have hout : (grep_main fill g P [{ arg := name, opened := some st }] stdin out).out.out =
      out.out ++ ((split_lines st.data).filter
        (fun l => decide (contains_pattern g P l) != g.opt_invert)).flatten := by
    rw [hmain]
    simp only [List.length_singleton, if_true, List.flatMap_cons, List.flatMap_nil,
      List.append_nil, arg_out, file_out]
    rw [file_lines_out_plain { g with opt_anonymous := true } P name h1 h2 h3 h4 rfl]
    have hq : ∀ l, qualify { g with opt_anonymous := true } P l = qualify g P l := fun _ => rfl
    simp only [hq]
    simp only [h1, Bool.false_eq_true, if_false, List.append_nil]
    rw [filter_qualify g P st.data hne hP hX]
  refine ⟨fun hi => ?_, fun hi => ?_, List.filter_append_perm _ _⟩
  · rw [hout, hi]; simp
  · rw [hout, hi]; simp

/-- C11 at the pattern "lo" over the lines "Hello\n", "World\n": only "Hello\n"
is selected, and with invert-match only "World\n". -/
theorem C11_yielded_lines_witness :
    ([108, 111] ≠ [] ∧ (∀ c ∈ [108, 111], c ≠ 0) ∧
        FileArgOk { arg := [102], opened := some (IStream.ofBytes hello_world) } ∧
        GrepOpts.none.opt_count_only = false ∧ GrepOpts.none.opt_files_only = false ∧
        GrepOpts.none.opt_number = false ∧ GrepOpts.none.opt_matching_part = false ∧
        OStream.fresh.room = none) ∧
      ((GrepOpts.none.opt_invert = false →
          (grep_main 0 GrepOpts.none [108, 111]
              [{ arg := [102], opened := some (IStream.ofBytes hello_world) }]
              (IStream.ofBytes []) OStream.fresh).out.out =
            OStream.fresh.out ++ ((split_lines (IStream.ofBytes hello_world).data).filter
              (fun l => decide (contains_pattern GrepOpts.none [108, 111] l))).flatten) ∧
        (GrepOpts.none.opt_invert = true →
          (grep_main 0 GrepOpts.none [108, 111]
              [{ arg := [102], opened := some (IStream.ofBytes hello_world) }]
              (IStream.ofBytes []) OStream.fresh).out.out =
            OStream.fresh.out ++ ((split_lines (IStream.ofBytes hello_world).data).filter
              (fun l => !decide (contains_pattern GrepOpts.none [108, 111] l))).flatten) ∧
        ((split_lines (IStream.ofBytes hello_world).data).filter
            (fun l => decide (contains_pattern GrepOpts.none [108, 111] l)) ++
          (split_lines (IStream.ofBytes hello_world).data).filter
            (fun l => !decide (contains_pattern GrepOpts.none [108, 111] l))).Perm
            (split_lines (IStream.ofBytes hello_world).data)) ∧
      ((split_lines hello_world).filter
          (fun l => decide (contains_pattern GrepOpts.none [108, 111] l))).flatten =
        [72, 101, 108, 108, 111, 10] ∧
      (grep_main 0 GrepOpts.invert_only [108, 111]
          [{ arg := [102], opened := some (IStream.ofBytes hello_world) }]
          (IStream.ofBytes []) OStream.fresh).out.out =
        OStream.fresh.out ++ ((split_lines (IStream.ofBytes hello_world).data).filter
          (fun l => !decide (contains_pattern GrepOpts.invert_only [108, 111] l))).flatten ∧
      ((split_lines hello_world).filter
          (fun l => !decide (contains_pattern GrepOpts.invert_only [108, 111] l))).flatten =
        [87, 111, 114, 108, 100, 10] :=
  ⟨by decide,
    C11_yielded_lines 0 GrepOpts.none [108, 111] [102] (IStream.ofBytes hello_world)
      (IStream.ofBytes []) OStream.fresh (by decide) (by decide) (by decide) rfl rfl rfl rfl rfl,
    by decide,
    (C11_yielded_lines 0 GrepOpts.invert_only [108, 111] [102] (IStream.ofBytes hello_world)
      (IStream.ofBytes []) OStream.fresh (by decide) (by decide) (by decide) rfl rfl rfl rfl
      rfl).2.1 rfl,
    by decide⟩

/-! ## grep: the reporting modes -/

/-- In the printing mode the loop prints one record per qualifying line, with the
1-based position of the line in its stream. -/
theorem file_lines_out_print (g : GrepOpts) (P name : List Nat)
    (h1 : g.opt_count_only = false) (h2 : g.opt_files_only = false)
    (h3 : (g.opt_invert && g.opt_matching_part) = false) (lines : List (List Nat)) :
    ∀ cnt m, file_lines_out g P name cnt m lines =
      ((lines.enumFrom (cnt + 1)).flatMap (fun p =>
          match qualify g P p.2 with
          | some off => line_out g P name p.1 p.2 off
          | none => []), m) := by
  induction lines with
  | nil => intro cnt m; simp [file_lines_out]
  | cons l ls ih =>
    intro cnt m
    unfold file_lines_out
    cases hq : qualify g P l with
    | none => simp [hq, ih, List.enumFrom_cons]
    | some off => simp [hq, ih, h1, h2, h3, List.enumFrom_cons]

/-- In the counting mode the loop prints nothing and counts the qualifying lines. -/
theorem file_lines_out_count (g : GrepOpts) (P name : List Nat)
    (h : (g.opt_count_only || (g.opt_invert && g.opt_matching_part)) = true)
    (lines : List (List Nat)) :
    ∀ cnt m, file_lines_out g P name cnt m lines =
      ([], m + (lines.filter (fun l => (qualify g P l).isSome)).length) := by
  induction lines with
  | nil => intro cnt m; simp [file_lines_out]
  | cons l ls ih =>
    intro cnt m
    unfold file_lines_out
    cases hq : qualify g P l with
    | none => simp [hq, ih]
    | some off =>
      simp only [hq, h, if_true, ih, Option.isSome_some, List.filter_cons_of_pos,
        List.length_cons]
      congr 1
      omega

theorem qualify_anonymous (g : GrepOpts) (a : Bool) (P l : List Nat) :
    qualify { g with opt_anonymous := a } P l = qualify g P l := rfl

/-- The options `main` works with: `opt_anonymous` is set for a single file. -/
theorem main_opts_eq (g : GrepOpts) (n : Nat) :
    (if n = 1 then { g with opt_anonymous := true } else g) =
      { g with opt_anonymous := g.opt_anonymous || decide (n = 1) } := by
  by_cases h : n = 1
  · simp [h]
  · simp [h]

theorem grep_arg_cnt_line (fill : Nat) (g : GrepOpts) (P : List Nat) (f : FileArg)
    (m : MainState) : (grep_arg fill g P f m).cnt_line = 0 := by
  unfold grep_arg
  dsimp only
  split <;> rfl

/-- The output for one file argument in the printing mode with line numbers. -/
theorem arg_out_number (g : GrepOpts) (P : List Nat) (f : FileArg)
    (h1 : g.opt_count_only = false) (h2 : g.opt_files_only = false)
    (h3 : (g.opt_invert && g.opt_matching_part) = false) (h4 : g.opt_number = true) :
    arg_out g P f =
      match f.opened with
      | none => if g.opt_silent then [] else open_error f.arg
      | some st =>
        ((split_lines st.data).enumFrom 1).flatMap (fun p =>
          match qualify g P p.2 with
          | some off =>
            (if g.opt_anonymous then [] else f.arg ++ [58]) ++ (decimal p.1 ++ [58]) ++
              (if g.opt_matching_part then
                fmt_prec_s (int_of_size P.length) (p.2.drop off) ++ [10]
              else p.2)
          | none => []) := by
  unfold arg_out
  cases f.opened with
  | none => rfl
  | some st =>
    dsimp only
    unfold file_out
    rw [file_lines_out_print g P f.arg h1 h2 h3]
    simp only [h1, Bool.false_eq_true, if_false, List.append_nil, Nat.zero_add]
    congr 1
    funext p
    cases qualify g P p.2 with
    | none => rfl
    | some off => simp only [line_out, h4, if_true]

/-! ## C18: the line counter of grep -/

/-- C18: with show-line-number, for every list of file arguments (other than `-`)
the number printed in front of a qualifying line, inverted or not, is the
1-based position of that line among all lines of its own file, skipped lines
included; the counter is back at 0 after every file argument, also one that
could not be opened. -/
theorem C18_line_numbers (fill : Nat) (g : GrepOpts) (P : List Nat) (files : List FileArg)
    (stdin : IStream) (out : OStream) (hfiles : ∀ f ∈ files, FileArgOk f)
    (hroom : out.room = none) (h1 : g.opt_count_only = false)
    (h2 : g.opt_files_only = false) (h3 : (g.opt_invert && g.opt_matching_part) = false)
    (h4 : g.opt_number = true) :
    (grep_main fill g P files stdin out).out.out =
        out.out ++ files.flatMap (fun f =>
          match f.opened with
          | none => if g.opt_silent then [] else open_error f.arg
          | some st =>
            ((split_lines st.data).enumFrom 1).flatMap (fun p =>
              match qualify g P p.2 with
              | some off =>
                (if g.opt_anonymous || decide (files.length = 1) then [] else f.arg ++ [58]) ++
                  (decimal p.1 ++ [58]) ++
                  (if g.opt_matching_part then
                    fmt_prec_s (int_of_size P.length) (p.2.drop off) ++ [10]
                  else p.2)
              | none => [])) ∧
      (∀ (f : FileArg) (m : MainState), (grep_arg fill g P f m).cnt_line = 0) := by
  refine ⟨?_, grep_arg_cnt_line fill g P⟩
  rw [grep_main_spec fill g P files stdin out hfiles hroom, main_opts_eq]
  show out.out ++ _ = out.out ++ _
  congr 2
  funext f
  exact arg_out_number { g with opt_anonymous := g.opt_anonymous || decide (files.length = 1) }
    P f h1 h2 h3 h4

/-- C18 at the pattern "Wo" and three file arguments, the second of which cannot
be opened: "World\n" is reported as line 2 in the first and in the third file. -/
theorem C18_line_numbers_witness :
    ((∀ f ∈ [({ arg := [102], opened := some (IStream.ofBytes hello_world) } : FileArg),
          { arg := [103], opened := none },
          { arg := [104], opened := some (IStream.ofBytes hello_world) }], FileArgOk f) ∧
        OStream.fresh.room = none ∧ GrepOpts.number_only.opt_count_only = false ∧
        GrepOpts.number_only.opt_files_only = false ∧
        (GrepOpts.number_only.opt_invert && GrepOpts.number_only.opt_matching_part) = false ∧
        GrepOpts.number_only.opt_number = true) ∧
      (grep_main 0 GrepOpts.number_only [87, 111]
          [{ arg := [102], opened := some (IStream.ofBytes hello_world) },
            { arg := [103], opened := none },
            { arg := [104], opened := some (IStream.ofBytes hello_world) }]
          (IStream.ofBytes []) OStream.fresh).out.out =
        [102, 58, 50, 58, 87, 111, 114, 108, 100, 10] ++ open_error [103] ++
          [104, 58, 50, 58, 87, 111, 114, 108, 100, 10] :=
  ⟨by decide,
    ((C18_line_numbers 0 GrepOpts.number_only [87, 111]
      [{ arg := [102], opened := some (IStream.ofBytes hello_world) },
        { arg := [103], opened := none },
        { arg := [104], opened := some (IStream.ofBytes hello_world) }]
      (IStream.ofBytes []) OStream.fresh (by decide) rfl rfl rfl rfl rfl).1).trans (by decide)⟩

/-! ## grep: the matched part -/

/-- The precision `(int) strlen(pattern)` cuts the string to the length of the
pattern as long as that length fits an `int`. -/
theorem fmt_prec_s_take (n : Nat) (s : List Nat) (hn : n < 2 ^ 31) :
    fmt_prec_s (int_of_size n) s = s.take n := by
  have hmod : n % 2 ^ 32 = n := Nat.mod_eq_of_lt (by omega)
  unfold fmt_prec_s int_of_size
  rw [hmod, if_pos hn, if_neg (by omega)]
  rfl

theorem qualify_noninvert (g : GrepOpts) (P l : List Nat) (h : g.opt_invert = false) :
    qualify g P l = search g l P := by
  unfold qualify
  cases search g l P <;> simp [h]

/-- The output for one file argument when only the matched part is printed. -/
theorem arg_out_part (g : GrepOpts) (P : List Nat) (f : FileArg) (hlen : P.length < 2 ^ 31)
    (h1 : g.opt_invert = false) (h2 : g.opt_count_only = false)
    (h3 : g.opt_files_only = false) (h4 : g.opt_matching_part = true) :
    arg_out g P f =
      match f.opened with
      | none => if g.opt_silent then [] else open_error f.arg
      | some st =>
        ((split_lines st.data).enumFrom 1).flatMap (fun p =>
          match search g p.2 P with
          | some off =>
            (if g.opt_anonymous then [] else f.arg ++ [58]) ++
              (if g.opt_number then decimal p.1 ++ [58] else []) ++
              ((p.2.drop off).take P.length ++ [10])
          | none => []) := by
  unfold arg_out
  cases f.opened with
  | none => rfl
  | some st =>
    dsimp only
    unfold file_out
    rw [file_lines_out_print g P f.arg h2 h3 (by rw [h1]; rfl)]
    simp only [h2, Bool.false_eq_true, if_false, List.append_nil, Nat.zero_add]
    congr 1
    funext p
    rw [qualify_noninvert g P p.2 h1]
    cases search g p.2 P with
    | none => rfl
    | some off =>
      simp only [line_out, h4, if_true]
      rw [fmt_prec_s_take _ _ hlen]

/-- The pointer the search returns is the first place where the pattern stands,
up to letter case under `opt_ignore_case`. -/
theorem search_first (g : GrepOpts) (P L : List Nat) (off : Nat) (hne : P ≠ [])
    (hP : ∀ c ∈ P, c ≠ 0) (hL : ∀ c ∈ L, c ≠ 0) (h : search g L P = some off) :
    off + P.length ≤ L.length ∧
      (g.opt_ignore_case = false →
        (L.drop off).take P.length = P ∧ ∀ j, j < off → (L.drop j).take P.length ≠ P) ∧
      (g.opt_ignore_case = true →
        ((L.drop off).take P.length).map tolower = P.map tolower ∧
          ∀ j, j < off → ((L.drop j).take P.length).map tolower ≠ P.map tolower) := by
  unfold search at h
  cases hc : g.opt_ignore_case with
  | false =>
    rw [hc] at h
    simp only [Bool.false_eq_true, if_false] at h
    obtain ⟨a, b, c⟩ := strstr_first L P off h
    exact ⟨a, fun _ => ⟨b, c⟩, fun hh => by cases hh⟩
  | true =>
    rw [hc] at h
    simp only [if_true] at h
    obtain ⟨i, e1, _, e3, e4⟩ := strstr_ignore_case_from_first P hP L 0 off hL h
    have hki : off = i := by omega
    subst hki
    refine ⟨?_, fun hh => (by cases hh), fun _ => ⟨(lower_prefix_iff_take P _).mp e3, fun j hj => ?_⟩⟩
    · have := e3.length_le
      simp only [List.length_map, List.length_drop] at this
      have hpos : 0 < P.length := List.length_pos.mpr hne
      omega
    · exact fun hp => e4 j hj ((lower_prefix_iff_take P _).mpr hp)

/-! ## C14: matched-part-only -/

/-- C14: with matched-part-only set and invert, count-only and files-only unset
(pattern non-empty, NUL-free, shorter than `2 ^ 31`), `main` prints for every
line in which the search finds the pattern the optional file-name and
line-number prefixes, then exactly the `|P|` bytes of the line from the offset
the search returned, then one newline, and nothing for the other lines; that
offset is the first match, and the bytes are `P` itself in case-sensitive mode
and bytes of the line equal to `P` up to letter case in ignore-case mode. -/
theorem C14_matching_part (fill : Nat) (g : GrepOpts) (P : List Nat) (files : List FileArg)
    (stdin : IStream) (out : OStream) (hne : P ≠ []) (hP : ∀ c ∈ P, c ≠ 0)
    (hlen : P.length < 2 ^ 31) (hfiles : ∀ f ∈ files, FileArgOk f)
    (hroom : out.room = none) (h1 : g.opt_invert = false) (h2 : g.opt_count_only = false)
    (h3 : g.opt_files_only = false) (h4 : g.opt_matching_part = true) :
    (grep_main fill g P files stdin out).out.out =
        out.out ++ files.flatMap (fun f =>
          match f.opened with
          | none => if g.opt_silent then [] else open_error f.arg
          | some st =>
            ((split_lines st.data).enumFrom 1).flatMap (fun p =>
              match search g p.2 P with
              | some off =>
                (if g.opt_anonymous || decide (files.length = 1) then [] else f.arg ++ [58]) ++
                  (if g.opt_number then decimal p.1 ++ [58] else []) ++
                  ((p.2.drop off).take P.length ++ [10])
              | none => [])) ∧
      ∀ (L : List Nat) (off : Nat), (∀ c ∈ L, c ≠ 0) → search g L P = some off →
        off + P.length ≤ L.length ∧
          (g.opt_ignore_case = false →
            (L.drop off).take P.length = P ∧
              ∀ j, j < off → (L.drop j).take P.length ≠ P) ∧
          (g.opt_ignore_case = true →
            ((L.drop off).take P.length).map tolower = P.map tolower ∧
              ∀ j, j < off → ((L.drop j).take P.length).map tolower ≠ P.map tolower) := by
  refine ⟨?_, fun L off hL h => search_first g P L off hne hP hL h⟩
  rw [grep_main_spec fill g P files stdin out hfiles hroom, main_opts_eq]
  show out.out ++ _ = out.out ++ _
  congr 2
  funext f
  exact arg_out_part { g with opt_anonymous := g.opt_anonymous || decide (files.length = 1) }
    P f hlen h1 h2 h3 h4

/-- C14 at `grep -i -o WORLD` over "Hello\\nWorld\\n": the bytes "World" of the
line are printed, not the pattern. -/
theorem C14_matching_part_witness :
    (([87, 79, 82, 76, 68] : List Nat) ≠ [] ∧ (∀ c ∈ ([87, 79, 82, 76, 68] : List Nat), c ≠ 0) ∧
        ([87, 79, 82, 76, 68] : List Nat).length < 2 ^ 31 ∧
        (∀ f ∈ [({ arg := [102], opened := some (IStream.ofBytes hello_world) } : FileArg)],
          FileArgOk f) ∧
        OStream.fresh.room = none ∧ GrepOpts.ignore_case_part.opt_invert = false ∧
        GrepOpts.ignore_case_part.opt_count_only = false ∧
        GrepOpts.ignore_case_part.opt_files_only = false ∧
        GrepOpts.ignore_case_part.opt_matching_part = true) ∧
      (grep_main 0 GrepOpts.ignore_case_part [87, 79, 82, 76, 68]
          [{ arg := [102], opened := some (IStream.ofBytes hello_world) }]
          (IStream.ofBytes []) OStream.fresh).out.out = [87, 111, 114, 108, 100, 10] ∧
      ((∀ c ∈ [87, 111, 114, 108, 100, 10], c ≠ 0) ∧
        search GrepOpts.ignore_case_part [87, 111, 114, 108, 100, 10] [87, 79, 82, 76, 68] =
          some 0) ∧
      (([87, 111, 114, 108, 100, 10].drop 0).take 5).map tolower =
        [87, 79, 82, 76, 68].map tolower :=
  ⟨⟨by decide, by decide, by norm_num, by decide, rfl, rfl, rfl, rfl, rfl⟩,
    ((C14_matching_part 0 GrepOpts.ignore_case_part [87, 79, 82, 76, 68]
      [{ arg := [102], opened := some (IStream.ofBytes hello_world) }]
      (IStream.ofBytes []) OStream.fresh (by decide) (by decide) (by norm_num) (by decide)
      rfl rfl rfl rfl rfl).1).trans (by decide),
    ⟨by decide, by decide⟩,
    (((C14_matching_part 0 GrepOpts.ignore_case_part [87, 79, 82, 76, 68]
      [{ arg := [102], opened := some (IStream.ofBytes hello_world) }]
      (IStream.ofBytes []) OStream.fresh (by decide) (by decide) (by norm_num) (by decide)
      rfl rfl rfl rfl rfl).2 [87, 111, 114, 108, 100, 10] 0 (by decide) (by decide)).2.2
      rfl).1⟩

/-! ## C19: invert-match together with matched-part-only -/

/-- The output for one file argument in the counting mode. -/
theorem arg_out_count (g : GrepOpts) (P : List Nat) (f : FileArg)
    (h : (g.opt_count_only || (g.opt_invert && g.opt_matching_part)) = true) :
    arg_out g P f =
      match f.opened with
      | none => if g.opt_silent then [] else open_error f.arg
      | some st =>
        if g.opt_count_only then
          (if g.opt_anonymous then [] else f.arg ++ [58]) ++
            decimal ((split_lines st.data).filter (fun l => (qualify g P l).isSome)).length ++
            [10]
        else [] := by
  unfold arg_out
  cases f.opened with
  | none => rfl
  | some st =>
    dsimp only
    unfold file_out
    rw [file_lines_out_count g P f.arg h]
    simp only [List.nil_append, Nat.zero_add]

/-- C19: with invert-match and matched-part-only both set, `main` writes for an
opened file no line, no matched part and no prefix; the lines that do not
contain the pattern are only counted, and the count line (with the file name
unless anonymous) is the whole output for the file when count-only is set as
well, otherwise nothing is written for it. -/
theorem C19_invert_matching_part (fill : Nat) (g : GrepOpts) (P : List Nat)
    (files : List FileArg) (stdin : IStream) (out : OStream) (hne : P ≠ [])
    (hP : ∀ c ∈ P, c ≠ 0) (hfiles : ∀ f ∈ files, FileArgOk f) (hroom : out.room = none)
    (h1 : g.opt_invert = true) (h2 : g.opt_matching_part = true) :
    (grep_main fill g P files stdin out).out.out =
      out.out ++ files.flatMap (fun f =>
        match f.opened with
        | none => if g.opt_silent then [] else open_error f.arg
        | some st =>
          if g.opt_count_only then
            (if g.opt_anonymous || decide (files.length = 1) then [] else f.arg ++ [58]) ++
              decimal ((split_lines st.data).filter
                (fun l => !decide (contains_pattern g P l))).length ++ [10]
          else []) := by
  rw [grep_main_spec fill g P files stdin out hfiles hroom, main_opts_eq]
  show out.out ++ _ = out.out ++ _
  congr 1
  apply List.flatMap_congr
  intro f hf
  have hcount : ∀ g1 : GrepOpts, g1.opt_invert = true → g1.opt_matching_part = true →
      (g1.opt_count_only || (g1.opt_invert && g1.opt_matching_part)) = true := by
    intro g1 e1 e2
    rw [e1, e2]
    simp
  rw [arg_out_count { g with opt_anonymous := g.opt_anonymous || decide (files.length = 1) }
    P f (hcount _ h1 h2)]
  cases ho : f.opened with
  | none => rfl
  | some st =>
    dsimp only
    have hok := hfiles f hf
    unfold FileArgOk at hok
    rw [ho] at hok
    have hX : ∀ c ∈ st.data, c ≠ 0 := hok.2.2.2.2.1
    have e : (split_lines st.data).filter (fun l => (qualify
          { g with opt_anonymous := g.opt_anonymous || decide (files.length = 1) } P l).isSome) =
        (split_lines st.data).filter (fun l => !decide (contains_pattern g P l)) := by
      have := filter_qualify g P st.data hne hP hX
      rw [h1] at this
      rw [show (fun l => (qualify
          { g with opt_anonymous := g.opt_anonymous || decide (files.length = 1) } P l).isSome) =
        (fun l => (qualify g P l).isSome) from rfl, this]
      apply List.filter_congr
      intro l _
      cases decide (contains_pattern g P l) <;> rfl
    rw [e]

/-- C19 at `grep -v -o -c lo` and at `grep -v -o lo` over the file `f` holding
"Hello\\nWorld\\n": the count line "1\\n" and nothing. -/
theorem C19_invert_matching_part_witness :
    (([108, 111] : List Nat) ≠ [] ∧ (∀ c ∈ ([108, 111] : List Nat), c ≠ 0) ∧
        (∀ f ∈ [({ arg := [102], opened := some (IStream.ofBytes hello_world) } : FileArg)],
          FileArgOk f) ∧
        OStream.fresh.room = none ∧ GrepOpts.invert_part_count.opt_invert = true ∧
        GrepOpts.invert_part_count.opt_matching_part = true) ∧
      (grep_main 0 GrepOpts.invert_part_count [108, 111]
          [{ arg := [102], opened := some (IStream.ofBytes hello_world) }]
          (IStream.ofBytes []) OStream.fresh).out.out = [49, 10] ∧
      (grep_main 0 { GrepOpts.invert_part_count with opt_count_only := false } [108, 111]
          [{ arg := [102], opened := some (IStream.ofBytes hello_world) }]
          (IStream.ofBytes []) OStream.fresh).out.out = [] :=
  ⟨⟨by decide, by decide, by decide, rfl, rfl, rfl⟩,
    (C19_invert_matching_part 0 GrepOpts.invert_part_count [108, 111]
      [{ arg := [102], opened := some (IStream.ofBytes hello_world) }]
      (IStream.ofBytes []) OStream.fresh (by decide) (by decide) (by decide) rfl rfl rfl).trans
      (by decide),
    (C19_invert_matching_part 0 { GrepOpts.invert_part_count with opt_count_only := false }
      [108, 111] [{ arg := [102], opened := some (IStream.ofBytes hello_world) }]
      (IStream.ofBytes []) OStream.fresh (by decide) (by decide) (by decide) rfl rfl rfl).trans
      (by decide)⟩

/-! ## cat: several input streams -/

/-- On error-free streams `cat` leaves both streams without error. -/
theorem cat_streams_ok (o : Opts) (cnt : Nat) (istream : IStream) (ostream : OStream)
    (hi : istream.bad = false) (hie : istream.err = false)
    (ho : ostream.room = none) (hoe : ostream.err = false) :
    (cat o cnt istream ostream).ostream.room = none ∧
      (cat o cnt istream ostream).ostream.err = false ∧
      (cat o cnt istream ostream).istream.err = false ∧
      (cat o cnt istream ostream).istream.eof = true := by
  let s0 : CatState :=
    { ch := (fgetc istream).1, eol := 0, cnt_line := cnt,
      istream := (fgetc istream).2, ostream := ostream }
  have hs0 : StreamsOk s0 ∧ ChOk s0 ∧ pending s0 = istream.data := by
    simp only [s0, StreamsOk, ChOk, pending, fgetc]
    cases hd : istream.data <;> simp [hi, hie, ho, hoe]
  obtain ⟨g1, g2, g3⟩ := hs0
  obtain ⟨c1, _, _, c4, _⟩ :=
    cat_loop_predict o (istream.data.length + 2) s0 g1 g2 (by rw [g3]; omega)
  exact ⟨c1.2.2.1, c1.2.2.2, c1.2.1, c4⟩

theorem emitted_lines_length_le (o : Opts) (X : List Nat) :
    (emitted_lines o X).length ≤ X.length := by
  unfold emitted_lines
  have h1 := split_lines_length_le X
  have h2 := squeeze_blank_runs_length_le (split_lines X) _ (le_refl _)
  split <;> omega

/-- With number-all, `cat_lines` numbers the emitted lines onward from the
counter it is started with. -/
theorem cat_lines_emitted (o : Opts) (hn : o.opt_number = true)
    (hb : o.opt_number_nonblank = false) (X : List Nat) (cnt : Nat)
    (hlen : cnt + X.length < 2 ^ 64) :
    cat_lines o 0 cnt (split_lines X) =
      (number_lines o cnt (emitted_lines o X), cnt + (emitted_lines o X).length) := by
  have hl := split_lines_length_le X
  unfold emitted_lines
  cases hs : o.opt_squeeze_blank
  · rw [cat_lines_number o hn hb hs _ 0 cnt (le_refl _) (by omega)]
    simp
  · rw [cat_lines_number_squeeze o hn hb hs _ 0 cnt (le_refl _) (by omega)]
    simp

theorem number_lines_append (o : Opts) (ls1 ls2 : List (List Nat)) :
    ∀ k, number_lines o k (ls1 ++ ls2) =
      number_lines o k ls1 ++ number_lines o (k + ls1.length) ls2 := by
  induction ls1 with
  | nil => intro k; simp [number_lines]
  | cons l ls ih =>
    intro k
    have e : k + (ls.length + 1) = k + 1 + ls.length := by omega
    show fmt_6lu_tab (k + 1) ++ render_line o l ++ number_lines o (k + 1) (ls ++ ls2) =
      fmt_6lu_tab (k + 1) ++ render_line o l ++ number_lines o (k + 1) ls ++
        number_lines o (k + (ls.length + 1)) ls2
    rw [ih, e]
    simp only [List.append_assoc]

/-- One call of `cat` with number-all on error-free streams, from any value of
the counter. -/
theorem cat_number_from (o : Opts) (hn : o.opt_number = true)
    (hb : o.opt_number_nonblank = false) (cnt : Nat) (istream : IStream) (ostream : OStream)
    (hi : istream.bad = false) (hie : istream.err = false)
    (hX : ∀ b ∈ istream.data, b < 256) (ho : ostream.room = none)
    (hoe : ostream.err = false) (hlen : cnt + istream.data.length < 2 ^ 64) :
    (cat o cnt istream ostream).ostream.out =
        ostream.out ++ number_lines o cnt (emitted_lines o istream.data) ∧
      (cat o cnt istream ostream).cnt_line = cnt + (emitted_lines o istream.data).length ∧
      (cat o cnt istream ostream).rval = 0 := by
  obtain ⟨h1, h2, h3, _⟩ := cat_eq_flat o cnt istream ostream hi hie ho hoe
  have hl := map_mod_eq_self _ (flat_lt o istream.data hX false 0 cnt)
  rw [h1, hl, h2, (flat_eq_cat_lines o istream.data).1,
    cat_lines_emitted o hn hb istream.data cnt hlen]
  exact ⟨rfl, rfl, h3⟩

theorem cat_arg_number (o : Opts) (hn : o.opt_number = true)
    (hb : o.opt_number_nonblank = false) (f : FileArg) (m : CatMain) (hf : CatArgOk f)
    (ho : m.out.room = none) (hoe : m.out.err = false)
    (hlen : m.cnt_line + f.bytes.length < 2 ^ 64) :
    (cat_arg o false f m).rval = 0 ∧ (cat_arg o false f m).out.room = none ∧
      (cat_arg o false f m).out.err = false ∧
      (cat_arg o false f m).out.out =
        m.out.out ++ number_lines o m.cnt_line (emitted_lines o f.bytes) ∧
      (cat_arg o false f m).cnt_line = m.cnt_line + (emitted_lines o f.bytes).length := by
  obtain ⟨hname, hopen⟩ := hf
  unfold FileArg.bytes at hlen ⊢
  unfold cat_arg
  cases hop : f.opened with
  | none => rw [hop] at hopen; exact hopen.elim
  | some st =>
    rw [hop] at hopen hlen
    obtain ⟨hi, hie, hX⟩ := hopen
    dsimp only at hlen ⊢
    have hs : (false || decide (f.arg = [45])) = false := by simp [hname]
    simp only [hs, Bool.false_eq_true, if_false]
    obtain ⟨a1, a2, a3⟩ := cat_number_from o hn hb m.cnt_line st m.out hi hie hX ho hoe hlen
    obtain ⟨b1, b2, b3, _⟩ := cat_streams_ok o m.cnt_line st m.out hi hie ho hoe
    have hd : cat_diag (cat o m.cnt_line st m.out) (cat o m.cnt_line st m.out).ostream =
        (cat o m.cnt_line st m.out).ostream := by
      unfold cat_diag
      simp [b2, b3]
    rw [hd]
    exact ⟨a3, b1, b2, a1, a2⟩

theorem cat_args_number (o : Opts) (hn : o.opt_number = true)
    (hb : o.opt_number_nonblank = false) (files : List FileArg) :
    ∀ m : CatMain, (∀ f ∈ files, CatArgOk f) → m.rval = 0 → m.out.room = none →
      m.out.err = false → m.cnt_line + (files.flatMap FileArg.bytes).length < 2 ^ 64 →
      (cat_args o false files m).out.out =
          m.out.out ++
            number_lines o m.cnt_line (files.flatMap (fun f => emitted_lines o f.bytes)) ∧
        (cat_args o false files m).rval = 0 ∧
        (cat_args o false files m).cnt_line =
          m.cnt_line + (files.flatMap (fun f => emitted_lines o f.bytes)).length := by
  induction files with
  | nil => intro m _ hr _ _ _; simp [cat_args, number_lines, hr]
  | cons f fs ih =>
    intro m hfs hr ho hoe hlen
    simp only [List.flatMap_cons, List.length_append] at hlen ⊢
    have hf := hfs f (List.mem_cons_self _ _)
    obtain ⟨a1, a2, a3, a4, a5⟩ := cat_arg_number o hn hb f m hf ho hoe (by omega)
    have hle := emitted_lines_length_le o f.bytes
    obtain ⟨c1, c2, c3⟩ := ih (cat_arg o false f m)
      (fun g hg => hfs g (List.mem_cons_of_mem _ hg)) a1 a2 a3 (by rw [a5]; omega)
    unfold cat_args
    rw [if_pos hr, c1, c2, c3, a4, a5, number_lines_append]
    refine ⟨by simp [List.append_assoc], rfl, by omega⟩

/-! ## C12: the line counter of cat over several streams -/

/-- C12 fails: `cat -n` over the two files "a\\n" and "b\\n" numbers the line of
the second file 2, where a counter reset per stream would give 1. -/
theorem C12_counter_not_reset_counterexample :
    (cat_files Opts.number_only 0
        [{ arg := [102], opened := some (IStream.ofBytes [97, 10]) },
          { arg := [103], opened := some (IStream.ofBytes [98, 10]) }]
        (IStream.ofBytes []) OStream.fresh).out.out =
        [32, 32, 32, 32, 32, 49, 9, 97, 10, 32, 32, 32, 32, 32, 50, 9, 98, 10] ∧
      (cat_files Opts.number_only 0
        [{ arg := [102], opened := some (IStream.ofBytes [97, 10]) },
          { arg := [103], opened := some (IStream.ofBytes [98, 10]) }]
        (IStream.ofBytes []) OStream.fresh).out.out ≠
        number_lines Opts.number_only 0 (split_lines [97, 10]) ++
          number_lines Opts.number_only 0 (split_lines [98, 10]) ∧
      (cat Opts.number_only 0 (IStream.ofBytes [97, 10]) OStream.fresh).cnt_line = 1 := by
  decide

/-- C12, amended: in `cat` the line counter runs through all input streams of an
invocation.  With number-all (and not number-nonblank), for file arguments that
open without error and hold fewer than `2 ^ 64` bytes in total, the output is
the emitted lines of all files in order, numbered 1, 2, 3, ... across the
files; the counter is never reset and ends at the number of emitted lines. -/
theorem C12_counter_runs_on (o : Opts) (files : List FileArg) (stdin : IStream)
    (out : OStream) (hn : o.opt_number = true) (hb : o.opt_number_nonblank = false)
    (hne : files ≠ []) (hfiles : ∀ f ∈ files, CatArgOk f) (ho : out.room = none)
    (hoe : out.err = false) (hlen : (files.flatMap FileArg.bytes).length < 2 ^ 64) :
    (cat_files o 0 files stdin out).out.out =
        out.out ++ number_lines o 0 (files.flatMap (fun f => emitted_lines o f.bytes)) ∧
      (cat_files o 0 files stdin out).rval = 0 ∧
      (cat_files o 0 files stdin out).cnt_line =
        (files.flatMap (fun f => emitted_lines o f.bytes)).length := by
  have he : files.isEmpty = false := by
    cases files with
    | nil => exact absurd rfl hne
    | cons _ _ => rfl
  unfold cat_files
  simp only [he, Bool.false_eq_true, if_false]
  have := cat_args_number o hn hb files
    { rval := 0, cnt_line := 0, stdin := stdin, out := out } hfiles rfl ho hoe
    (by simpa using hlen)
  simpa using this

/-- C12 (amended) at `cat -n` over the two files "a\\n" and "b\\n". -/
theorem C12_counter_runs_on_witness :
    (Opts.number_only.opt_number = true ∧ Opts.number_only.opt_number_nonblank = false ∧
        [({ arg := [102], opened := some (IStream.ofBytes [97, 10]) } : FileArg),
          { arg := [103], opened := some (IStream.ofBytes [98, 10]) }] ≠ [] ∧
        (∀ f ∈ [({ arg := [102], opened := some (IStream.ofBytes [97, 10]) } : FileArg),
          { arg := [103], opened := some (IStream.ofBytes [98, 10]) }], CatArgOk f) ∧
        OStream.fresh.room = none ∧ OStream.fresh.err = false) ∧
      (cat_files Opts.number_only 0
        [{ arg := [102], opened := some (IStream.ofBytes [97, 10]) },
          { arg := [103], opened := some (IStream.ofBytes [98, 10]) }]
        (IStream.ofBytes []) OStream.fresh).out.out =
        fmt_6lu_tab 1 ++ [97, 10] ++ (fmt_6lu_tab 2 ++ [98, 10]) :=
  ⟨⟨rfl, rfl, by decide, by decide, rfl, rfl⟩,
    ((C12_counter_runs_on Opts.number_only
      [{ arg := [102], opened := some (IStream.ofBytes [97, 10]) },
        { arg := [103], opened := some (IStream.ofBytes [98, 10]) }]
      (IStream.ofBytes []) OStream.fresh rfl rfl (by decide) (by decide) rfl rfl
      (by decide)).1).trans (by decide)⟩

/-! ## cat: the option loop -/

theorem cook_opt_number (opt : Nat) (s : Opts × Int)
    (h : s.1.opt_number = true ∧ s.1.opt_number_nonblank = true) :
    (cook_opt opt s).1.opt_number = true ∧ (cook_opt opt s).1.opt_number_nonblank = true := by
  obtain ⟨h1, h2⟩ := h
  have key : ∀ (c : Prop) [Decidable c] (a b : Opts × Int),
      (a.1.opt_number = true ∧ a.1.opt_number_nonblank = true) →
      (b.1.opt_number = true ∧ b.1.opt_number_nonblank = true) →
      ((if c then a else b).1.opt_number = true ∧
        (if c then a else b).1.opt_number_nonblank = true) := by
    intro c _ a b ha hb
    split <;> assumption
  unfold cook_opt
  apply key
  · exact ⟨rfl, rfl⟩
  apply key
  · exact ⟨h1, h2⟩
  apply key
  · exact ⟨rfl, h2⟩
  apply key
  · exact ⟨h1, h2⟩
  apply key
  · exact ⟨h1, h2⟩
  apply key
  · exact ⟨h1, h2⟩
  apply key
  · exact ⟨h1, h2⟩
  apply key
  · exact ⟨h1, h2⟩
  apply key
  · exact ⟨h1, h2⟩
  apply key
  · exact ⟨h1, h2⟩
  apply key
  · exact ⟨h1, h2⟩
  · exact ⟨h1, h2⟩

theorem cook_opts_number (opts : List Nat) :
    ∀ s : Opts × Int, s.1.opt_number = true ∧ s.1.opt_number_nonblank = true →
      (cook_opts opts s).1.opt_number = true ∧
        (cook_opts opts s).1.opt_number_nonblank = true := by
  induction opts with
  | nil => intro s h; exact h
  | cons c cs ih =>
    intro s h
    unfold cook_opts
    split
    · exact ih _ (cook_opt_number c s h)
    · exact h

theorem cook_opts_stop (opts : List Nat) (s : Opts × Int) (h : s.2 ≠ 0) :
    cook_opts opts s = s := by
  cases opts with
  | nil => rfl
  | cons c cs => unfold cook_opts; rw [if_neg h]

/-- Once the option loop has seen `b` and ends with `rval == 0`, both
`opt_number` and `opt_number_nonblank` are set, whatever else was given. -/
theorem cook_opts_b (opts : List Nat) :
    ∀ s : Opts × Int, 98 ∈ opts → s.2 = 0 → (cook_opts opts s).2 = 0 →
      (cook_opts opts s).1.opt_number = true ∧
        (cook_opts opts s).1.opt_number_nonblank = true := by
  induction opts with
  | nil => intro s h; cases h
  | cons c cs ih =>
    intro s hmem hs hr
    unfold cook_opts at hr ⊢
    rw [if_pos hs] at hr ⊢
    by_cases hc : c = 98
    · subst hc
      exact cook_opts_number cs _ ⟨rfl, rfl⟩
    · have hmem' : 98 ∈ cs := by
        rcases List.mem_cons.mp hmem with h | h
        · exact absurd h.symm hc
        · exact h
      by_cases h0 : (cook_opt c s).2 = 0
      · exact ih _ hmem' h0 hr
      · rw [cook_opts_stop cs _ h0] at hr
        exact absurd hr h0

/-! ## cat: numbering the non-blank lines -/

theorem filter_dropWhile_blank (ls : List (List Nat)) :
    (ls.dropWhile (· = [10])).filter (fun l => decide (l ≠ [10])) =
      ls.filter (fun l => decide (l ≠ [10])) := by
  induction ls with
  | nil => rfl
  | cons l ls ih =>
    by_cases hl : l = [10]
    · subst hl
      simpa [List.dropWhile] using ih
    · simp [List.dropWhile, hl]

/-- Squeezing removes blank lines only. -/
theorem filter_squeeze_blank_runs (ls : List (List Nat)) :
    ∀ n, ls.length ≤ n →
      (squeeze_blank_runs ls).filter (fun l => decide (l ≠ [10])) =
        ls.filter (fun l => decide (l ≠ [10])) := by
  intro n
  induction n generalizing ls with
  | zero =>
    intro h
    have : ls = [] := List.length_eq_zero.mp (by omega)
    subst this
    simp [squeeze_blank_runs]
  | succ n ih =>
    intro h
    cases ls with
    | nil => simp [squeeze_blank_runs]
    | cons l ls =>
      have hd := (List.dropWhile_sublist (l := ls) (· = [10])).length_le
      simp only [List.length_cons] at h
      by_cases hl : l = [10]
      · subst hl
        rw [squeeze_blank_runs_cons_blank]
        have e := ih (ls.dropWhile (· = [10])) (by omega)
        rw [filter_dropWhile_blank] at e
        simpa using e
      · rw [squeeze_blank_runs_cons_other l ls hl]
        have e := ih ls (by omega)
        rw [List.filter_cons_of_pos (by simpa using hl),
          List.filter_cons_of_pos (by simpa using hl), e]

theorem cat_lines_nonblank (o : Opts) (hn : o.opt_number = true)
    (hb : o.opt_number_nonblank = true) (hs : o.opt_squeeze_blank = false)
    (ls : List (List Nat)) :
    ∀ (eol : Int) (cnt : Nat), 0 ≤ eol → cnt + ls.length < 2 ^ 64 →
      cat_lines o eol cnt ls =
        (number_nonblank_lines o cnt ls,
          cnt + (ls.filter (fun l => decide (l ≠ [10]))).length) := by
  induction ls with
  | nil => intro eol cnt _ _; simp [cat_lines, number_nonblank_lines]
  | cons l ls ih =>
    intro eol cnt heol hcnt
    simp only [List.length_cons] at hcnt
    have hmod : (cnt + 1) % 2 ^ 64 = cnt + 1 := Nat.mod_eq_of_lt (by omega)
    have hnb : number_blank_bytes o cnt = ([], cnt) := by
      unfold number_blank_bytes
      rw [hn, hb]
      rfl
    have hnl : number_line_bytes o cnt = (fmt_6lu_tab (cnt + 1), cnt + 1) := by
      unfold number_line_bytes
      rw [hmod, hn]
      rfl
    by_cases hl : l = [10]
    · subst hl
      have a1 : eol + 1 > 0 := by omega
      by_cases a2 : eol + 1 ≥ 2
      · simp only [cat_lines, if_true, a1, a2, hs, Bool.false_eq_true, if_false, hnb]
        rw [ih 2 cnt (by omega) (by omega)]
        simp [number_nonblank_lines, render_line_blank]
      · simp only [cat_lines, if_true, a1, a2, if_false, hnb]
        rw [ih (eol + 1) cnt (by omega) (by omega)]
        simp [number_nonblank_lines, render_line_blank]
    · simp only [cat_lines, if_neg hl, hnl]
      rw [ih 0 (cnt + 1) (le_refl _) (by omega)]
      simp [number_nonblank_lines, hl, List.append_assoc]
      omega

theorem cat_lines_nonblank_squeeze (o : Opts) (hn : o.opt_number = true)
    (hb : o.opt_number_nonblank = true) (hs : o.opt_squeeze_blank = true)
    (ls : List (List Nat)) :
    ∀ (eol : Int) (cnt : Nat), 0 ≤ eol → cnt + ls.length < 2 ^ 64 →
      cat_lines o eol cnt ls =
        (number_nonblank_lines o cnt
            (if 1 ≤ eol then squeeze_blank_runs (ls.dropWhile (· = [10]))
              else squeeze_blank_runs ls),
          cnt + (ls.filter (fun l => decide (l ≠ [10]))).length) := by
  induction ls with
  | nil => intro eol cnt _ _; simp [cat_lines, number_nonblank_lines, squeeze_blank_runs]
  | cons l ls ih =>
    intro eol cnt heol hcnt
    simp only [List.length_cons] at hcnt
    have hmod : (cnt + 1) % 2 ^ 64 = cnt + 1 := Nat.mod_eq_of_lt (by omega)
    have hnb : number_blank_bytes o cnt = ([], cnt) := by
      unfold number_blank_bytes
      rw [hn, hb]
      rfl
    have hnl : number_line_bytes o cnt = (fmt_6lu_tab (cnt + 1), cnt + 1) := by
      unfold number_line_bytes
      rw [hmod, hn]
      rfl
    by_cases hl : l = [10]
    · subst hl
      have a1 : eol + 1 > 0 := by omega
      by_cases h1e : 1 ≤ eol
      · have a2 : eol + 1 ≥ 2 := by omega
        simp only [cat_lines, if_true, a1, a2, hs, h1e]
        rw [ih 2 cnt (by omega) (by omega)]
        simp
      · have a2 : ¬ eol + 1 ≥ 2 := by omega
        have a3 : 1 ≤ eol + 1 := by omega
        simp only [cat_lines, if_true, a1, a2, if_false, hnb, h1e]
        rw [ih (eol + 1) cnt (by omega) (by omega), squeeze_blank_runs_cons_blank]
        simp [a3, number_nonblank_lines, render_line_blank]
    · have hd : (l :: ls).dropWhile (· = [10]) = l :: ls := by simp [List.dropWhile, hl]
      simp only [cat_lines, if_neg hl, hnl]
      rw [ih 0 (cnt + 1) (le_refl _) (by omega), hd, squeeze_blank_runs_cons_other l ls hl]
      simp [number_nonblank_lines, hl, List.append_assoc]
      omega

/-! ## C13: number-nonblank -/

/-- C13: when the option loop has seen `b` (with or without `n`, in any order,
and whatever other options) and ends with `rval == 0`, then with the counter at
0 `cat` writes every emitted blank line without a number and without advancing
the counter, and prefixes the k-th non-blank line with the number k in the
format `%6lu\t`; the non-blank lines emitted are those of the input, and the
counter ends at their number.  Inputs are shorter than `2 ^ 64` bytes. -/
theorem C13_number_nonblank (opts : List Nat) (X : List Nat) (hopt : 98 ∈ opts)
    (hr : (cook_opts opts (Opts.none, 0)).2 = 0) (hX : ∀ b ∈ X, b < 256)
    (hlen : X.length < 2 ^ 64) :
    (cat (cook_opts opts (Opts.none, 0)).1 0 (IStream.ofBytes X) OStream.fresh).ostream.out =
        number_nonblank_lines (cook_opts opts (Opts.none, 0)).1 0
          (emitted_lines (cook_opts opts (Opts.none, 0)).1 X) ∧
      (emitted_lines (cook_opts opts (Opts.none, 0)).1 X).filter (fun l => decide (l ≠ [10])) =
        (split_lines X).filter (fun l => decide (l ≠ [10])) ∧
      (cat (cook_opts opts (Opts.none, 0)).1 0 (IStream.ofBytes X) OStream.fresh).cnt_line =
        ((split_lines X).filter (fun l => decide (l ≠ [10]))).length := by
  obtain ⟨hn, hb⟩ := cook_opts_b opts (Opts.none, 0) hopt rfl hr
  generalize (cook_opts opts (Opts.none, 0)).1 = o at hn hb ⊢
  obtain ⟨h1, h2, _⟩ := cat_eq_cat_lines o 0 X hX
  have hl := split_lines_length_le X
  rw [h1, h2]
  unfold emitted_lines
  cases hs : o.opt_squeeze_blank
  · rw [cat_lines_nonblank o hn hb hs _ 0 0 (le_refl _) (by omega)]
    simp
  · rw [cat_lines_nonblank_squeeze o hn hb hs _ 0 0 (le_refl _) (by omega)]
    simp only [if_true, Nat.zero_add]
    refine ⟨by simp, filter_squeeze_blank_runs _ _ (le_refl _), trivial⟩

/-- C13 at `cat -n -b` on "a\\n\\nb\\n", which gives "     1\\ta\\n\\n     2\\tb\\n". -/
theorem C13_number_nonblank_witness :
    (98 ∈ [110, 98] ∧ (cook_opts [110, 98] (Opts.none, 0)).2 = 0 ∧
        (∀ b ∈ [97, 10, 10, 98, 10], b < 256) ∧ [97, 10, 10, 98, 10].length < 2 ^ 64) ∧
      (cat (cook_opts [110, 98] (Opts.none, 0)).1 0 (IStream.ofBytes [97, 10, 10, 98, 10])
          OStream.fresh).ostream.out =
        [32, 32, 32, 32, 32, 49, 9, 97, 10, 10, 32, 32, 32, 32, 32, 50, 9, 98, 10] :=
  ⟨⟨by decide, by decide, by decide, by norm_num⟩,
    ((C13_number_nonblank [110, 98] [97, 10, 10, 98, 10] (by decide) (by decide) (by decide)
      (by norm_num)).1).trans (by decide)⟩

/-! ## The width of a line number -/

theorem toDigitsCore_length_pos (fuel : Nat) :
    ∀ (n : Nat) (ds : List Char), n < fuel →
      ds.length + 1 ≤ (Nat.toDigitsCore 10 fuel n ds).length := by
  induction fuel with
  | zero => intro n ds h; omega
  | succ fuel ih =>
    intro n ds h
    unfold Nat.toDigitsCore
    dsimp only
    split
    · simp
    · rename_i h0
      have := ih (n / 10) (Nat.digitChar (n % 10) :: ds) (by omega)
      simp only [List.length_cons] at this
      omega

theorem toDigitsCore_length_le (j : Nat) :
    ∀ (fuel n : Nat) (ds : List Char), n < 10 ^ (j + 1) → n < fuel →
      (Nat.toDigitsCore 10 fuel n ds).length ≤ ds.length + j + 1 := by
  induction j with
  | zero =>
    intro fuel n ds h hf
    obtain ⟨f, rfl⟩ : ∃ f, fuel = f + 1 := ⟨fuel - 1, by omega⟩
    unfold Nat.toDigitsCore
    dsimp only
    have h0 : n / 10 = 0 := by omega
    rw [if_pos h0]
    simp
  | succ j ih =>
    intro fuel n ds h hf
    obtain ⟨f, rfl⟩ : ∃ f, fuel = f + 1 := ⟨fuel - 1, by omega⟩
    unfold Nat.toDigitsCore
    dsimp only
    split
    · simp only [List.length_cons]
      omega
    · rename_i h0
      have h1 : n / 10 < 10 ^ (j + 1) := by
        rw [Nat.div_lt_iff_lt_mul (by decide)]
        rw [pow_succ] at h
        exact h
      have := ih f (n / 10) (Nat.digitChar (n % 10) :: ds) h1 (by omega)
      simp only [List.length_cons] at this
      omega

theorem toDigitsCore_length_ge (j : Nat) :
    ∀ (fuel n : Nat) (ds : List Char), 10 ^ j ≤ n → n < fuel →
      ds.length + j + 1 ≤ (Nat.toDigitsCore 10 fuel n ds).length := by
  induction j with
  | zero =>
    intro fuel n ds _ hf
    exact toDigitsCore_length_pos fuel n ds hf
  | succ j ih =>
    intro fuel n ds h hf
    obtain ⟨f, rfl⟩ : ∃ f, fuel = f + 1 := ⟨fuel - 1, by omega⟩
    have h1 : 10 ^ j ≤ n / 10 := by
      rw [Nat.le_div_iff_mul_le (by decide)]
      rw [pow_succ] at h
      exact h
    have hpos : 0 < 10 ^ j := pow_pos (by decide) j
    unfold Nat.toDigitsCore
    dsimp only
    rw [if_neg (by omega)]
    have := ih f (n / 10) (Nat.digitChar (n % 10) :: ds) h1 (by omega)
    simp only [List.length_cons] at this
    omega

/-- A number below `10 ^ 6` has at most 6 decimal digits. -/
theorem decimal_length_le (n : Nat) (h : n < 10 ^ 6) :
    1 ≤ (decimal n).length ∧ (decimal n).length ≤ 6 := by
  unfold decimal Nat.toDigits
  rw [List.length_map]
  have h1 := toDigitsCore_length_pos (n + 1) n [] (by omega)
  have h2 := toDigitsCore_length_le 5 (n + 1) n [] h (by omega)
  simp only [List.length_nil] at h1 h2
  omega

/-- A number from `10 ^ 6` on has at least 7 decimal digits. -/
theorem decimal_length_ge (n : Nat) (h : 10 ^ 6 ≤ n) : 7 ≤ (decimal n).length := by
  unfold decimal Nat.toDigits
  rw [List.length_map]
  have h2 := toDigitsCore_length_ge 6 (n + 1) n [] h (by omega)
  simp only [List.length_nil] at h2
  omega

theorem fmt_6lu_tab_narrow (n : Nat) (h : n < 10 ^ 6) : (fmt_6lu_tab n).length = 7 := by
  obtain ⟨h1, h2⟩ := decimal_length_le n h
  unfold fmt_6lu_tab
  simp only [List.length_append, List.length_replicate, List.length_singleton]
  omega

theorem fmt_6lu_tab_wide (n : Nat) (h : 10 ^ 6 ≤ n) :
    fmt_6lu_tab n = decimal n ++ [9] ∧ 8 ≤ (fmt_6lu_tab n).length := by
  have h1 := decimal_length_ge n h
  have e : fmt_6lu_tab n = decimal n ++ [9] := by
    unfold fmt_6lu_tab
    rw [show 6 - (decimal n).length = 0 by omega]
    rfl
  rw [e]
  refine ⟨rfl, ?_⟩
  simp only [List.length_append, List.length_singleton]
  omega

/-! ## C15: the line-number field -/

theorem split_lines_replicate (n : Nat) :
    split_lines (List.replicate n 10) = List.replicate n [10] := by
  induction n with
  | zero => rfl
  | succ n ih => simp [List.replicate_succ, split_lines, ih]

/-- What `cat -n` writes for `m = n + 1` blank lines: the last line carries the
number `m`. -/
theorem cat_number_blank_lines (n m : Nat) (hm : m = n + 1) (hn : m < 2 ^ 64) :
    (cat Opts.number_only 0 (IStream.ofBytes (List.replicate m 10))
        OStream.fresh).ostream.out =
      number_lines Opts.number_only 0 (List.replicate n [10]) ++ fmt_6lu_tab m ++ [10] := by
  subst hm
  have hX : ∀ b ∈ List.replicate (n + 1) 10, b < 256 := by
    intro b hb
    rw [(List.mem_replicate.mp hb).2]
    decide
  rw [(cat_eq_cat_lines Opts.number_only 0 _ hX).1, split_lines_replicate,
    cat_lines_number Opts.number_only rfl rfl rfl _ 0 0 (le_refl _)
      (by rw [List.length_replicate]; omega)]
  show number_lines Opts.number_only 0 (List.replicate (n + 1) [10]) = _
  rw [List.replicate_succ', number_lines_append, List.length_replicate]
  simp only [number_lines, Nat.zero_add, List.append_nil, List.append_assoc]
  rfl

/-- C15 fails: `cat -n` on a million blank lines, counter starting at 0, writes
the last line as "1000000\\t\\n": the number takes 7 characters and the prefix 8
bytes, not a 6-character field and 7 bytes. -/
theorem C15_number_field_counterexample :
    ∃ pre, (cat Opts.number_only 0 (IStream.ofBytes (List.replicate 1000000 10))
          OStream.fresh).ostream.out = pre ++ fmt_6lu_tab 1000000 ++ [10] ∧
        fmt_6lu_tab 1000000 = [49, 48, 48, 48, 48, 48, 48, 9] ∧
        (fmt_6lu_tab 1000000).length = 8 :=
  ⟨number_lines Opts.number_only 0 (List.replicate 999999 [10]),
    cat_number_blank_lines 999999 1000000 (by norm_num) (by norm_num), rfl, rfl⟩

/-- C15, amended: the field width 6 of `%6lu` is a minimum.  With number-all the
lines `cat` emits carry the prefixes `fmt_6lu_tab 1`, `fmt_6lu_tab 2`, ...; the
prefix for a number below `10 ^ 6` is the decimal number right-justified with
spaces in 6 characters plus one tab, 7 bytes in all, and for a number from
`10 ^ 6` on it is all the digits of the number plus one tab, 8 bytes or more. -/
theorem C15_number_field (o : Opts) (X : List Nat) (hn : o.opt_number = true)
    (hb : o.opt_number_nonblank = false) (hX : ∀ b ∈ X, b < 256)
    (hlen : X.length < 2 ^ 64) :
    (cat o 0 (IStream.ofBytes X) OStream.fresh).ostream.out =
        number_lines o 0 (emitted_lines o X) ∧
      (∀ k, k < 10 ^ 6 →
        fmt_6lu_tab k = List.replicate (6 - (decimal k).length) 32 ++ decimal k ++ [9] ∧
          1 ≤ (decimal k).length ∧ (decimal k).length ≤ 6 ∧ (fmt_6lu_tab k).length = 7) ∧
      (∀ k, 10 ^ 6 ≤ k → fmt_6lu_tab k = decimal k ++ [9] ∧ 8 ≤ (fmt_6lu_tab k).length) := by
  refine ⟨?_, fun k hk => ⟨rfl, (decimal_length_le k hk).1, (decimal_length_le k hk).2,
    fmt_6lu_tab_narrow k hk⟩, fun k hk => fmt_6lu_tab_wide k hk⟩
  rw [(cat_eq_cat_lines o 0 X hX).1]
  have := cat_lines_emitted o hn hb X 0 (by omega)
  rw [this]

/-- C15 (amended) at `cat -n` on "a\\n", and at the numbers 999999 and 1000000. -/
theorem C15_number_field_witness :
    (Opts.number_only.opt_number = true ∧ Opts.number_only.opt_number_nonblank = false ∧
        (∀ b ∈ [97, 10], b < 256) ∧ [97, 10].length < 2 ^ 64 ∧ 999999 < 10 ^ 6 ∧
        10 ^ 6 ≤ 1000000) ∧
      (cat Opts.number_only 0 (IStream.ofBytes [97, 10]) OStream.fresh).ostream.out =
        [32, 32, 32, 32, 32, 49, 9, 97, 10] ∧
      (fmt_6lu_tab 999999).length = 7 ∧ 8 ≤ (fmt_6lu_tab 1000000).length :=
  ⟨⟨rfl, rfl, by decide, by norm_num, by norm_num, by norm_num⟩,
    ((C15_number_field Opts.number_only [97, 10] rfl rfl (by decide) (by norm_num)).1).trans
      (by decide),
    ((C15_number_field Opts.number_only [97, 10] rfl rfl (by decide) (by norm_num)).2.1
      999999 (by norm_num)).2.2.2,
    ((C15_number_field Opts.number_only [97, 10] rfl rfl (by decide) (by norm_num)).2.2
      1000000 (by norm_num)).2⟩

/-! ## cat on any streams: what the loops preserve -/

theorem stable_fputs (P : CatState → Prop) (hP : Stable P) (bytes : List Nat) :
    ∀ s : CatState, P s → P { s with ostream := fputs bytes s.ostream } := by
  induction bytes with
  | nil => intro s h; exact h
  | cons c cs ih =>
    intro s h
    exact ih { s with ostream := fputc c s.ostream } (hP.2.1 s c h)

theorem stable_print_number (P : CatState → Prop) (hP : Stable P) (s : CatState) (h : P s) :
    P (print_number s) :=
  stable_fputs P hP _ { s with cnt_line := (s.cnt_line + 1) % 2 ^ 64 } (hP.2.2.2 s _ h)

theorem stable_number_blank (P : CatState → Prop) (hP : Stable P) (o : Opts) (s : CatState)
    (h : P s) : P (number_blank o s) := by
  unfold number_blank
  split
  · exact stable_print_number P hP s h
  · exact h

theorem stable_end_line (P : CatState → Prop) (hP : Stable P) (o : Opts) (s : CatState)
    (h : P s) : P (end_line o s) := by
  unfold end_line
  cases o.opt_show_ends
  · exact hP.2.1 s 10 h
  · exact hP.2.1 { s with ostream := fputc 36 s.ostream } 10 (hP.2.1 s 36 h)

theorem stable_blank_loop (P : CatState → Prop) (hP : Stable P) (o : Opts) (fuel : Nat) :
    ∀ s : CatState, P s → P (blank_loop o fuel s) := by
  induction fuel with
  | zero => intro s h; exact h
  | succ fuel ih =>
    intro s h
    unfold blank_loop
    dsimp only
    split
    · split
      · split
        · split
          · exact ih _ (hP.1 _ (hP.2.2.1 s 2 h))
          · exact ih _ (hP.1 _ (stable_end_line P hP o _
              (stable_number_blank P hP o _ (hP.2.2.1 s 2 h))))
        · exact ih _ (hP.1 _ (stable_end_line P hP o _
            (stable_number_blank P hP o _ (hP.2.2.1 s (s.eol + 1) h))))
      · exact ih _ (hP.1 _ (stable_end_line P hP o _ (hP.2.2.1 s (s.eol + 1) h)))
    · exact h

theorem stable_quote_loop (P : CatState → Prop) (hP : Stable P) (o : Opts) (fuel : Nat) :
    ∀ s : CatState, P s → P (quote_loop o fuel s) := by
  induction fuel with
  | zero => intro s h; exact h
  | succ fuel ih =>
    intro s h
    unfold quote_loop
    split
    · exact h
    · split
      · exact ih _ (hP.1 _ (stable_fputs P hP _ s h))
      · exact h

theorem stable_plain_loop (P : CatState → Prop) (hP : Stable P) (o : Opts) (fuel : Nat) :
    ∀ s : CatState, P s → P (plain_loop o fuel s) := by
  induction fuel with
  | zero => intro s h; exact h
  | succ fuel ih =>
    intro s h
    unfold plain_loop
    split
    · exact h
    · split
      · exact ih _ (hP.1 _ (stable_fputs P hP _ s h))
      · exact h

/-- The part of the `for` body after the newline loop. -/
theorem stable_line_part (P : CatState → Prop) (hP : Stable P) (o : Opts) (s1 : CatState)
    (h : P s1) :
    P ({ (if o.opt_show_nonprinting then
            quote_loop o
              ((if o.opt_number && s1.ch.isSome then print_number s1 else s1).istream.data.length
                + 2)
              (if o.opt_number && s1.ch.isSome then print_number s1 else s1)
          else
            plain_loop o
              ((if o.opt_number && s1.ch.isSome then print_number s1 else s1).istream.data.length
                + 2)
              (if o.opt_number && s1.ch.isSome then print_number s1 else s1)) with
        eol := -1 } : CatState) := by
  have h2 : P (if o.opt_number && s1.ch.isSome then print_number s1 else s1) := by
    split
    · exact stable_print_number P hP s1 h
    · exact h
  apply hP.2.2.1
  split
  · exact stable_quote_loop P hP o _ _ h2
  · exact stable_plain_loop P hP o _ _ h2

theorem stable_cat_body (P : CatState → Prop) (hP : Stable P) (o : Opts) (s : CatState)
    (h : P s) : P (cat_body o s) :=
  stable_line_part P hP o _ (stable_blank_loop P hP o _ s h)

theorem stable_cat_loop (P : CatState → Prop) (hP : Stable P) (o : Opts) (fuel : Nat) :
    ∀ s : CatState, P s → P (cat_loop o fuel s) := by
  induction fuel with
  | zero => intro s h; exact h
  | succ fuel ih =>
    intro s h
    unfold cat_loop
    split
    · exact ih _ (stable_cat_body P hP o s h)
    · exact h

/-! ## The stable properties -/

theorem fputc_err (c : Nat) (os : OStream) (h : os.err = true) : (fputc c os).err = true := by
  unfold fputc
  split <;> simp [h]

theorem stable_oerr : Stable (fun s => s.ostream.err = true) :=
  ⟨fun _ h => h, fun s c h => fputc_err c s.ostream h, fun _ _ h => h, fun _ _ h => h⟩

theorem stable_room_zero : Stable (fun s => s.ostream.room = some 0) := by
  refine ⟨fun _ h => h, fun s c h => ?_, fun _ _ h => h, fun _ _ h => h⟩
  show (fputc c s.ostream).room = some 0
  unfold fputc
  rw [h]

theorem stable_out_ok : Stable (fun s => s.ostream.room = none ∧ s.ostream.err = false) := by
  refine ⟨fun _ h => h, fun s c h => ?_, fun _ _ h => h, fun _ _ h => h⟩
  show (fputc c s.ostream).room = none ∧ (fputc c s.ostream).err = false
  rw [fputc_room_none c s.ostream h.1]
  exact h

theorem stable_ierr : Stable (fun s => s.istream.err = true) := by
  refine ⟨fun s h => ?_, fun _ _ h => h, fun _ _ h => h, fun _ _ h => h⟩
  show (fgetc s.istream).2.err = true
  unfold fgetc
  split
  · exact h
  · split <;> simp [h]

theorem stable_bad (b : Bool) : Stable (fun s => s.istream.bad = b) := by
  refine ⟨fun s h => ?_, fun _ _ h => h, fun _ _ h => h, fun _ _ h => h⟩
  show (fgetc s.istream).2.bad = b
  unfold fgetc
  split
  · exact h
  · split <;> exact h

theorem stable_ch_end : Stable ChEnd := by
  refine ⟨fun s _ => ?_, fun _ _ h => h, fun _ _ h => h, fun _ _ h => h⟩
  unfold ChEnd next_ch fgetc
  cases hd : s.istream.data with
  | nil => cases hb : s.istream.bad <;> simp [hd, hb]
  | cons b rest => simp

/-- A read error is only met at the end of the data. -/
theorem stable_err_at_end : Stable (fun s => s.istream.err = true → s.istream.data = []) := by
  refine ⟨fun s h => ?_, fun _ _ h => h, fun _ _ h => h, fun _ _ h => h⟩
  show (fgetc s.istream).2.err = true → (fgetc s.istream).2.data = []
  unfold fgetc
  cases hd : s.istream.data with
  | nil => cases hb : s.istream.bad <;> simp [hd]
  | cons b rest =>
    intro he
    have := h he
    rw [hd] at this
    cases this

/-! ## cat on any streams: the loops end -/

theorem pending_next_ch_any (s : CatState) : pending (next_ch s) = s.istream.data := by
  unfold next_ch fgetc pending
  cases hd : s.istream.data with
  | nil => cases s.istream.bad <;> rfl
  | cons b rest => rfl

theorem number_blank_istream (o : Opts) (s : CatState) :
    (number_blank o s).istream = s.istream := by
  unfold number_blank
  split <;> rfl

theorem end_line_istream (o : Opts) (s : CatState) : (end_line o s).istream = s.istream := rfl

theorem blank_loop_exit (o : Opts) (fuel : Nat) :
    ∀ s : CatState, (pending s).length + 1 ≤ fuel →
      (blank_loop o fuel s).ch ≠ some 10 ∧
        (pending (blank_loop o fuel s)).length ≤ (pending s).length ∧
        (s.ch = some 10 → (pending (blank_loop o fuel s)).length < (pending s).length) ∧
        (s.ch ≠ some 10 → blank_loop o fuel s = s) := by
  induction fuel with
  | zero => intro s hf; omega
  | succ fuel ih =>
    intro s hf
    by_cases hch : s.ch = some 10
    · have hp : pending s = 10 :: s.istream.data := by simp [pending, hch]
      rw [hp] at hf ⊢
      simp only [List.length_cons] at hf ⊢
      have key : ∀ t : CatState, t.istream = s.istream →
          (blank_loop o fuel (next_ch t)).ch ≠ some 10 ∧
            (pending (blank_loop o fuel (next_ch t))).length ≤ s.istream.data.length + 1 ∧
            (s.ch = some 10 →
              (pending (blank_loop o fuel (next_ch t))).length < s.istream.data.length + 1) ∧
            (s.ch ≠ some 10 → blank_loop o fuel (next_ch t) = s) := by
        intro t ht
        have hl : (pending (next_ch t)).length = s.istream.data.length := by
          rw [pending_next_ch_any, ht]
        obtain ⟨b1, b2, _, _⟩ := ih (next_ch t) (by omega)
        exact ⟨b1, by omega, fun _ => by omega, fun hF => absurd hch hF⟩
      unfold blank_loop
      rw [if_pos hch]
      dsimp only
      split
      · split
        · split
          · exact key _ rfl
          · exact key _ (by rw [end_line_istream, number_blank_istream])
        · exact key _ (by rw [end_line_istream, number_blank_istream])
      · exact key _ rfl
    · unfold blank_loop
      rw [if_neg hch]
      exact ⟨hch, le_refl _, fun h => absurd h hch, fun _ => rfl⟩

theorem quote_loop_exit (o : Opts) (fuel : Nat) :
    ∀ s : CatState, (pending s).length + 1 ≤ fuel →
      ((quote_loop o fuel s).ch = none ∨ (quote_loop o fuel s).ch = some 10) ∧
        (pending (quote_loop o fuel s)).length ≤ (pending s).length ∧
        (∀ b, s.ch = some b → b ≠ 10 →
          (pending (quote_loop o fuel s)).length < (pending s).length) := by
  induction fuel with
  | zero => intro s hf; omega
  | succ fuel ih =>
    intro s hf
    unfold quote_loop
    split
    · rename_i hch
      refine ⟨Or.inl hch, le_refl _, fun b hb => ?_⟩
      rw [hch] at hb
      cases hb
    · rename_i ch hch
      have hp : pending s = ch :: s.istream.data := by simp [pending, hch]
      rw [hp] at hf ⊢
      simp only [List.length_cons] at hf ⊢
      by_cases h10 : ch = 10
      · rw [if_neg (by simpa using h10)]
        refine ⟨Or.inr (by rw [hch, h10]), ?_, fun b hb hne => ?_⟩
        · rw [hp]; simp
        · rw [hch] at hb; cases hb; exact absurd h10 hne
      · rw [if_pos h10]
        have hl : (pending (next_ch
            ({ s with ostream := fputs (quote_byte o ch) s.ostream } : CatState))).length =
            s.istream.data.length := by
          rw [pending_next_ch_any]
        obtain ⟨b1, b2, _⟩ := ih _ (by rw [hl]; omega)
        rw [hl] at b2
        exact ⟨b1, by omega, fun _ _ _ => by omega⟩

theorem plain_loop_exit (o : Opts) (fuel : Nat) :
    ∀ s : CatState, (pending s).length + 1 ≤ fuel →
      ((plain_loop o fuel s).ch = none ∨ (plain_loop o fuel s).ch = some 10) ∧
        (pending (plain_loop o fuel s)).length ≤ (pending s).length ∧
        (∀ b, s.ch = some b → b ≠ 10 →
          (pending (plain_loop o fuel s)).length < (pending s).length) := by
  induction fuel with
  | zero => intro s hf; omega
  | succ fuel ih =>
    intro s hf
    unfold plain_loop
    split
    · rename_i hch
      refine ⟨Or.inl hch, le_refl _, fun b hb => ?_⟩
      rw [hch] at hb
      cases hb
    · rename_i ch hch
      have hp : pending s = ch :: s.istream.data := by simp [pending, hch]
      rw [hp] at hf ⊢
      simp only [List.length_cons] at hf ⊢
      by_cases h10 : ch = 10
      · rw [if_neg (by simpa using h10)]
        refine ⟨Or.inr (by rw [hch, h10]), ?_, fun b hb hne => ?_⟩
        · rw [hp]; simp
        · rw [hch] at hb; cases hb; exact absurd h10 hne
      · rw [if_pos h10]
        have hl : (pending (next_ch
            ({ s with ostream := fputs (plain_byte o ch) s.ostream } : CatState))).length =
            s.istream.data.length := by
          rw [pending_next_ch_any]
        obtain ⟨b1, b2, _⟩ := ih _ (by rw [hl]; omega)
        rw [hl] at b2
        exact ⟨b1, by omega, fun _ _ _ => by omega⟩

/-- Every pass through the body of the `for` loop consumes input, on any streams. -/
theorem cat_body_shrinks (o : Opts) (s : CatState) (hsome : s.ch.isSome = true) :
    (pending (cat_body o s)).length < (pending s).length := by
  obtain ⟨a1, a2, a3, a4⟩ := blank_loop_exit o (s.istream.data.length + 2) s
    (by have := pending_length_le s; omega)
  have hnum : ∀ s1 : CatState,
      pending (if o.opt_number && s1.ch.isSome then print_number s1 else s1) = pending s1 ∧
        (if o.opt_number && s1.ch.isSome then print_number s1 else s1).ch = s1.ch := by
    intro s1
    split
    · exact ⟨rfl, rfl⟩
    · exact ⟨rfl, rfl⟩
  have hbody : ∀ s2 : CatState,
      (pending (if o.opt_show_nonprinting then quote_loop o (s2.istream.data.length + 2) s2
          else plain_loop o (s2.istream.data.length + 2) s2)).length ≤ (pending s2).length ∧
        (∀ b, s2.ch = some b → b ≠ 10 →
          (pending (if o.opt_show_nonprinting then quote_loop o (s2.istream.data.length + 2) s2
            else plain_loop o (s2.istream.data.length + 2) s2)).length <
            (pending s2).length) := by
    intro s2
    have hf : (pending s2).length + 1 ≤ s2.istream.data.length + 2 := by
      have := pending_length_le s2; omega
    split
    · exact (quote_loop_exit o _ s2 hf).2
    · exact (plain_loop_exit o _ s2 hf).2
  obtain ⟨n1, n2⟩ := hnum (blank_loop o (s.istream.data.length + 2) s)
  obtain ⟨b1, b2⟩ := hbody
    (if o.opt_number && (blank_loop o (s.istream.data.length + 2) s).ch.isSome then
      print_number (blank_loop o (s.istream.data.length + 2) s)
    else blank_loop o (s.istream.data.length + 2) s)
  have e : ∀ t : CatState, pending ({ t with eol := -1 } : CatState) = pending t := fun _ => rfl
  unfold cat_body
  dsimp only
  rw [e]
  rw [n1] at b1 b2
  by_cases hs : s.ch = some 10
  · have := a3 hs
    omega
  · rw [a4 hs] at b1 b2 n2 ⊢
    obtain ⟨b, hb⟩ := Option.isSome_iff_exists.mp hsome
    exact b2 b (by rw [n2, hb]) (fun h10 => hs (by rw [hb, h10]))

/-- On any streams the `for` loop ends within its budget: in the state it
leaves, its condition is false. -/
theorem cat_loop_exit (o : Opts) (fuel : Nat) :
    ∀ s : CatState, (pending s).length + 1 ≤ fuel →
      (cat_loop o fuel s).ch = none ∨ (cat_loop o fuel s).istream.err = true ∨
        (cat_loop o fuel s).ostream.err = true := by
  induction fuel with
  | zero => intro s hf; omega
  | succ fuel ih =>
    intro s hf
    unfold cat_loop
    split
    · rename_i hg
      simp only [Bool.and_eq_true, Bool.not_eq_true'] at hg
      have := cat_body_shrinks o s hg.1.1
      exact ih _ (by omega)
    · rename_i hg
      simp only [Bool.and_eq_true, Bool.not_eq_true', not_and, Bool.not_eq_false] at hg
      cases hc : s.ch with
      | none => exact Or.inl rfl
      | some b =>
        cases hie : s.istream.err with
        | true => exact Or.inr (Or.inl rfl)
        | false => exact Or.inr (Or.inr (hg ⟨by simp [hc], hie⟩))

/-! ## cat: a full output device -/

theorem fputs_err (bytes : List Nat) : ∀ os : OStream, os.err = true →
    (fputs bytes os).err = true := by
  induction bytes with
  | nil => intro os h; exact h
  | cons c cs ih => intro os h; exact ih (fputc c os) (fputc_err c os h)

theorem fputc_room_zero (c : Nat) (os : OStream) (h : os.room = some 0) :
    (fputc c os).err = true := by
  unfold fputc
  rw [h]

theorem fputs_room_zero (bytes : List Nat) (os : OStream) (h : os.room = some 0)
    (hne : bytes ≠ []) : (fputs bytes os).err = true := by
  cases bytes with
  | nil => exact absurd rfl hne
  | cons c cs => exact fputs_err cs (fputc c os) (fputc_room_zero c os h)

theorem quote_byte_ne_nil (o : Opts) (ch : Nat) : quote_byte o ch ≠ [] := by
  unfold quote_byte
  split_ifs <;> simp

theorem plain_byte_ne_nil (o : Opts) (ch : Nat) : plain_byte o ch ≠ [] := by
  unfold plain_byte
  split_ifs <;> simp

theorem blank_loop_write_fails (o : Opts) (s : CatState) (hch : s.ch = some 10)
    (heol : s.eol = 0) (hroom : s.ostream.room = some 0) (fuel : Nat) :
    (blank_loop o (fuel + 1) s).ostream.err = true := by
  unfold blank_loop
  rw [if_pos hch]
  dsimp only
  rw [heol]
  have a1 : (0 : Int) + 1 > 0 := by decide
  have a2 : ¬ ((0 : Int) + 1 ≥ 2) := by decide
  rw [if_pos a1, if_neg a2]
  apply stable_blank_loop (fun s => s.ostream.err = true) stable_oerr
  show (end_line o (number_blank o { s with eol := 0 + 1 })).ostream.err = true
  have hr : (number_blank o { s with eol := 0 + 1 }).ostream.room = some 0 :=
    stable_number_blank (fun s => s.ostream.room = some 0) stable_room_zero o _ hroom
  unfold end_line
  cases o.opt_show_ends
  · exact fputc_room_zero 10 _ hr
  · exact fputc_err 10 _ (fputc_room_zero 36 _ hr)

theorem quote_loop_write_fails (o : Opts) (s : CatState) (b : Nat) (hch : s.ch = some b)
    (hb : b ≠ 10) (hroom : s.ostream.room = some 0) (fuel : Nat) :
    (quote_loop o (fuel + 1) s).ostream.err = true := by
  unfold quote_loop
  split
  · rename_i hn
    rw [hn] at hch
    cases hch
  · rename_i ch hc
    rw [hc] at hch
    cases hch
    rw [if_pos hb]
    apply stable_quote_loop (fun s => s.ostream.err = true) stable_oerr
    exact fputs_room_zero _ _ hroom (quote_byte_ne_nil o _)

theorem plain_loop_write_fails (o : Opts) (s : CatState) (b : Nat) (hch : s.ch = some b)
    (hb : b ≠ 10) (hroom : s.ostream.room = some 0) (fuel : Nat) :
    (plain_loop o (fuel + 1) s).ostream.err = true := by
  unfold plain_loop
  split
  · rename_i hn
    rw [hn] at hch
    cases hch
  · rename_i ch hc
    rw [hc] at hch
    cases hch
    rw [if_pos hb]
    apply stable_plain_loop (fun s => s.ostream.err = true) stable_oerr
    exact fputs_room_zero _ _ hroom (plain_byte_ne_nil o _)

theorem cat_loop_succ (o : Opts) (fuel : Nat) (s : CatState) :
    cat_loop o (fuel + 1) s =
      if s.ch.isSome && !s.istream.err && !s.ostream.err then cat_loop o fuel (cat_body o s)
      else s := rfl

/-- The first pass through the `for` body meets the write error of a device that
accepts no byte. -/
theorem cat_body_write_fails (o : Opts) (s : CatState) (b : Nat) (hch : s.ch = some b)
    (heol : s.eol = 0) (hroom : s.ostream.room = some 0) :
    (cat_body o s).ostream.err = true := by
  by_cases hb : b = 10
  · subst hb
    exact stable_line_part (fun s => s.ostream.err = true) stable_oerr o _
      (blank_loop_write_fails o s hch heol hroom (s.istream.data.length + 1))
  · have hne : s.ch ≠ some 10 := by
      rw [hch]
      intro h
      cases h
      exact hb rfl
    have hbl : blank_loop o (s.istream.data.length + 2) s = s :=
      (blank_loop_exit o (s.istream.data.length + 2) s
        (by have := pending_length_le s; omega)).2.2.2 hne
    have h2 : ∀ s2 : CatState, s2.ch = some b → s2.ostream.room = some 0 →
        (if o.opt_show_nonprinting then quote_loop o (s2.istream.data.length + 2) s2
          else plain_loop o (s2.istream.data.length + 2) s2).ostream.err = true := by
      intro s2 c2 r2
      split
      · exact quote_loop_write_fails o s2 b c2 hb r2 (s2.istream.data.length + 1)
      · exact plain_loop_write_fails o s2 b c2 hb r2 (s2.istream.data.length + 1)
    have hs2 : (if o.opt_number && s.ch.isSome then print_number s else s).ch = some b ∧
        (if o.opt_number && s.ch.isSome then print_number s else s).ostream.room = some 0 := by
      split
      · exact ⟨hch, stable_print_number (fun s => s.ostream.room = some 0) stable_room_zero s
          hroom⟩
      · exact ⟨hch, hroom⟩
    unfold cat_body
    dsimp only
    rw [hbl]
    exact h2 _ hs2.1 hs2.2

/-! ## C16: the return value of cat -/

/-- C16: for all streams, `cat` returns 0 or -1, and 0 exactly when in the end
neither error indicator is set and end-of-file was seen on the input; its loop
ends on an error or with the whole input consumed.  On error-free streams it
returns 0 with the input consumed.  It returns -1 when the device fails behind
the data (read error), when the output device accepts no byte for a non-empty
input (write error), and when an error indicator is already set on entry. -/
theorem C16_return_value (o : Opts) (cnt : Nat) (istream : IStream) (ostream : OStream) :
    ((cat o cnt istream ostream).rval = 0 ∨ (cat o cnt istream ostream).rval = -1) ∧
      ((cat o cnt istream ostream).rval = 0 ↔
        (cat o cnt istream ostream).istream.err = false ∧
          (cat o cnt istream ostream).ostream.err = false ∧
          (cat o cnt istream ostream).istream.eof = true) ∧
      ((cat o cnt istream ostream).istream.err = true ∨
        (cat o cnt istream ostream).ostream.err = true ∨
        ((cat o cnt istream ostream).istream.data = [] ∧
          (cat o cnt istream ostream).istream.eof = true)) ∧
      (istream.bad = false → istream.err = false → ostream.room = none →
        ostream.err = false →
        (cat o cnt istream ostream).rval = 0 ∧
          (cat o cnt istream ostream).istream.data = [] ∧
          (cat o cnt istream ostream).istream.eof = true) ∧
      (istream.bad = true → ostream.room = none → ostream.err = false →
        (cat o cnt istream ostream).istream.err = true ∧
          (cat o cnt istream ostream).rval = -1 ∧
          (istream.err = false → (cat o cnt istream ostream).istream.data = [])) ∧
      (istream.err = false → ostream.room = some 0 → istream.data ≠ [] →
        (cat o cnt istream ostream).ostream.err = true ∧
          (cat o cnt istream ostream).rval = -1) ∧
      (istream.err = true ∨ ostream.err = true → (cat o cnt istream ostream).rval = -1) := by
  have hF : ∀ F : CatState,
      ((if !F.istream.eof then (-1 : Int) else
          if F.ostream.err then -1 else if F.istream.err then -1 else 0) = 0 ∨
        (if !F.istream.eof then (-1 : Int) else
          if F.ostream.err then -1 else if F.istream.err then -1 else 0) = -1) ∧
      ((if !F.istream.eof then (-1 : Int) else
          if F.ostream.err then -1 else if F.istream.err then -1 else 0) = 0 ↔
        F.istream.err = false ∧ F.ostream.err = false ∧ F.istream.eof = true) := by
    intro F
    cases F.istream.eof <;> cases F.ostream.err <;> cases F.istream.err <;> simp
  have hrv : (cat o cnt istream ostream).rval =
      (if !(cat o cnt istream ostream).istream.eof then (-1 : Int) else
        if (cat o cnt istream ostream).ostream.err then -1 else
        if (cat o cnt istream ostream).istream.err then -1 else 0) := rfl
  have h12 : ((cat o cnt istream ostream).rval = 0 ∨ (cat o cnt istream ostream).rval = -1) ∧
      ((cat o cnt istream ostream).rval = 0 ↔
        (cat o cnt istream ostream).istream.err = false ∧
          (cat o cnt istream ostream).ostream.err = false ∧
          (cat o cnt istream ostream).istream.eof = true) := by
    rw [hrv]
    exact hF ⟨none, 0, 0, (cat o cnt istream ostream).istream,
      (cat o cnt istream ostream).ostream⟩
  obtain ⟨h1, h2⟩ := h12
  -- the state in which the `for` loop starts
  have hs0 : ∀ s0 : CatState,
      s0 =
        ({ ch := (fgetc istream).1, eol := 0, cnt_line := cnt,
           istream := (fgetc istream).2, ostream := ostream } : CatState) →
      (cat o cnt istream ostream).istream =
          (cat_loop o (istream.data.length + 2) s0).istream ∧
        (cat o cnt istream ostream).ostream =
          (cat_loop o (istream.data.length + 2) s0).ostream ∧
        ChEnd s0 ∧ (pending s0).length + 1 ≤ istream.data.length + 2 ∧
        s0.istream.bad = istream.bad ∧ (istream.err = true → s0.istream.err = true) ∧
        (istream.err = false → s0.istream.err = true → s0.istream.data = []) ∧
        (istream.err = false → istream.data ≠ [] →
          s0.istream.err = false ∧ ∃ b, s0.ch = some b) := by
    intro s0 e
    subst e
    refine ⟨rfl, rfl, ?_, ?_, ?_, ?_, ?_, ?_⟩
    · unfold ChEnd fgetc
      cases hd : istream.data with
      | nil => cases hb : istream.bad <;> simp
      | cons b rest => simp
    · unfold pending fgetc
      cases hd : istream.data with
      | nil => cases hb : istream.bad <;> simp
      | cons b rest => simp
    · show (fgetc istream).2.bad = istream.bad
      unfold fgetc
      cases hd : istream.data with
      | nil => cases hb : istream.bad <;> simp
      | cons b rest => simp
    · intro he
      show (fgetc istream).2.err = true
      unfold fgetc
      cases hd : istream.data with
      | nil => cases hb : istream.bad <;> simp [he]
      | cons b rest => simpa using he
    · intro he
      show (fgetc istream).2.err = true → (fgetc istream).2.data = []
      unfold fgetc
      cases hd : istream.data with
      | nil => cases hb : istream.bad <;> simp [hd]
      | cons b rest => simp [he]
    · intro he hne
      show (fgetc istream).2.err = false ∧ ∃ b, (fgetc istream).1 = some b
      unfold fgetc
      cases hd : istream.data with
      | nil => exact absurd hd hne
      | cons b rest => simp [he]
  obtain ⟨e1, e2, g1, g2, g3, g4, g5, g6⟩ := hs0 _ rfl
  generalize hs :
    ({ ch := (fgetc istream).1, eol := 0, cnt_line := cnt,
       istream := (fgetc istream).2, ostream := ostream } : CatState) = s0
    at e1 e2 g1 g2 g3 g4 g5 g6
  have heol : s0.eol = 0 := by rw [← hs]
  have hos : s0.ostream = ostream := by rw [← hs]
  have hexit := cat_loop_exit o (istream.data.length + 2) s0 g2
  have hend : ChEnd (cat_loop o (istream.data.length + 2) s0) :=
    stable_cat_loop ChEnd stable_ch_end o _ s0 g1
  have hbad : (cat_loop o (istream.data.length + 2) s0).istream.bad = istream.bad :=
    stable_cat_loop _ (stable_bad istream.bad) o _ s0 g3
  have hneg : ∀ {x : Int}, (x = 0 ∨ x = -1) → x ≠ 0 → x = -1 := by
    intro x hx h0
    rcases hx with hx | hx
    · exact absurd hx h0
    · exact hx
  refine ⟨h1, h2, ?_, ?_, ?_, ?_, ?_⟩
  · rw [e1, e2]
    rcases hexit with hc | hc | hc
    · obtain ⟨d1, d2, d3⟩ := hend hc
      cases hb : (cat_loop o (istream.data.length + 2) s0).istream.bad
      · exact Or.inr (Or.inr ⟨d1, d3 hb⟩)
      · exact Or.inl (d2 hb)
    · exact Or.inl hc
    · exact Or.inr (Or.inl hc)
  · intro hi hie ho hoe
    obtain ⟨_, _, c3, c4⟩ := cat_eq_flat o cnt istream ostream hi hie ho hoe
    obtain ⟨_, _, _, c8⟩ := cat_streams_ok o cnt istream ostream hi hie ho hoe
    exact ⟨c3, c4, c8⟩
  · intro hb ho hoe
    have hout : (cat_loop o (istream.data.length + 2) s0).ostream.room = none ∧
        (cat_loop o (istream.data.length + 2) s0).ostream.err = false :=
      stable_cat_loop (fun s => s.ostream.room = none ∧ s.ostream.err = false) stable_out_ok
        o _ s0 (by show s0.ostream.room = none ∧ s0.ostream.err = false; rw [hos]; exact ⟨ho, hoe⟩)
    have herr : (cat o cnt istream ostream).istream.err = true := by
      rw [e1]
      rcases hexit with hc | hc | hc
      · exact (hend hc).2.1 (by rw [hbad, hb])
      · exact hc
      · rw [hout.2] at hc
        cases hc
    refine ⟨herr, hneg h1 (fun h0 => ?_), fun hie => ?_⟩
    · have := (h2.mp h0).1
      rw [herr] at this
      cases this
    · rw [e1]
      rw [e1] at herr
      exact stable_cat_loop (fun s => s.istream.err = true → s.istream.data = [])
        stable_err_at_end o _ s0 (g5 hie) herr
  · intro hie hroom hne
    obtain ⟨k1, b, k2⟩ := g6 hie hne
    have herr : (cat o cnt istream ostream).ostream.err = true := by
      rw [e2]
      cases hoe : s0.ostream.err with
      | true =>
        exact stable_cat_loop (fun s => s.ostream.err = true) stable_oerr o _ s0 hoe
      | false =>
        have hg : (s0.ch.isSome && !s0.istream.err && !s0.ostream.err) = true := by
          rw [k2, k1, hoe]
          rfl
        have hstep : cat_loop o (istream.data.length + 2) s0 =
            cat_loop o (istream.data.length + 1) (cat_body o s0) := by
          show cat_loop o (istream.data.length + 1 + 1) s0 = _
          rw [cat_loop_succ, if_pos hg]
        rw [hstep]
        exact stable_cat_loop (fun s => s.ostream.err = true) stable_oerr o _ _
          (cat_body_write_fails o s0 b k2 heol (by rw [hos]; exact hroom))
    refine ⟨herr, hneg h1 (fun h0 => ?_)⟩
    have := (h2.mp h0).2.1
    rw [herr] at this
    cases this
  · intro h
    refine hneg h1 (fun h0 => ?_)
    obtain ⟨z1, z2, _⟩ := h2.mp h0
    rcases h with h | h
    · have : (cat o cnt istream ostream).istream.err = true := by
        rw [e1]
        exact stable_cat_loop (fun s => s.istream.err = true) stable_ierr o _ s0 (g4 h)
      rw [this] at z1
      cases z1
    · have : (cat o cnt istream ostream).ostream.err = true := by
        rw [e2]
        exact stable_cat_loop (fun s => s.ostream.err = true) stable_oerr o _ s0
          (by show s0.ostream.err = true; rw [hos]; exact h)
      rw [this] at z2
      cases z2

/-- C16 at the input "a\n": on error-free streams `cat` returns 0; it returns -1
when the device fails behind the data, and when the output device accepts no
byte. -/
theorem C16_return_value_witness :
    ((IStream.ofBytes [97, 10]).bad = false ∧ (IStream.ofBytes [97, 10]).err = false ∧
        OStream.fresh.room = none ∧ OStream.fresh.err = false ∧
        (cat Opts.none 0 (IStream.ofBytes [97, 10]) OStream.fresh).rval = 0) ∧
      (cat Opts.none 0 { data := [97, 10], bad := true, eof := false, err := false }
          OStream.fresh).rval = -1 ∧
      (cat Opts.none 0 (IStream.ofBytes [97, 10])
          { out := [], room := some 0, err := false }).rval = -1 ∧
      (cat Opts.none 0 { data := [97, 10], bad := false, eof := false, err := true }
          OStream.fresh).rval = -1 :=
  ⟨⟨rfl, rfl, rfl, rfl,
      ((C16_return_value Opts.none 0 (IStream.ofBytes [97, 10]) OStream.fresh).2.2.2.1
        rfl rfl rfl rfl).1⟩,
    ((C16_return_value Opts.none 0 { data := [97, 10], bad := true, eof := false, err := false }
      OStream.fresh).2.2.2.2.1 rfl rfl rfl).2.1,
    ((C16_return_value Opts.none 0 (IStream.ofBytes [97, 10])
      { out := [], room := some 0, err := false }).2.2.2.2.2.1 rfl rfl (by decide)).2,
    (C16_return_value Opts.none 0 { data := [97, 10], bad := false, eof := false, err := true }
      OStream.fresh).2.2.2.2.2.2 (Or.inl rfl)⟩

/-! ## Lines and squeezing -/

theorem lines_ok_split_lines (X : List Nat) : LinesOk (split_lines X) := by
  induction X with
  | nil => simp [split_lines, LinesOk]
  | cons b rest ih =>
    by_cases hb : b = 10
    · subst hb
      have e : split_lines (10 :: rest) = [10] :: split_lines rest := by simp [split_lines]
      rw [e]
      exact ⟨Or.inl ⟨[], rfl, by simp⟩, ih⟩
    · obtain ⟨l, ls, hs, hrest⟩ := split_lines_cons_ne b rest hb
      rw [hs]
      rcases hrest with ⟨_, h2, h3⟩ | h1
      · subst h2 h3
        exact ⟨Or.inr ⟨rfl, by simp, by simpa using Ne.symm hb⟩, trivial⟩
      · rw [h1] at ih
        obtain ⟨i1, i2⟩ := ih
        refine ⟨?_, i2⟩
        rcases i1 with ⟨body, e1, e2⟩ | ⟨e1, _, e3⟩
        · refine Or.inl ⟨b :: body, by rw [e1]; rfl, ?_⟩
          intro hm
          rcases List.mem_cons.mp hm with h | h
          · exact hb h.symm
          · exact e2 h
        · refine Or.inr ⟨e1, by simp, ?_⟩
          intro hm
          rcases List.mem_cons.mp hm with h | h
          · exact hb h.symm
          · exact e3 h

theorem split_lines_line_append (body R : List Nat) (h : 10 ∉ body) :
    split_lines (body ++ 10 :: R) = (body ++ [10]) :: split_lines R := by
  induction body with
  | nil => simp [split_lines]
  | cons b body ih =>
    have hb : b ≠ 10 := fun e => h (by rw [e]; exact List.mem_cons_self _ _)
    have := ih (fun hm => h (List.mem_cons_of_mem _ hm))
    simp [split_lines, hb, this]

theorem split_lines_single (l : List Nat) (hne : l ≠ []) (h : 10 ∉ l) :
    split_lines l = [l] := by
  induction l with
  | nil => exact absurd rfl hne
  | cons b l ih =>
    have hb : b ≠ 10 := fun e => h (by rw [e]; exact List.mem_cons_self _ _)
    cases l with
    | nil => simp [split_lines, hb]
    | cons c l =>
      have := ih (by simp) (fun hm => h (List.mem_cons_of_mem _ hm))
      rw [split_lines, if_neg hb, this]

/-- Splitting undoes joining for lines as `split_lines` produces them. -/
theorem split_lines_flatten (ls : List (List Nat)) (h : LinesOk ls) :
    split_lines ls.flatten = ls := by
  induction ls with
  | nil => simp [split_lines]
  | cons l ls ih =>
    obtain ⟨h1, h2⟩ := h
    rcases h1 with ⟨body, e1, e2⟩ | ⟨e1, e2, e3⟩
    · subst e1
      rw [List.flatten_cons, List.append_assoc, List.singleton_append,
        split_lines_line_append body _ e2, ih h2]
    · subst e1
      rw [List.flatten_cons, List.flatten_nil, List.append_nil]
      exact split_lines_single l e2 e3

theorem lines_ok_dropWhile (ls : List (List Nat)) (h : LinesOk ls) :
    LinesOk (ls.dropWhile (· = [10])) := by
  induction ls with
  | nil => exact h
  | cons l ls ih =>
    by_cases hl : l = [10]
    · simp only [List.dropWhile, hl, decide_True]
      exact ih h.2
    · simp only [List.dropWhile, hl, decide_False]
      exact h

theorem lines_ok_squeeze (n : Nat) :
    ∀ ls : List (List Nat), ls.length ≤ n → LinesOk ls → LinesOk (squeeze_blank_runs ls) := by
  induction n with
  | zero =>
    intro ls h _
    have : ls = [] := List.length_eq_zero.mp (by omega)
    subst this
    simp [squeeze_blank_runs, LinesOk]
  | succ n ih =>
    intro ls h hok
    cases ls with
    | nil => simp [squeeze_blank_runs, LinesOk]
    | cons l ls =>
      have hd := (List.dropWhile_sublist (l := ls) (· = [10])).length_le
      simp only [List.length_cons] at h
      by_cases hl : l = [10]
      · subst hl
        rw [squeeze_blank_runs_cons_blank]
        exact ⟨Or.inl ⟨[], rfl, by simp⟩,
          ih _ (by omega) (lines_ok_dropWhile ls hok.2)⟩
      · rw [squeeze_blank_runs_cons_other l ls hl]
        refine ⟨?_, ih ls (by omega) hok.2⟩
        rcases hok.1 with h1 | ⟨e1, e2, e3⟩
        · exact Or.inl h1
        · subst e1
          exact Or.inr ⟨by simp [squeeze_blank_runs], e2, e3⟩

theorem dropWhile_blank_head (ls : List (List Nat)) :
    (ls.dropWhile (· = [10])).head? ≠ some [10] := by
  induction ls with
  | nil => simp
  | cons l ls ih =>
    by_cases hl : l = [10]
    · simp only [List.dropWhile, hl, decide_True]
      exact ih
    · simp only [List.dropWhile, hl, decide_False, List.head?_cons]
      intro h
      injection h with h
      exact hl h

theorem squeeze_blank_runs_head (ls : List (List Nat)) (h : ls.head? ≠ some [10]) :
    (squeeze_blank_runs ls).head? ≠ some [10] := by
  cases ls with
  | nil => simp [squeeze_blank_runs]
  | cons l ls =>
    have hl : l ≠ [10] := fun e => h (by rw [e]; rfl)
    rw [squeeze_blank_runs_cons_other l ls hl]
    exact h

theorem dropWhile_blank_eq_self (ls : List (List Nat)) (h : ls.head? ≠ some [10]) :
    ls.dropWhile (· = [10]) = ls := by
  cases ls with
  | nil => rfl
  | cons l ls =>
    have hl : l ≠ [10] := fun e => h (by rw [e]; rfl)
    simp [List.dropWhile, hl]

/-- Squeezing a squeezed list of lines changes nothing. -/
theorem squeeze_blank_runs_idem (n : Nat) :
    ∀ ls : List (List Nat), ls.length ≤ n →
      squeeze_blank_runs (squeeze_blank_runs ls) = squeeze_blank_runs ls := by
  induction n with
  | zero =>
    intro ls h
    have : ls = [] := List.length_eq_zero.mp (by omega)
    subst this
    simp [squeeze_blank_runs]
  | succ n ih =>
    intro ls h
    cases ls with
    | nil => simp [squeeze_blank_runs]
    | cons l ls =>
      have hd := (List.dropWhile_sublist (l := ls) (· = [10])).length_le
      simp only [List.length_cons] at h
      by_cases hl : l = [10]
      · subst hl
        rw [squeeze_blank_runs_cons_blank, squeeze_blank_runs_cons_blank,
          dropWhile_blank_eq_self _ (squeeze_blank_runs_head _ (dropWhile_blank_head ls)),
          ih _ (by omega)]
      · rw [squeeze_blank_runs_cons_other l ls hl,
          squeeze_blank_runs_cons_other l _ hl, ih ls (by omega)]

/-- A squeezed list of lines has no two blank lines in a row. -/
theorem squeeze_blank_runs_chain (n : Nat) :
    ∀ ls : List (List Nat), ls.length ≤ n →
      List.Chain' (fun a b => ¬ (a = [10] ∧ b = [10])) (squeeze_blank_runs ls) := by
  induction n with
  | zero =>
    intro ls h
    have : ls = [] := List.length_eq_zero.mp (by omega)
    subst this
    simp [squeeze_blank_runs]
  | succ n ih =>
    intro ls h
    cases ls with
    | nil => simp [squeeze_blank_runs]
    | cons l ls =>
      have hd := (List.dropWhile_sublist (l := ls) (· = [10])).length_le
      simp only [List.length_cons] at h
      by_cases hl : l = [10]
      · subst hl
        rw [squeeze_blank_runs_cons_blank, List.chain'_cons']
        refine ⟨fun y hy hh => ?_, ih _ (by omega)⟩
        have := squeeze_blank_runs_head _ (dropWhile_blank_head ls)
        rw [Option.mem_def] at hy
        rw [hy, hh.2] at this
        exact this rfl
      · rw [squeeze_blank_runs_cons_other l ls hl, List.chain'_cons']
        exact ⟨fun y _ hh => hl hh.1, ih ls (by omega)⟩

/-- What `cat -s` writes, and that it only writes bytes. -/
theorem cat_squeeze_only (cnt : Nat) (X : List Nat) (hX : ∀ b ∈ X, b < 256) :
    (cat Opts.squeeze_only cnt (IStream.ofBytes X) OStream.fresh).ostream.out =
        (squeeze_blank_runs (split_lines X)).flatten ∧
      ∀ b ∈ (cat Opts.squeeze_only cnt (IStream.ofBytes X) OStream.fresh).ostream.out,
        b < 256 := by
  constructor
  · rw [(cat_eq_cat_lines Opts.squeeze_only cnt X hX).1,
      cat_lines_squeeze Opts.squeeze_only rfl rfl rfl rfl rfl _ 0 cnt (le_refl _)]
    simp
  · intro b hb
    rw [(cat_eq_flat Opts.squeeze_only cnt (IStream.ofBytes X) OStream.fresh rfl rfl rfl
      rfl).1] at hb
    simp only [OStream.fresh, List.nil_append, List.mem_map] at hb
    obtain ⟨c, _, rfl⟩ := hb
    exact Nat.mod_lt _ (by decide)

/-! ## C20: squeeze-blank is idempotent -/

/-- C20: for every input of bytes, `cat` with squeeze-blank as the only option
run on its own output writes that output again, whatever the counters; and the
lines of its output hold no two blank lines in a row. -/
theorem C20_squeeze_idempotent (cnt cnt2 : Nat) (X : List Nat) (hX : ∀ b ∈ X, b < 256) :
    (cat Opts.squeeze_only cnt2
        (IStream.ofBytes (cat Opts.squeeze_only cnt (IStream.ofBytes X) OStream.fresh).ostream.out)
        OStream.fresh).ostream.out =
        (cat Opts.squeeze_only cnt (IStream.ofBytes X) OStream.fresh).ostream.out ∧
      List.Chain' (fun a b => ¬ (a = [10] ∧ b = [10]))
        (split_lines
          (cat Opts.squeeze_only cnt (IStream.ofBytes X) OStream.fresh).ostream.out) := by
  obtain ⟨h1, h2⟩ := cat_squeeze_only cnt X hX
  have hok : LinesOk (squeeze_blank_runs (split_lines X)) :=
    lines_ok_squeeze _ _ (le_refl _) (lines_ok_split_lines X)
  have hsplit : split_lines
      (cat Opts.squeeze_only cnt (IStream.ofBytes X) OStream.fresh).ostream.out =
      squeeze_blank_runs (split_lines X) := by
    rw [h1, split_lines_flatten _ hok]
  constructor
  · rw [(cat_squeeze_only cnt2 _ h2).1, hsplit, squeeze_blank_runs_idem _ _ (le_refl _), h1]
  · rw [hsplit]
    exact squeeze_blank_runs_chain _ _ (le_refl _)

/-- C20 at the input "a\\n\\n\\nb\\n": the output "a\\n\\nb\\n" is reproduced. -/
theorem C20_squeeze_idempotent_witness :
    (∀ b ∈ [97, 10, 10, 10, 98, 10], b < 256) ∧
      (cat Opts.squeeze_only 0 (IStream.ofBytes [97, 10, 10, 10, 98, 10])
          OStream.fresh).ostream.out = [97, 10, 10, 98, 10] ∧
      (cat Opts.squeeze_only 0
        (IStream.ofBytes (cat Opts.squeeze_only 0 (IStream.ofBytes [97, 10, 10, 10, 98, 10])
          OStream.fresh).ostream.out) OStream.fresh).ostream.out =
        (cat Opts.squeeze_only 0 (IStream.ofBytes [97, 10, 10, 10, 98, 10])
          OStream.fresh).ostream.out :=
  ⟨by decide, by decide,
    (C20_squeeze_idempotent 0 0 [97, 10, 10, 10, 98, 10] (by decide)).1⟩

/-! ## The bytes cat writes without numbering -/

/-- Without numbering every byte of the one-pass description stems from the
visualisation of a non-newline input byte or from the end of a line. -/
theorem flat_forall (o : Opts) (P : Nat → Prop) (hn : o.opt_number = false) (X : List Nat)
    (hb : ∀ b ∈ X, b ≠ 10 → ∀ c ∈ show_byte o b, P c)
    (he : ∀ c ∈ end_line_bytes o, P c) :
    ∀ m eol cnt, ∀ c ∈ (flat o m eol cnt X).1, P c := by
  induction X with
  | nil => intro m eol cnt c hc; cases m <;> simp [flat] at hc
  | cons b rest ih =>
    have ih := ih (fun d hd => hb d (List.mem_cons_of_mem _ hd))
    have hb := hb b (List.mem_cons_self _ _)
    have hnb : ∀ cnt, (number_blank_bytes o cnt).1 = [] := by
      intro cnt
      unfold number_blank_bytes
      rw [hn]
      rfl
    have hnl : ∀ cnt, (number_line_bytes o cnt).1 = [] := by
      intro cnt
      unfold number_line_bytes
      rw [hn]
      rfl
    intro m eol cnt c hc
    cases m
    · unfold flat at hc
      split_ifs at hc with h10
      · exact ih _ _ _ c hc
      · simp only [List.mem_append, hnb, List.not_mem_nil, false_or] at hc
        rcases hc with hc | hc
        · exact he c hc
        · exact ih _ _ _ c hc
      · simp only [List.mem_append, hnb, List.not_mem_nil, false_or] at hc
        rcases hc with hc | hc
        · exact he c hc
        · exact ih _ _ _ c hc
      · simp only [List.mem_append] at hc
        rcases hc with hc | hc
        · exact he c hc
        · exact ih _ _ _ c hc
      · simp only [List.mem_append, hnl, List.not_mem_nil, false_or] at hc
        rcases hc with hc | hc
        · exact hb h10 c hc
        · exact ih _ _ _ c hc
    · unfold flat at hc
      split_ifs at hc with h10
      · simp only [List.mem_append] at hc
        rcases hc with hc | hc
        · exact he c hc
        · exact ih _ _ _ c hc
      · simp only [List.mem_append] at hc
        rcases hc with hc | hc
        · exact hb h10 c hc
        · exact ih _ _ _ c hc

/-- The caret and meta notation only uses printable ASCII, apart from the tab
that is copied when `opt_show_tabs` is clear. -/
theorem quote_byte_printable (o : Opts) (b : Nat) (hb : b < 256) :
    ∀ c ∈ quote_byte o b, (32 ≤ c ∧ c ≤ 126) ∨ (o.opt_show_tabs = false ∧ c = 9) := by
  intro c hc
  unfold quote_byte at hc
  by_cases h1 : b < 32
  · rw [if_pos h1] at hc
    by_cases h2 : (b = 9 && !o.opt_show_tabs) = true
    · rw [if_pos h2] at hc
      simp only [Bool.and_eq_true, decide_eq_true_eq, Bool.not_eq_true'] at h2
      simp only [List.mem_singleton] at hc
      exact Or.inr ⟨h2.2, hc⟩
    · rw [if_neg h2] at hc
      simp only [List.mem_cons, List.mem_singleton, List.not_mem_nil, or_false] at hc
      left
      omega
  · rw [if_neg h1] at hc
    left
    split_ifs at hc <;>
      simp only [List.mem_cons, List.mem_singleton, List.not_mem_nil, or_false,
        List.cons_append, List.nil_append] at hc <;> omega

theorem end_line_bytes_printable (o : Opts) :
    ∀ c ∈ end_line_bytes o, c = 10 ∨ c = 36 := by
  intro c hc
  unfold end_line_bytes at hc
  split_ifs at hc <;> simp at hc <;> omega

/-- With show-nonprinting and without numbering, `cat` on bytes writes newlines,
printable ASCII, and tabs only when `opt_show_tabs` is clear. -/
theorem cat_quote_bytes (o : Opts) (cnt : Nat) (X : List Nat) (hX : ∀ b ∈ X, b < 256)
    (hv : o.opt_show_nonprinting = true) (hn : o.opt_number = false) :
    ∀ c ∈ (cat o cnt (IStream.ofBytes X) OStream.fresh).ostream.out,
      c = 10 ∨ (32 ≤ c ∧ c ≤ 126) ∨ (o.opt_show_tabs = false ∧ c = 9) := by
  have h1 := (cat_eq_flat o cnt (IStream.ofBytes X) OStream.fresh rfl rfl rfl rfl).1
  have hl := map_mod_eq_self _ (flat_lt o X hX false 0 cnt)
  simp only [OStream.fresh, IStream.ofBytes, List.nil_append] at h1 hl
  rw [hl] at h1
  intro c hc
  rw [show (cat o cnt (IStream.ofBytes X) OStream.fresh).ostream.out =
    (flat o false 0 cnt X).1 from h1] at hc
  refine flat_forall o
    (fun c => c = 10 ∨ (32 ≤ c ∧ c ≤ 126) ∨ (o.opt_show_tabs = false ∧ c = 9)) hn X
    (fun b hb _ d hd => ?_) (fun d hd => ?_) false 0 cnt c hc
  · unfold show_byte at hd
    rw [if_pos hv] at hd
    exact Or.inr (quote_byte_printable o b (hX b hb) d hd)
  · rcases end_line_bytes_printable o d hd with h | h
    · exact Or.inl h
    · exact Or.inr (Or.inl (by omega))

/-! ## C21: the bytes written under show-nonprinting -/

/-- C21: with show-nonprinting set and number-all clear (so that no line is
numbered), for every input over all 256 byte values: if show-tabs is set, every
byte `cat` writes other than newline lies in 0x20-0x7E; if show-tabs is clear,
every byte written other than newline lies in 0x20-0x7E or is a tab. -/
theorem C21_printable_output (o : Opts) (cnt : Nat) (X : List Nat) (hX : ∀ b ∈ X, b < 256)
    (hv : o.opt_show_nonprinting = true) (hn : o.opt_number = false) :
    (o.opt_show_tabs = true →
        ∀ c ∈ (cat o cnt (IStream.ofBytes X) OStream.fresh).ostream.out,
          c ≠ 10 → 32 ≤ c ∧ c ≤ 126) ∧
      (o.opt_show_tabs = false →
        ∀ c ∈ (cat o cnt (IStream.ofBytes X) OStream.fresh).ostream.out,
          c ≠ 10 → (32 ≤ c ∧ c ≤ 126) ∨ c = 9) := by
  have h := cat_quote_bytes o cnt X hX hv hn
  constructor
  · intro ht c hc h10
    rcases h c hc with h1 | h1 | ⟨h1, _⟩
    · exact absurd h1 h10
    · exact h1
    · rw [ht] at h1
      cases h1
  · intro _ c hc h10
    rcases h c hc with h1 | h1 | ⟨_, h1⟩
    · exact absurd h1 h10
    · exact Or.inl h1
    · exact Or.inr h1

/-- C21 at the input of the bytes 0x09, 0x89, 0xFF, 0x00, 0x0A, 0xC8: `cat -vT`
writes "^IM-^IM-^?^@\\nM-H", and `cat -v` writes the tab itself. -/
theorem C21_printable_output_witness :
    ((∀ b ∈ [9, 137, 255, 0, 10, 200], b < 256) ∧
        Opts.show_nonprinting_only.with_tabs.opt_show_nonprinting = true ∧
        Opts.show_nonprinting_only.with_tabs.opt_number = false ∧
        Opts.show_nonprinting_only.with_tabs.opt_show_tabs = true ∧
        Opts.show_nonprinting_only.opt_show_tabs = false) ∧
      (∀ c ∈ (cat Opts.show_nonprinting_only.with_tabs 0
          (IStream.ofBytes [9, 137, 255, 0, 10, 200]) OStream.fresh).ostream.out,
        c ≠ 10 → 32 ≤ c ∧ c ≤ 126) ∧
      (∀ c ∈ (cat Opts.show_nonprinting_only 0
          (IStream.ofBytes [9, 137, 255, 0, 10, 200]) OStream.fresh).ostream.out,
        c ≠ 10 → (32 ≤ c ∧ c ≤ 126) ∨ c = 9) ∧
      (cat Opts.show_nonprinting_only.with_tabs 0
          (IStream.ofBytes [9, 137, 255, 0, 10, 200]) OStream.fresh).ostream.out =
        [94, 73, 77, 45, 94, 73, 77, 45, 94, 63, 94, 64, 10, 77, 45, 72] ∧
      (cat Opts.show_nonprinting_only 0
          (IStream.ofBytes [9, 137, 255, 0, 10, 200]) OStream.fresh).ostream.out =
        [9, 77, 45, 94, 73, 77, 45, 94, 63, 94, 64, 10, 77, 45, 72] :=
  ⟨⟨by decide, rfl, rfl, rfl, rfl⟩,
    (C21_printable_output Opts.show_nonprinting_only.with_tabs 0 [9, 137, 255, 0, 10, 200]
      (by decide) rfl rfl).1 rfl,
    (C21_printable_output Opts.show_nonprinting_only 0 [9, 137, 255, 0, 10, 200]
      (by decide) rfl rfl).2 rfl,
    by decide, by decide⟩

end CatGrep
